import Mathlib

/-!
# Event islands of the Moby contact/constraint event core

A shallow embedding of `Event.cpp`: the island partitioner
`Event::determine_connected_events`, the event classifier and
`Event::remove_nonimpacting_groups`, with the properties proved about them.

Pointers to bodies are natural numbers (their order is the pointer order used
by `std::set`); an `Event*` into the event vector is the index of the event.
-/

namespace Moby

/-! ## Data model -/

/-- Scalar type of the library (a floating-point typedef in the source), taken
as exact rational numbers. -/
abbrev Real := ℚ

/-- Pointer to a single (rigid) body; compared and ordered as an address. -/
abbrev SingleBodyPtr := Nat

/-- Pointer to a rigid body (every rigid body is a single body). -/
abbrev RigidBodyPtr := Nat

/-- Pointer to an articulated body. -/
abbrev ArticulatedBodyPtr := Nat

/-- Three-dimensional vector. -/
structure Vector3 where
  x : Real
  y : Real
  z : Real
deriving DecidableEq, Repr

/-- Modelled from the spec: the body interface (`SingleBody`, `RigidBody`,
`ArticulatedBody`, whose headers are not part of the sources at hand): whether
a body is enabled, the articulated body owning it (if any), the links of an
articulated body, and the scalar velocity of a point of a body along a
direction. -/
structure Bodies where
  is_enabled : SingleBodyPtr → Bool
  get_articulated_body : SingleBodyPtr → Option ArticulatedBodyPtr
  get_links : ArticulatedBodyPtr → List RigidBodyPtr
  calc_point_vel : SingleBodyPtr → Vector3 → Vector3 → Real

/-- The `event_type` tag of an event. -/
inductive EventType where
  | eNone
  | eContact
  | eLimit
  | eConstraint
deriving DecidableEq, Repr

/-- The kinematic class returned by `determine_event_class`. -/
inductive EventClass where
  | eSeparating
  | eResting
  | eImpacting
deriving DecidableEq, Repr

/-- A collision geometry, as far as events use it: the single body it belongs
to (`get_single_body()`, possibly a null pointer). -/
structure CollisionGeometry where
  get_single_body : Option SingleBodyPtr
deriving DecidableEq, Repr

/-- A joint, as far as events use it: its inboard and outboard links and the
velocities `qd` of its degrees of freedom. -/
structure Joint where
  get_inboard_link : RigidBodyPtr
  get_outboard_link : RigidBodyPtr
  qd : List Real
deriving DecidableEq, Repr

/-- The fields of `Event` read by the operations below. The shared pointers
`contact_geom1`, `contact_geom2`, `limit_joint` and `constraint_joint` may be
null (`none`). -/
structure Event where
  tol : Real
  event_type : EventType
  limit_dof : Nat
  limit_upper : Bool
  limit_joint : Option Joint
  contact_normal : Vector3
  contact_point : Vector3
  contact_geom1 : Option CollisionGeometry
  contact_geom2 : Option CollisionGeometry
  constraint_joint : Option Joint
deriving DecidableEq, Repr

/-! ## Event velocity and classification -/

/-- `Event::calc_event_vel`: relative normal velocity of a contact, signed
joint velocity of a limit; the assertions (`contact_geom1 && contact_geom2`,
`sb1 && sb2`, `assert(false)` for the other types) and the dereference of a
null joint or of a degree of freedom outside `qd` give `none`. -/
def Event.calc_event_vel (B : Bodies) (e : Event) : Option Real :=
  match e.event_type with
  | .eContact =>
    match e.contact_geom1, e.contact_geom2 with
    | some g1, some g2 =>
      match g1.get_single_body, g2.get_single_body with
      | some sb1, some sb2 =>
        some (B.calc_point_vel sb1 e.contact_point e.contact_normal
          - B.calc_point_vel sb2 e.contact_point e.contact_normal)
      | _, _ => none
    | _, _ => none
  | .eLimit =>
    match e.limit_joint with
    | some j =>
      match j.qd[e.limit_dof]? with
      | some qd => some (if e.limit_upper then -qd else qd)
      | none => none
    | none => none
  | _ => none

/-- `Event::determine_event_class`: separating above `tol`, impacting below
`-tol`, resting otherwise; fails when `calc_event_vel` fails. -/
def Event.determine_event_class (B : Bodies) (e : Event) : Option EventClass :=
  match e.calc_event_vel B with
  | none => none
  | some vel =>
    some (if vel > e.tol then EventClass.eSeparating
      else if vel < -e.tol then EventClass.eImpacting
      else EventClass.eResting)

/-- Modelled from the spec: `Event::is_impacting` (declared in `Event.h`, which
is not part of the sources at hand): the event is classified Impacting by
`determine_event_class`. -/
def Event.is_impacting (B : Bodies) (e : Event) : Option Bool :=
  match e.determine_event_class B with
  | none => none
  | some c => some (decide (c = EventClass.eImpacting))

/-! ## Removing the groups without impact -/

/-- The inner loop of `remove_nonimpacting_groups`: scan the group until the
first impacting event (`break`); `none` when a scanned event cannot be
classified. -/
def Event.impact_detected (B : Bodies) : List Event → Option Bool
  | [] => some false
  | e :: es =>
    match e.is_impacting B with
    | none => none
    | some true => some true
    | some false => Event.impact_detected B es

/-- `Event::remove_nonimpacting_groups`: walk the list of groups, erasing each
group in which no impact was detected. -/
def Event.remove_nonimpacting_groups (B : Bodies) : List (List Event) → Option (List (List Event))
  | [] => some []
  | g :: gs =>
    match Event.impact_detected B g with
    | none => none
    | some detected =>
      match Event.remove_nonimpacting_groups B gs with
      | none => none
      | some rest => some (if detected then g :: rest else rest)

/-- A group contains at least one event classified Impacting. -/
def Event.has_impact (B : Bodies) (g : List Event) : Bool :=
  g.any (fun e => decide (e.is_impacting B = some true))

/-! ## Connected events (islands) -/

/-- An entry of `events_copy`: the pointer to an event (its index in the event
vector) together with what the loops read through it, the event type and the
two bodies of the event. -/
structure EventRef where
  ptr : Nat
  event_type : EventType
  sb1 : SingleBodyPtr
  sb2 : SingleBodyPtr
deriving DecidableEq, Repr

/-- The two bodies that `determine_connected_events` reads from an event: the
single bodies of the two geometries of a contact, the inboard and outboard
links of the joint of a limit or constraint event. `none` when a pointer on
the way is null (the code dereferences it unchecked) and for type `eNone`. -/
def Event.get_bodies (e : Event) : Option (SingleBodyPtr × SingleBodyPtr) :=
  match e.event_type with
  | .eContact =>
    match e.contact_geom1, e.contact_geom2 with
    | some g1, some g2 =>
      match g1.get_single_body, g2.get_single_body with
      | some sb1, some sb2 => some (sb1, sb2)
      | _, _ => none
    | _, _ => none
  | .eLimit =>
    match e.limit_joint with
    | some j => some (j.get_inboard_link, j.get_outboard_link)
    | none => none
  | .eConstraint =>
    match e.constraint_joint with
    | some j => some (j.get_inboard_link, j.get_outboard_link)
    | none => none
  | .eNone => none

/-- The copy of the event list: the events from index `i` on whose type is not
`eNone`, in order, each with its bodies. The first loop over the copy
dereferences the references of every copied event, so a null reference makes
the whole call fail. -/
def copy_events : Nat → List Event → Option (List EventRef)
  | _, [] => some []
  | i, e :: es =>
    if e.event_type = EventType.eNone then copy_events (i + 1) es
    else
      match e.get_bodies, copy_events (i + 1) es with
      | some (b1, b2), some rs =>
        some ({ ptr := i, event_type := e.event_type, sb1 := b1, sb2 := b2 } :: rs)
      | _, _ => none

/-- Insertion into `std::set<SingleBodyPtr>`, kept as a strictly increasing
list. -/
def set_insert (b : SingleBodyPtr) : List SingleBodyPtr → List SingleBodyPtr
  | [] => [b]
  | x :: xs =>
    if b < x then b :: x :: xs
    else if b = x then x :: xs
    else x :: set_insert b xs

/-- The body graph under construction: the node set and the edge multimap (the
pairs in insertion order, so that `equal_range` of a key lists its values in
insertion order). -/
structure Graph where
  nodes : List SingleBodyPtr
  edges : List (SingleBodyPtr × SingleBodyPtr)
deriving DecidableEq, Repr

/-- One pass of the loop over `events_copy` that collects the single bodies:
a contact adds its enabled bodies and, when both are enabled, the two directed
edges; a limit or constraint event adds both links of its joint. -/
def add_event_nodes (B : Bodies) (g : Graph) (r : EventRef) : Graph :=
  match r.event_type with
  | .eContact =>
    let nodes1 := if B.is_enabled r.sb1 then set_insert r.sb1 g.nodes else g.nodes
    let nodes2 := if B.is_enabled r.sb2 then set_insert r.sb2 nodes1 else nodes1
    { nodes := nodes2,
      edges := if B.is_enabled r.sb1 && B.is_enabled r.sb2
        then g.edges ++ [(r.sb1, r.sb2), (r.sb2, r.sb1)] else g.edges }
  | .eLimit => { nodes := set_insert r.sb2 (set_insert r.sb1 g.nodes), edges := g.edges }
  | .eConstraint => { nodes := set_insert r.sb2 (set_insert r.sb1 g.nodes), edges := g.edges }
  | .eNone => g

/-- The nodes and contact edges of all copied events. -/
def collect_nodes (B : Bodies) (rs : List EventRef) : Graph :=
  rs.foldl (add_event_nodes B) { nodes := [], edges := [] }

/-- The edges added for the links of one articulated body: for every link `j`
that is a node and every later link `k` that is a node, the edges `(j, k)` and
`(k, j)`. -/
def link_edges (nodes : List SingleBodyPtr) : List RigidBodyPtr → List (SingleBodyPtr × SingleBodyPtr)
  | [] => []
  | j :: ks =>
    (if j ∈ nodes then (ks.filter (fun k => decide (k ∈ nodes))).flatMap (fun k => [(j, k), (k, j)])
      else [])
      ++ link_edges nodes ks

/-- One pass of the loop over the nodes that connects articulated bodies; the
state is `ab_processed` and the edges. -/
def add_articulated_edges (B : Bodies) (nodes : List SingleBodyPtr)
    (st : List ArticulatedBodyPtr × List (SingleBodyPtr × SingleBodyPtr)) (sb : SingleBodyPtr) :
    List ArticulatedBodyPtr × List (SingleBodyPtr × SingleBodyPtr) :=
  match B.get_articulated_body sb with
  | none => st
  | some abody =>
    if abody ∈ st.1 then st
    else (abody :: st.1, st.2 ++ link_edges nodes (B.get_links abody))

/-- The body graph of the copied events: nodes, contact edges and the edges
between the links of each articulated body. -/
def build_graph (B : Bodies) (rs : List EventRef) : Graph :=
  let g := collect_nodes B rs
  { nodes := g.nodes, edges := (g.nodes.foldl (add_articulated_edges B g.nodes) ([], g.edges)).2 }

/-- The event refers to the node: one of its two bodies is equal to it. -/
def EventRef.touches (node : SingleBodyPtr) (r : EventRef) : Bool :=
  r.sb1 == node || r.sb2 == node

/-- The neighbours pushed on the queue: the values of `edges.equal_range(node)`
that are still in the node set. -/
def neighbors (edges : List (SingleBodyPtr × SingleBodyPtr)) (node : SingleBodyPtr)
    (nodes : List SingleBodyPtr) : List SingleBodyPtr :=
  (edges.filter (fun p => p.1 == node && decide (p.2 ∈ nodes))).map Prod.snd

/-- The state of the traversal of one island: the remaining nodes, the node
queue, the remaining events, the nodes taken off the queue so far (a record of
the run, not a variable of the code) and the island being built
(`groups.back()`). -/
structure Traversal where
  nodes : List SingleBodyPtr
  node_q : List SingleBodyPtr
  events_copy : List EventRef
  popped : List SingleBodyPtr
  group : List Nat
deriving DecidableEq, Repr

/-- The body of the queue loop for the node at the front of the queue: erase
it from the node set, push its neighbours that are still nodes, and move every
remaining event that refers to it into the island. -/
def pop_node (edges : List (SingleBodyPtr × SingleBodyPtr)) (s : Traversal)
    (node : SingleBodyPtr) (rest : List SingleBodyPtr) : Traversal :=
  { nodes := s.nodes.erase node,
    node_q := rest ++ neighbors edges node (s.nodes.erase node),
    events_copy := s.events_copy.filter (fun r => !r.touches node),
    popped := s.popped ++ [node],
    group := s.group ++ (s.events_copy.filter (fun r => r.touches node)).map EventRef.ptr }

/-- The queue loop `while (!node_q.empty())`, run for at most `fuel` passes. -/
def process_queue (edges : List (SingleBodyPtr × SingleBodyPtr)) : Nat → Traversal → Traversal
  | 0, s => s
  | fuel + 1, s =>
    match s.node_q with
    | [] => s
    | node :: rest => process_queue edges fuel (pop_node edges s node rest)

/-- A bound on the number of passes caused by one queue entry when `n` nodes
remain and the multimap holds `D` edges. -/
def pop_bound (D : Nat) : Nat → Nat
  | 0 => 1
  | n + 1 => 1 + D * pop_bound D n

/-- The passes granted for one queue entry: an entry that is still a node
erases it when taken off the queue, an entry that is no longer a node may still
push neighbours. -/
def entry_weight (D : Nat) (nodes : List SingleBodyPtr) (x : SingleBodyPtr) : Nat :=
  if x ∈ nodes then pop_bound D nodes.length else pop_bound D (nodes.length + 1)

/-- The number of passes granted to the queue loop: enough for every queue
entry (see `process_queue_drains`). -/
def queue_fuel (D : Nat) (nodes q : List SingleBodyPtr) : Nat :=
  (q.map (entry_weight D nodes)).sum

/-- An island together with the record of the nodes taken off the queue while
it was built. -/
structure Island where
  popped : List SingleBodyPtr
  group : List Nat
deriving DecidableEq, Repr

/-- The outer loop `while (!nodes.empty())`, run for at most `fuel` passes:
start an island at the first node of the set and run the queue loop. -/
def build_islands (edges : List (SingleBodyPtr × SingleBodyPtr)) :
    Nat → List SingleBodyPtr → List EventRef → List Island
  | 0, _, _ => []
  | _ + 1, [], _ => []
  | fuel + 1, node :: nodes, events_copy =>
    let s := process_queue edges (queue_fuel edges.length (node :: nodes) [node])
      { nodes := node :: nodes, node_q := [node], events_copy := events_copy,
        popped := [], group := [] }
    { popped := s.popped, group := s.group } :: build_islands edges fuel s.nodes s.events_copy

/-- The node set of the body graph of an event list (empty when a reference is
null). -/
def Event.node_set (B : Bodies) (events : List Event) : List SingleBodyPtr :=
  match copy_events 0 events with
  | none => []
  | some rs => (build_graph B rs).nodes

/-- The run of `Event::determine_connected_events` with its record: the
islands in the order they are built, each with the nodes taken off the queue
for it. -/
def Event.connected_islands (B : Bodies) (events : List Event) : Option (List Island) :=
  match copy_events 0 events with
  | none => none
  | some rs =>
    let g := build_graph B rs
    some (build_islands g.edges (g.nodes.length + 1) g.nodes rs)

/-- `Event::determine_connected_events`: the groups (islands) of event
pointers, in the order they are pushed on `groups`. -/
def Event.determine_connected_events (B : Bodies) (events : List Event) : Option (List (List Nat)) :=
  (Event.connected_islands B events).map (fun islands => islands.map Island.group)

/-! ## Notions used to state and prove the properties -/

/-- Reachability along the edges of the multimap. -/
def Reach (edges : List (SingleBodyPtr × SingleBodyPtr)) (a b : SingleBodyPtr) : Prop :=
  Relation.ReflTransGen (fun x y => (x, y) ∈ edges) a b

/-- The event refers to one of the listed nodes. -/
def EventRef.touches_any (ns : List SingleBodyPtr) (r : EventRef) : Bool :=
  ns.any (fun n => r.touches n)

/-- What holds of the traversal state during the queue loop of the island
started at `start`, when the loop was entered with the nodes `S0` and the
events `ec0`. -/
structure TraversalInv (edges : List (SingleBodyPtr × SingleBodyPtr)) (S0 : List SingleBodyPtr)
    (ec0 : List EventRef) (start : SingleBodyPtr) (s : Traversal) : Prop where
  nodup : s.nodes.Nodup
  nodes_iff : ∀ x, x ∈ s.nodes ↔ x ∈ S0 ∧ x ∉ s.popped
  queue_reach : ∀ x ∈ s.node_q, x ∈ S0 ∧ Reach edges start x
  popped_reach : ∀ x ∈ s.popped, x ∈ S0 ∧ Reach edges start x
  frontier : ∀ a b, (a, b) ∈ edges → a ∈ s.popped → b ∈ s.popped ∨ b ∈ s.node_q
  events : s.events_copy = ec0.filter (fun r => !r.touches_any s.popped)
  group_perm : (s.group ++ s.events_copy.map EventRef.ptr).Perm (ec0.map EventRef.ptr)
  group_mem : ∀ i ∈ s.group, ∃ r ∈ ec0, r.ptr = i ∧ r.touches_any s.popped = true
  group_all : ∀ r ∈ ec0, r.touches_any s.popped = true → r.ptr ∈ s.group
  start_seen : start ∈ s.popped ∨ start ∈ s.node_q

/-- A complete run of the outer loop from the nodes `S` and the events `ec`:
the islands it builds, each the final state of a queue loop that emptied its
queue. -/
inductive Run (edges : List (SingleBodyPtr × SingleBodyPtr)) :
    List SingleBodyPtr → List EventRef → List Island → Prop where
  | done (ec : List EventRef) : Run edges [] ec []
  | island (S : List SingleBodyPtr) (ec : List EventRef) (start : SingleBodyPtr)
      (s : Traversal) (rest : List Island) :
      s.node_q = [] → TraversalInv edges S ec start s →
      Run edges s.nodes s.events_copy rest →
      Run edges S ec ({ popped := s.popped, group := s.group } :: rest)

/-- The loop over the copied events inserts the body `x` as a node for the
event: an enabled body of a contact, either link of the joint of a limit or
constraint event. -/
def EventRef.adds_node (B : Bodies) (r : EventRef) (x : SingleBodyPtr) : Prop :=
  match r.event_type with
  | .eContact => (x = r.sb1 ∧ B.is_enabled r.sb1 = true) ∨ (x = r.sb2 ∧ B.is_enabled r.sb2 = true)
  | .eLimit => x = r.sb1 ∨ x = r.sb2
  | .eConstraint => x = r.sb1 ∨ x = r.sb2
  | .eNone => False

/-- The loop over the copied events inserts the edge `p` for the event: a
contact between two enabled bodies, in either direction. -/
def EventRef.adds_edge (B : Bodies) (r : EventRef) (p : SingleBodyPtr × SingleBodyPtr) : Prop :=
  r.event_type = EventType.eContact ∧ B.is_enabled r.sb1 = true ∧ B.is_enabled r.sb2 = true
    ∧ (p = (r.sb1, r.sb2) ∨ p = (r.sb2, r.sb1))

/-- The edges of every articulated body marked as processed are in the
multimap. -/
def ab_done (B : Bodies) (nodes : List SingleBodyPtr)
    (st : List ArticulatedBodyPtr × List (SingleBodyPtr × SingleBodyPtr)) : Prop :=
  ∀ ab ∈ st.1, ∀ p ∈ link_edges nodes (B.get_links ab), p ∈ st.2

/-- The two node bodies of an event are joined in the body graph: any two
bodies of the event that are nodes are equal or joined by an edge. -/
def Linked (edges : List (SingleBodyPtr × SingleBodyPtr)) (S : List SingleBodyPtr)
    (r : EventRef) : Prop :=
  ∀ x y, r.touches x = true → r.touches y = true → x ∈ S → y ∈ S → x = y ∨ (x, y) ∈ edges

/-- The joint of a limit or constraint event is regular: both links are
enabled, and they are the same body or both are links of the articulated body
that the inboard link reports. Events of the other types satisfy this. -/
def Event.joint_linked (B : Bodies) (e : Event) : Bool :=
  if e.event_type = EventType.eLimit ∨ e.event_type = EventType.eConstraint then
    match e.get_bodies with
    | some (a, b) =>
      B.is_enabled a && B.is_enabled b
        && (a == b
          || match B.get_articulated_body a with
            | some ab => decide (a ∈ B.get_links ab) && decide (b ∈ B.get_links ab)
            | none => false)
    | none => true
  else true

/-- Two bodies are directly connected: some contact event of the list is
between them and both are enabled, or both are links of one articulated
body. -/
def Event.adjacent (B : Bodies) (events : List Event) (x y : SingleBodyPtr) : Prop :=
  (∃ e ∈ events, e.event_type = EventType.eContact
      ∧ (e.get_bodies = some (x, y) ∨ e.get_bodies = some (y, x))
      ∧ B.is_enabled x = true ∧ B.is_enabled y = true)
    ∨ ∃ ab, x ∈ B.get_links ab ∧ y ∈ B.get_links ab

/-- Two bodies are connected by a chain of contact events between enabled
bodies or of links of a shared articulated body (a body is connected to
itself). -/
def Event.connected (B : Bodies) (events : List Event) (x y : SingleBodyPtr) : Prop :=
  Relation.ReflTransGen (Event.adjacent B events) x y

/-! ## Events and bodies used in the examples -/

/-- A contact event between the bodies `sb1` and `sb2`. -/
def contact_event (sb1 sb2 : SingleBodyPtr) : Event :=
  { tol := 0, event_type := EventType.eContact, limit_dof := 0, limit_upper := false,
    limit_joint := none, contact_normal := { x := 0, y := 0, z := 1 },
    contact_point := { x := 0, y := 0, z := 0 },
    contact_geom1 := some { get_single_body := some sb1 },
    contact_geom2 := some { get_single_body := some sb2 },
    constraint_joint := none }

/-- A limit event on degree of freedom 0 of a joint between `inboard` and
`outboard` with velocity `qd`. -/
def limit_event (inboard outboard : RigidBodyPtr) (qd : Real) : Event :=
  { tol := 0, event_type := EventType.eLimit, limit_dof := 0, limit_upper := false,
    limit_joint := some { get_inboard_link := inboard, get_outboard_link := outboard, qd := [qd] },
    contact_normal := { x := 0, y := 0, z := 0 },
    contact_point := { x := 0, y := 0, z := 0 },
    contact_geom1 := none, contact_geom2 := none, constraint_joint := none }

/-- A constraint event on a joint between `inboard` and `outboard`. -/
def constraint_event (inboard outboard : RigidBodyPtr) : Event :=
  { tol := 0, event_type := EventType.eConstraint, limit_dof := 0, limit_upper := false,
    limit_joint := none,
    contact_normal := { x := 0, y := 0, z := 0 },
    contact_point := { x := 0, y := 0, z := 0 },
    contact_geom1 := none, contact_geom2 := none,
    constraint_joint := some { get_inboard_link := inboard, get_outboard_link := outboard, qd := [] } }

/-- Free bodies: the bodies in `disabled` are disabled, no body belongs to an
articulated body, and body `b` moves with velocity `vel b` along every
direction. -/
def free_bodies (disabled : List SingleBodyPtr) (vel : SingleBodyPtr → Real) : Bodies :=
  { is_enabled := fun b => !(disabled.contains b),
    get_articulated_body := fun _ => none,
    get_links := fun _ => [],
    calc_point_vel := fun b _ _ => vel b }

/-- A fixed-base arm and free bodies: bodies 1 (the base) and 2 are the links
of articulated body 7, every other body is free; the bodies in `disabled` are
disabled; nothing moves. -/
def arm_bodies (disabled : List SingleBodyPtr) : Bodies :=
  { is_enabled := fun b => !(disabled.contains b),
    get_articulated_body := fun b => if b = 1 ∨ b = 2 then some 7 else none,
    get_links := fun ab => if ab = 7 then [1, 2] else [],
    calc_point_vel := fun _ _ _ => 0 }

/-! ## A minimal set of contact events -/

/-- The counting loop at the head of `determine_minimal_set`: the number `NC` of
contact events and the number `NE` of events of the group. -/
def Event.count_events : List Event → Nat × Nat
  | [] => (0, 0)
  | e :: es =>
    let c := Event.count_events es
    (if e.event_type = EventType.eContact then c.1 + 1 else c.1, c.2 + 1)

/-- The value `*std::min_element(begin, end)` of a vector; `none` for an empty
one. -/
def min_element : List Real → Option Real
  | [] => none
  | x :: xs => some (xs.foldl min x)

/-- One pass of the selection loop for contact `i`: the row `i` of `Jc_iM_JcT`
restricted to the columns in `sel` is inspected, and `i` is pushed on `sel` when
its minimum is at most zero. -/
def select_step (Jc_iM_JcT : Nat → Nat → Real) (sel : List Nat) (i : Nat) : List Nat :=
  match min_element (sel.map (Jc_iM_JcT i)) with
  | some m => if m ≤ 0 then sel ++ [i] else sel
  | none => sel

/-- The selection loop `for (i = 1; i < NC; i++)`, with `n` passes left. -/
def select_loop (Jc_iM_JcT : Nat → Nat → Real) : Nat → Nat → List Nat → List Nat
  | 0, _, sel => sel
  | n + 1, i, sel => select_loop Jc_iM_JcT n (i + 1) (select_step Jc_iM_JcT sel i)

/-- The selection indices: contact 0, then every later contact accepted by the
selection loop, in increasing order. -/
def select_contacts (Jc_iM_JcT : Nat → Nat → Real) (NC : Nat) : List Nat :=
  select_loop Jc_iM_JcT (NC - 1) 1 [0]

/-- The removal loop: the counter `ci` starts at the given value and is
incremented for every element of the group; the element is kept when
`std::binary_search` finds its counter in `sel` (which is increasing, so that
the search is membership) and erased otherwise. -/
def erase_unselected (sel : List Nat) : Nat → List Event → List Event
  | _, [] => []
  | ci, e :: es =>
    if ci ∈ sel then e :: erase_unselected sel (ci + 1) es
    else erase_unselected sel (ci + 1) es

/-- `Event::determine_minimal_set`. The contact-space inertia matrix
`Jc_iM_JcT`, which the code computes from the bodies of the group with the
body interface and the matrix library, is taken as given: `Jc_iM_JcT i j` is
its entry in row `i` and column `j`. An `Event*` of the group is the event it
points to. -/
def Event.determine_minimal_set (Jc_iM_JcT : Nat → Nat → Real) (group : List Event) :
    List Event :=
  let NC := (Event.count_events group).1
  let NE := (Event.count_events group).2
  if NC ≤ 1 ∨ NE < 4 then group
  else erase_unselected (select_contacts Jc_iM_JcT NC) 0 group

/-- The number of contact events of a group. -/
def Event.num_contacts (group : List Event) : Nat :=
  (group.filter (fun e => decide (e.event_type = EventType.eContact))).length

/-! ## The stacked solution vector of the event problem data -/

/-- A vector of reals (`VectorN`), as the list of its entries. -/
abbrev VectorN := List Real

/-- A matrix of reals (`MatrixN`), as far as the event problem data uses it:
its size and its entries. -/
structure MatrixN where
  rows : Nat
  columns : Nat
  data : List Real
deriving DecidableEq, Repr

/-- The entries of `z` with indices in `[a, b)`. -/
def segment (z : VectorN) (a b : Nat) : VectorN :=
  (z.drop a).take (b - a)

/-- Modelled from the spec: `VectorN::get_sub_vec(start, end, v)` (`VectorN.h`
is not part of the sources at hand): the sub-vector of the entries in
`[start, end)`; fails when the range is not within the vector. -/
def VectorN.get_sub_vec (z : VectorN) (start_idx end_idx : Nat) : Option VectorN :=
  if start_idx ≤ end_idx ∧ end_idx ≤ z.length then some (segment z start_idx end_idx) else none

/-- Modelled from the spec: `VectorN::set_sub_vec(start, v)` (`VectorN.h` is
not part of the sources at hand): overwrites the entries from `start` on with
those of `v`, leaving the size and the other entries; fails when `v` does not
fit. -/
def VectorN.set_sub_vec (z : VectorN) (start_idx : Nat) (v : VectorN) : Option VectorN :=
  if start_idx + v.length ≤ z.length then
    some (z.take start_idx ++ v ++ z.drop (start_idx + v.length))
  else none

/-- Modelled from the spec: `VectorN::operator+=` (`VectorN.h` is not part of
the sources at hand): entrywise sum; fails when the sizes differ. -/
def VectorN.add (v w : VectorN) : Option VectorN :=
  if v.length = w.length then some (List.zipWith (· + ·) v w) else none

/-- Modelled from the spec: `VectorN::operator-=` (`VectorN.h` is not part of
the sources at hand): entrywise difference; fails when the sizes differ. -/
def VectorN.sub (v w : VectorN) : Option VectorN :=
  if v.length = w.length then some (List.zipWith (· - ·) v w) else none

/-- Modelled from the spec: `VectorN::resize(n)` (`VectorN.h` is not part of
the sources at hand): a vector of size `n` whose entries are not specified;
`junk` stands for what the memory holds. -/
def VectorN.resize (junk : Nat → Real) (n : Nat) : VectorN :=
  (List.range n).map junk

/-- Modelled from the spec: the assignment `z[i] = x` through
`VectorN::operator[]` (`VectorN.h` is not part of the sources at hand); fails
when `i` is not an index of `z`. -/
def VectorN.write (z : VectorN) (i : Nat) (x : Real) : Option VectorN :=
  if i < z.length then some (z.set i x) else none

/-- The struct `EventProblemData`. -/
structure EventProblemData where
  ALPHA_C_IDX : Nat
  BETA_C_IDX : Nat
  NBETA_C_IDX : Nat
  BETAU_C_IDX : Nat
  ALPHA_L_IDX : Nat
  BETA_T_IDX : Nat
  ALPHA_X_IDX : Nat
  BETA_X_IDX : Nat
  N_VARS : Nat
  N_K_TOTAL : Nat
  N_LIN_CONE : Nat
  N_TRUE_CONE : Nat
  N_LOOPS : Nat
  N_CONTACTS : Nat
  N_LIMITS : Nat
  N_CONSTRAINTS : Nat
  N_CONSTRAINT_DOF_EXP : Nat
  N_CONSTRAINT_EQNS_EXP : Nat
  N_CONSTRAINT_DOF_IMP : Nat
  contact_working_set : List Bool
  super_bodies : List Nat
  contact_events : List Event
  limit_events : List Event
  constraint_events : List Event
  Jc_iM_JcT : MatrixN
  Jc_iM_DcT : MatrixN
  Jc_iM_JlT : MatrixN
  Jc_iM_DtT : MatrixN
  Jc_iM_JxT : MatrixN
  Jc_iM_DxT : MatrixN
  Dc_iM_DcT : MatrixN
  Dc_iM_JlT : MatrixN
  Dc_iM_DtT : MatrixN
  Dc_iM_JxT : MatrixN
  Dc_iM_DxT : MatrixN
  Jl_iM_JlT : MatrixN
  Jl_iM_DtT : MatrixN
  Jl_iM_JxT : MatrixN
  Jl_iM_DxT : MatrixN
  Dt_iM_DtT : MatrixN
  Dt_iM_JxT : MatrixN
  Dt_iM_DxT : MatrixN
  Jx_iM_JxT : MatrixN
  Jx_iM_DxT : MatrixN
  Dx_iM_DxT : MatrixN
  Jc_v : VectorN
  Dc_v : VectorN
  Jl_v : VectorN
  Jx_v : VectorN
  Dx_v : VectorN
  kappa : Real
  use_kappa : Bool
  alpha_c : VectorN
  beta_c : VectorN
  alpha_l : VectorN
  beta_t : VectorN
  alpha_x : VectorN
  beta_x : VectorN
  workv : VectorN
  workv2 : VectorN

/-- `EventProblemData::reset`: all counts and indices zero, all vectors and
matrices of size zero; the work vectors are not touched. -/
def EventProblemData.reset (d : EventProblemData) : EventProblemData :=
  { ALPHA_C_IDX := 0, BETA_C_IDX := 0, NBETA_C_IDX := 0, BETAU_C_IDX := 0,
    ALPHA_L_IDX := 0, BETA_T_IDX := 0, ALPHA_X_IDX := 0, BETA_X_IDX := 0, N_VARS := 0,
    N_K_TOTAL := 0, N_LIN_CONE := 0, N_TRUE_CONE := 0, N_LOOPS := 0, N_CONTACTS := 0,
    N_LIMITS := 0, N_CONSTRAINTS := 0, N_CONSTRAINT_DOF_EXP := 0,
    N_CONSTRAINT_EQNS_EXP := 0, N_CONSTRAINT_DOF_IMP := 0,
    contact_working_set := [], super_bodies := [],
    contact_events := [], limit_events := [], constraint_events := [],
    Jc_iM_JcT := { rows := 0, columns := 0, data := [] },
    Jc_iM_DcT := { rows := 0, columns := 0, data := [] },
    Jc_iM_JlT := { rows := 0, columns := 0, data := [] },
    Jc_iM_DtT := { rows := 0, columns := 0, data := [] },
    Jc_iM_JxT := { rows := 0, columns := 0, data := [] },
    Jc_iM_DxT := { rows := 0, columns := 0, data := [] },
    Dc_iM_DcT := { rows := 0, columns := 0, data := [] },
    Dc_iM_JlT := { rows := 0, columns := 0, data := [] },
    Dc_iM_DtT := { rows := 0, columns := 0, data := [] },
    Dc_iM_JxT := { rows := 0, columns := 0, data := [] },
    Dc_iM_DxT := { rows := 0, columns := 0, data := [] },
    Jl_iM_JlT := { rows := 0, columns := 0, data := [] },
    Jl_iM_DtT := { rows := 0, columns := 0, data := [] },
    Jl_iM_JxT := { rows := 0, columns := 0, data := [] },
    Jl_iM_DxT := { rows := 0, columns := 0, data := [] },
    Dt_iM_DtT := { rows := 0, columns := 0, data := [] },
    Dt_iM_JxT := { rows := 0, columns := 0, data := [] },
    Dt_iM_DxT := { rows := 0, columns := 0, data := [] },
    Jx_iM_JxT := { rows := 0, columns := 0, data := [] },
    Jx_iM_DxT := { rows := 0, columns := 0, data := [] },
    Dx_iM_DxT := { rows := 0, columns := 0, data := [] },
    Jc_v := [], Dc_v := [], Jl_v := [], Jx_v := [], Dx_v := [],
    kappa := 0, use_kappa := false,
    alpha_c := [], beta_c := [], alpha_l := [], beta_t := [], alpha_x := [], beta_x := [],
    workv := d.workv, workv2 := d.workv2 }

/-- The constructor `EventProblemData()`: the members are default-constructed
(empty work vectors) and `reset()` is called. -/
def EventProblemData.empty : EventProblemData :=
  EventProblemData.reset
    { ALPHA_C_IDX := 0, BETA_C_IDX := 0, NBETA_C_IDX := 0, BETAU_C_IDX := 0,
      ALPHA_L_IDX := 0, BETA_T_IDX := 0, ALPHA_X_IDX := 0, BETA_X_IDX := 0, N_VARS := 0,
      N_K_TOTAL := 0, N_LIN_CONE := 0, N_TRUE_CONE := 0, N_LOOPS := 0, N_CONTACTS := 0,
      N_LIMITS := 0, N_CONSTRAINTS := 0, N_CONSTRAINT_DOF_EXP := 0,
      N_CONSTRAINT_EQNS_EXP := 0, N_CONSTRAINT_DOF_IMP := 0,
      contact_working_set := [], super_bodies := [],
      contact_events := [], limit_events := [], constraint_events := [],
      Jc_iM_JcT := { rows := 0, columns := 0, data := [] },
      Jc_iM_DcT := { rows := 0, columns := 0, data := [] },
      Jc_iM_JlT := { rows := 0, columns := 0, data := [] },
      Jc_iM_DtT := { rows := 0, columns := 0, data := [] },
      Jc_iM_JxT := { rows := 0, columns := 0, data := [] },
      Jc_iM_DxT := { rows := 0, columns := 0, data := [] },
      Dc_iM_DcT := { rows := 0, columns := 0, data := [] },
      Dc_iM_JlT := { rows := 0, columns := 0, data := [] },
      Dc_iM_DtT := { rows := 0, columns := 0, data := [] },
      Dc_iM_JxT := { rows := 0, columns := 0, data := [] },
      Dc_iM_DxT := { rows := 0, columns := 0, data := [] },
      Jl_iM_JlT := { rows := 0, columns := 0, data := [] },
      Jl_iM_DtT := { rows := 0, columns := 0, data := [] },
      Jl_iM_JxT := { rows := 0, columns := 0, data := [] },
      Jl_iM_DxT := { rows := 0, columns := 0, data := [] },
      Dt_iM_DtT := { rows := 0, columns := 0, data := [] },
      Dt_iM_JxT := { rows := 0, columns := 0, data := [] },
      Dt_iM_DxT := { rows := 0, columns := 0, data := [] },
      Jx_iM_JxT := { rows := 0, columns := 0, data := [] },
      Jx_iM_DxT := { rows := 0, columns := 0, data := [] },
      Dx_iM_DxT := { rows := 0, columns := 0, data := [] },
      Jc_v := [], Dc_v := [], Jl_v := [], Jx_v := [], Dx_v := [],
      kappa := 0, use_kappa := false,
      alpha_c := [], beta_c := [], alpha_l := [], beta_t := [], alpha_x := [], beta_x := [],
      workv := [], workv2 := [] }

/-- The statement `v += z.get_sub_vec(start, end, workv)` of
`update_from_stacked`: the new value of `v`. -/
def add_sub_vec (v z : VectorN) (start_idx end_idx : Nat) : Option VectorN :=
  (VectorN.get_sub_vec z start_idx end_idx).bind fun w => VectorN.add v w

/-- The block of `update_from_stacked` that sets up the increment of `beta_c`:
the contents of `workv` and `workv2` before `beta_c += workv2`. `junk` is the
content of `workv2` after `resize`. -/
def EventProblemData.stacked_beta_c (junk : Nat → Real) (d : EventProblemData)
    (z : VectorN) : Option (VectorN × VectorN) :=
  (VectorN.get_sub_vec z d.BETA_C_IDX d.NBETA_C_IDX).bind fun w6 =>
  (VectorN.get_sub_vec z d.NBETA_C_IDX d.BETAU_C_IDX).bind fun w7 =>
  (VectorN.sub w6 w7).bind fun w8 =>
  (VectorN.set_sub_vec (VectorN.resize junk (d.N_LIN_CONE * 2 + d.N_TRUE_CONE)) 0 w8).bind
    fun w9 =>
  (VectorN.get_sub_vec z d.BETAU_C_IDX d.ALPHA_L_IDX).bind fun w10 =>
  (VectorN.set_sub_vec w9 (d.N_LIN_CONE * 2) w10).bind fun w11 =>
  some (w10, w11)

/-- `EventProblemData::update_from_stacked`: the segments of `z` are added to
the named vectors; for `beta_c` the companion segment is subtracted from the
bounded segment and the unbounded segment is appended. -/
def EventProblemData.update_from_stacked (junk : Nat → Real) (d : EventProblemData)
    (z : VectorN) : Option EventProblemData :=
  (add_sub_vec d.alpha_c z d.ALPHA_C_IDX d.BETA_C_IDX).bind fun alpha_c =>
  (add_sub_vec d.alpha_l z d.ALPHA_L_IDX d.BETA_T_IDX).bind fun alpha_l =>
  (add_sub_vec d.beta_t z d.BETA_T_IDX d.ALPHA_X_IDX).bind fun beta_t =>
  (add_sub_vec d.alpha_x z d.ALPHA_X_IDX d.BETA_X_IDX).bind fun alpha_x =>
  (add_sub_vec d.beta_x z d.BETA_X_IDX d.N_VARS).bind fun beta_x =>
  (d.stacked_beta_c junk z).bind fun w =>
  (VectorN.add d.beta_c w.2).bind fun beta_c =>
  some { d with alpha_c := alpha_c, alpha_l := alpha_l, beta_t := beta_t, alpha_x := alpha_x,
                beta_x := beta_x, beta_c := beta_c, workv := w.1, workv2 := w.2 }

/-- The loop of `to_stacked` over the bounded friction entries, with `n` passes
left: when `z[i]` is negative its negation is stored in `z[NBETA_C_IDX]` and
`z[i]` is set to zero. The second loop variable `j` is never read. -/
def split_negative (NBETA_C_IDX : Nat) : Nat → Nat → VectorN → Option VectorN
  | 0, _, z => some z
  | n + 1, i, z =>
    match z[i]? with
    | none => none
    | some zi =>
      if zi < 0 then
        (VectorN.write z NBETA_C_IDX (-zi)).bind fun z1 =>
        (VectorN.write z1 i 0).bind fun z2 =>
        split_negative NBETA_C_IDX n (i + 1) z2
      else split_negative NBETA_C_IDX n (i + 1) z

/-- `EventProblemData::to_stacked`: returns the data (no member is assigned)
and the stacked vector. -/
def EventProblemData.to_stacked (d : EventProblemData) (z : VectorN) :
    Option (EventProblemData × VectorN) :=
  (VectorN.set_sub_vec z d.ALPHA_C_IDX d.alpha_c).bind fun z1 =>
  (VectorN.set_sub_vec z1 d.BETA_C_IDX d.beta_c).bind fun z2 =>
  (split_negative d.NBETA_C_IDX (d.NBETA_C_IDX - d.BETA_C_IDX) d.BETA_C_IDX z2).bind fun z3 =>
  (VectorN.set_sub_vec z3 d.ALPHA_L_IDX d.alpha_l).bind fun z4 =>
  (VectorN.set_sub_vec z4 d.BETA_T_IDX d.beta_t).bind fun z5 =>
  (VectorN.set_sub_vec z5 d.ALPHA_X_IDX d.alpha_x).bind fun z6 =>
  (VectorN.set_sub_vec z6 d.BETA_X_IDX d.beta_x).bind fun z7 =>
  some (d, z7)

/-- The index fields are non-decreasing in layout order and the segments of
`alpha_c`, `alpha_l`, `beta_t`, `alpha_x` and `beta_x` have the sizes of these
vectors. -/
structure EventProblemData.ordered (d : EventProblemData) : Prop where
  h1 : d.ALPHA_C_IDX ≤ d.BETA_C_IDX
  h2 : d.BETA_C_IDX ≤ d.NBETA_C_IDX
  h3 : d.NBETA_C_IDX ≤ d.BETAU_C_IDX
  h4 : d.BETAU_C_IDX ≤ d.ALPHA_L_IDX
  h5 : d.ALPHA_L_IDX ≤ d.BETA_T_IDX
  h6 : d.BETA_T_IDX ≤ d.ALPHA_X_IDX
  h7 : d.ALPHA_X_IDX ≤ d.BETA_X_IDX
  h8 : d.BETA_X_IDX ≤ d.N_VARS
  alpha_c_size : d.alpha_c.length = d.BETA_C_IDX - d.ALPHA_C_IDX
  alpha_l_size : d.alpha_l.length = d.BETA_T_IDX - d.ALPHA_L_IDX
  beta_t_size : d.beta_t.length = d.ALPHA_X_IDX - d.BETA_T_IDX
  alpha_x_size : d.alpha_x.length = d.BETA_X_IDX - d.ALPHA_X_IDX
  beta_x_size : d.beta_x.length = d.N_VARS - d.BETA_X_IDX

/-- A consistent index layout: ordered, with the bounded segment and its
companion of length `2 * N_LIN_CONE`, the unbounded segment of length
`N_TRUE_CONE`, and `beta_c` of size `2 * N_LIN_CONE + N_TRUE_CONE`. -/
structure EventProblemData.consistent (d : EventProblemData) : Prop where
  ordered : d.ordered
  bounded : d.NBETA_C_IDX - d.BETA_C_IDX = 2 * d.N_LIN_CONE
  companion : d.BETAU_C_IDX - d.NBETA_C_IDX = 2 * d.N_LIN_CONE
  unbounded : d.ALPHA_L_IDX - d.BETAU_C_IDX = d.N_TRUE_CONE
  beta_c_size : d.beta_c.length = 2 * d.N_LIN_CONE + d.N_TRUE_CONE

/-- Event problem data with friction entries only: `N_LIN_CONE` contacts with
linearized cones, `N_TRUE_CONE` with true cones, the indices laid out in
order, and the friction impulses `beta_c`. -/
def friction_data (N_LIN_CONE N_TRUE_CONE : Nat) (beta_c : VectorN) : EventProblemData :=
  { EventProblemData.empty with
    N_LIN_CONE := N_LIN_CONE, N_TRUE_CONE := N_TRUE_CONE,
    NBETA_C_IDX := 2 * N_LIN_CONE, BETAU_C_IDX := 4 * N_LIN_CONE,
    ALPHA_L_IDX := 4 * N_LIN_CONE + N_TRUE_CONE, BETA_T_IDX := 4 * N_LIN_CONE + N_TRUE_CONE,
    ALPHA_X_IDX := 4 * N_LIN_CONE + N_TRUE_CONE, BETA_X_IDX := 4 * N_LIN_CONE + N_TRUE_CONE,
    N_VARS := 4 * N_LIN_CONE + N_TRUE_CONE, beta_c := beta_c }

/-! ## Event construction, tolerance and contact parameters -/

/-- Modelled from the spec: the constant `NEAR_ZERO` (`Constants.h` is not part
of the sources at hand), a small positive number. -/
def NEAR_ZERO : Real := 1 / 100000000

/-- Modelled from the spec: the constant `ZEROS_3` (`Constants.h` is not part
of the sources at hand), the zero vector. -/
def ZEROS_3 : Vector3 := { x := 0, y := 0, z := 0 }

/-- The constructor `Event::Event()`, for the fields of the record `Event`:
the tolerance is `NEAR_ZERO`, the type is `eNone`, `limit_dof` is the largest
`unsigned`, and the shared pointers are null. -/
def Event.new : Event :=
  { tol := NEAR_ZERO, event_type := EventType.eNone, limit_dof := 4294967295,
    limit_upper := false, limit_joint := none, contact_normal := ZEROS_3,
    contact_point := ZEROS_3, contact_geom1 := none, contact_geom2 := none,
    constraint_joint := none }

/-- Modelled from the spec: `Vector3::operator+` (`Vector3.h` is not part of
the sources at hand). -/
def Vector3.add (a b : Vector3) : Vector3 :=
  { x := a.x + b.x, y := a.y + b.y, z := a.z + b.z }

/-- Modelled from the spec: `Vector3::operator-` (`Vector3.h` is not part of
the sources at hand). -/
def Vector3.sub (a b : Vector3) : Vector3 :=
  { x := a.x - b.x, y := a.y - b.y, z := a.z - b.z }

/-- Modelled from the spec: `Vector3::cross` (`Vector3.h` is not part of the
sources at hand), the vector product. -/
def Vector3.cross (a b : Vector3) : Vector3 :=
  { x := a.y * b.z - a.z * b.y, y := a.z * b.x - a.x * b.z, z := a.x * b.y - a.y * b.x }

/-- Modelled from the spec: the motion state of the single bodies
(`SingleBody.h` is not part of the sources at hand): position, linear velocity
and angular velocity. -/
structure Motion where
  get_position : SingleBodyPtr → Vector3
  get_lvel : SingleBodyPtr → Vector3
  get_avel : SingleBodyPtr → Vector3

/-- `Event::calc_event_tol`: for a contact, the larger of 1 and the length of
the relative velocity of the two bodies at the contact point; for a limit, the
larger of 1 and the absolute joint velocity. `norm` is `Vector3::norm` (the
Euclidean length, which the library computes in floating point). The
assertions and the dereference of a null joint or of a degree of freedom
outside `qd` give `none`. -/
def Event.calc_event_tol (norm : Vector3 → Real) (K : Motion) (e : Event) : Option Real :=
  match e.event_type with
  | .eContact =>
    match e.contact_geom1, e.contact_geom2 with
    | some g1, some g2 =>
      match g1.get_single_body, g2.get_single_body with
      | some sb1, some sb2 =>
        let r1 := Vector3.sub e.contact_point (K.get_position sb1)
        let r2 := Vector3.sub e.contact_point (K.get_position sb2)
        let v1 := Vector3.add (K.get_lvel sb1) (Vector3.cross (K.get_avel sb1) r1)
        let v2 := Vector3.add (K.get_lvel sb2) (Vector3.cross (K.get_avel sb2) r2)
        some (max (norm (Vector3.sub v1 v2)) 1)
      | _, _ => none
    | _, _ => none
  | .eLimit =>
    match e.limit_joint with
    | some j =>
      match j.qd[e.limit_dof]? with
      | some qd => some (max 1 |qd|)
      | none => none
    | none => none
  | _ => none

/-- Modelled from the spec: the parameter record `ContactParameters`
(`ContactParameters.h` is not part of the sources at hand), as far as
`set_contact_parameters` reads it. -/
structure ContactParameters where
  mu_coulomb : Real
  mu_viscous : Real
  epsilon : Real
  NK : Nat
deriving DecidableEq, Repr

/-- All the fields of an event that `Event::operator=` copies: the fields of
the record `Event` and the remaining ones (times, restitution and impulse of a
limit, impulse, friction parameters and tangents of a contact, impulses of a
constraint). -/
structure FullEvent extends Event where
  t_true : Real
  t : Real
  limit_epsilon : Real
  limit_impulse : Real
  contact_impulse : Vector3
  contact_mu_coulomb : Real
  contact_mu_viscous : Real
  contact_epsilon : Real
  contact_NK : Nat
  contact_tan1 : Vector3
  contact_tan2 : Vector3
  constraint_nimpulse : VectorN
  constraint_fimpulse : VectorN
deriving DecidableEq, Repr

/-- `Event::set_contact_parameters`: the four contact parameters are copied
from `cparams`. -/
def FullEvent.set_contact_parameters (e : FullEvent) (cparams : ContactParameters) :
    FullEvent :=
  { e with contact_mu_coulomb := cparams.mu_coulomb,
           contact_mu_viscous := cparams.mu_viscous,
           contact_epsilon := cparams.epsilon,
           contact_NK := cparams.NK }

/-- A contact event between the bodies `sb1` and `sb2` as constructed by
`Event::Event()` (default tolerance), with the unit normal `(0, 0, 1)`. -/
def default_contact (sb1 sb2 : SingleBodyPtr) : Event :=
  { Event.new with
    event_type := EventType.eContact, contact_normal := { x := 0, y := 0, z := 1 },
    contact_geom1 := some { get_single_body := some sb1 },
    contact_geom2 := some { get_single_body := some sb2 } }

/-- A limit event as constructed by `Event::Event()` on which only the type and
the joint (between `inboard` and `outboard`, with one degree of freedom of
velocity `qd`) have been set: `limit_dof` is still the largest `unsigned`. -/
def unset_dof_limit (inboard outboard : RigidBodyPtr) (qd : Real) : Event :=
  { Event.new with
    event_type := EventType.eLimit,
    limit_joint := some { get_inboard_link := inboard, get_outboard_link := outboard, qd := [qd] } }

/-- Pointer to a dynamic body (a single body or an articulated body), as an
address. -/
abbrev DynamicBodyPtr := Nat

/-- Modelled from the spec: the dynamics interface of a super body
(`DynamicBody.h` is not part of the sources at hand): the generalized force
that a force and a torque on one of its single bodies amount to, and the
solution of the generalized inertia against a generalized force. -/
structure Dynamics where
  convert_to_generalized_force : DynamicBodyPtr → SingleBodyPtr → Vector3 → Vector3 → VectorN
  solve_generalized_inertia : DynamicBodyPtr → VectorN → VectorN

/-- Modelled from the spec: the unary `Vector3::operator-` (`Vector3.h` is not
part of the sources at hand). -/
def Vector3.neg (a : Vector3) : Vector3 :=
  { x := -a.x, y := -a.y, z := -a.z }

/-- Modelled from the spec: `MatrixN::set_sub_mat(row, col, v, true)`
(`MatrixN.h` is not part of the sources at hand): the entries of `v` are
written, as a row, over the entries of row `row` from column `col` on; the
matrix is given by its entries. -/
def set_sub_mat_row (M : Nat → Nat → Real) (row col : Nat) (v : VectorN) : Nat → Nat → Real :=
  fun r c => if r = row ∧ col ≤ c ∧ c < col + v.length then v.getD (c - col) 0 else M r c

/-- Modelled from the spec: `MatrixN::set_sub_mat(row, col, v)` (`MatrixN.h` is
not part of the sources at hand): the entries of `v` are written, as a column,
over the entries of column `col` from row `row` on. -/
def set_sub_mat_col (M : Nat → Nat → Real) (row col : Nat) (v : VectorN) : Nat → Nat → Real :=
  fun r c => if c = col ∧ row ≤ r ∧ r < row + v.length then v.getD (r - row) 0 else M r c

/-- The block of `compute_contact_jacobian` for one of the two bodies: when the
super body has an index in `gc_indices`, the generalized force of the force
`normal` at the contact point on the body `sb` is written into row `ci` of `Jc`
from column `index` on, and its solution against the generalized inertia into
column `ci` of `iM_JcT`. -/
def process_body (K : Motion) (D : Dynamics) (e : Event)
    (gc_indices : List (DynamicBodyPtr × Nat)) (ci : Nat) (super : DynamicBodyPtr)
    (sb : SingleBodyPtr) (normal : Vector3)
    (m : (Nat → Nat → Real) × (Nat → Nat → Real)) : (Nat → Nat → Real) × (Nat → Nat → Real) :=
  match gc_indices.lookup super with
  | none => m
  | some index =>
    let r := Vector3.sub e.contact_point (K.get_position sb)
    let tmpv := D.convert_to_generalized_force super sb normal (Vector3.cross r normal)
    let tmpv2 := D.solve_generalized_inertia super tmpv
    (set_sub_mat_row m.1 ci index tmpv, set_sub_mat_col m.2 index ci tmpv2)

/-- `Event::compute_contact_jacobian`: the matrices `Jc` and `iM_JcT` after the
call; the super body of a body is its articulated body, or the body itself.
A null geometry or body gives `none`. -/
def Event.compute_contact_jacobian (B : Bodies) (K : Motion) (D : Dynamics) (e : Event)
    (Jc iM_JcT : Nat → Nat → Real) (ci : Nat) (gc_indices : List (DynamicBodyPtr × Nat)) :
    Option ((Nat → Nat → Real) × (Nat → Nat → Real)) :=
  match e.contact_geom1, e.contact_geom2 with
  | some g1, some g2 =>
    match g1.get_single_body, g2.get_single_body with
    | some sb1, some sb2 =>
      let super1 := (B.get_articulated_body sb1).getD sb1
      let super2 := (B.get_articulated_body sb2).getD sb2
      some (process_body K D e gc_indices ci super2 sb2 (Vector3.neg e.contact_normal)
        (process_body K D e gc_indices ci super1 sb1 e.contact_normal (Jc, iM_JcT)))
    | _, _ => none
  | _, _ => none

/-- Bodies at the origin, at rest. -/
def still : Motion :=
  { get_position := fun _ => ZEROS_3, get_lvel := fun _ => ZEROS_3, get_avel := fun _ => ZEROS_3 }

/-- Super bodies with one generalized coordinate: a force on the body `sb`
amounts to the generalized force `sb` times its `z` component; the generalized
inertia is 1. -/
def axial_dynamics : Dynamics :=
  { convert_to_generalized_force := fun _ sb f _ => [f.z * (sb : Real)],
    solve_generalized_inertia := fun _ v => v }

/-! ## Redundant contacts -/

/-- The loop of `Event::redundant_contacts`, run for at most `fuel` passes:
the contact `nr_indices[i]` is taken out to give `row_indices`, and the linear
program is solved; when the solver fails the contact stays and `i` advances,
otherwise `nr_indices` becomes `row_indices`. The solver
`Optimization::lp_simplex` is taken as given: its answer to the `calls`-th
call for the kept rows and the candidate contact. `none` when the passes are
used up before the loop ends. -/
def redundant_loop (lp_simplex : Nat → List Nat → Nat → Bool) :
    Nat → Nat → Nat → List Nat → Option (List Nat)
  | 0, _, i, nr_indices => if i < nr_indices.length then none else some nr_indices
  | fuel + 1, calls, i, nr_indices =>
    match nr_indices[i]? with
    | none => some nr_indices
    | some c =>
      if lp_simplex calls (nr_indices.eraseIdx i) c then
        redundant_loop lp_simplex fuel (calls + 1) i (nr_indices.eraseIdx i)
      else redundant_loop lp_simplex fuel (calls + 1) (i + 1) nr_indices

/-- `Event::redundant_contacts`: the indices `nr_indices` on return. Every pass
advances `i` or shortens `nr_indices`, so that `nr_indices.size()` passes are
granted. -/
def Event.redundant_contacts (lp_simplex : Nat → List Nat → Nat → Bool)
    (nr_indices : List Nat) : Option (List Nat) :=
  redundant_loop lp_simplex nr_indices.length 0 0 nr_indices

/-! ## Spatial vectors as matrices -/

/-- Modelled from the spec: a wrench (`Ravelin/Wrenchd.h` is not part of the
sources at hand): a force and a torque. -/
structure Wrenchd where
  get_force : Vector3
  get_torque : Vector3
deriving DecidableEq, Repr

/-- Modelled from the spec: a twist (`Ravelin/Twistd.h` is not part of the
sources at hand): a linear and an angular velocity. -/
structure Twistd where
  get_linear : Vector3
  get_angular : Vector3
deriving DecidableEq, Repr

/-- Modelled from the spec: the spatial dot product `Twistd::dot(Wrenchd)`
(`Ravelin/Twistd.h` is not part of the sources at hand): linear velocity times
force plus angular velocity times torque. -/
def Twistd.dot (t : Twistd) (w : Wrenchd) : Real :=
  t.get_linear.x * w.get_force.x + t.get_linear.y * w.get_force.y
    + t.get_linear.z * w.get_force.z + t.get_angular.x * w.get_torque.x
    + t.get_angular.y * w.get_torque.y + t.get_angular.z * w.get_torque.z

/-- `to_matrix(w, m)`: the matrix is resized to `6 × w.size()` and the data
array is filled wrench by wrench with the force and the torque. -/
def to_matrix (w : List Wrenchd) : MatrixN :=
  { rows := 6, columns := w.length,
    data := w.flatMap fun wi =>
      [wi.get_force.x, wi.get_force.y, wi.get_force.z,
       wi.get_torque.x, wi.get_torque.y, wi.get_torque.z] }

/-- `transpose_mult(t, w, result)` for twists and wrenches: the matrix is
resized to `t.size() × w.size()` and the data array is filled, for each twist in
turn, with its dot products with all the wrenches. -/
def transpose_mult (t : List Twistd) (w : List Wrenchd) : MatrixN :=
  { rows := t.length, columns := w.length,
    data := t.flatMap fun ti => w.map fun wj => ti.dot wj }

/-- The entry `(i, j)` of a matrix under the storage layout that keeps the
columns one after the other in the data array (entry `(i, j)` at index
`j * rows + i`). -/
def MatrixN.entry (m : MatrixN) (i j : Nat) : Option Real :=
  if i < m.rows ∧ j < m.columns then m.data[j * m.rows + i]? else none

/-- The six entries of column `j` of a matrix under that layout. -/
def MatrixN.column6 (m : MatrixN) (j : Nat) : List (Option Real) :=
  (List.range 6).map fun i => m.entry i j

/-! ## Axis-aligned bounding boxes -/

/-- Modelled from the spec: `Vector3::operator[]` as a read (`Vector3.h` is not
part of the sources at hand): the component `i` of the vector. -/
def Vector3.get (v : Vector3) (i : Nat) : Real :=
  if i = 0 then v.x else if i = 1 then v.y else v.z

/-- Modelled from the spec: `Vector3::operator[]` as a write (`Vector3.h` is
not part of the sources at hand): the vector with the component `i`
replaced. -/
def Vector3.set (v : Vector3) (i : Nat) (a : Real) : Vector3 :=
  if i = 0 then { v with x := a } else if i = 1 then { v with y := a } else { v with z := a }

/-- The corners `minp` and `maxp` of an `AABB`. -/
structure AABB where
  minp : Vector3
  maxp : Vector3
deriving DecidableEq, Repr

/-- The body of the loop over the axes in `AABB::AABB(begin, end)` for the
point `p` and the axis `i`. -/
def AABB.expand_axis (p : Vector3) (b : AABB) (i : Nat) : AABB :=
  let b1 : AABB := if p.get i < b.minp.get i then { b with minp := b.minp.set i (p.get i) } else b
  if p.get i > b1.maxp.get i then { b1 with maxp := b1.maxp.set i (p.get i) } else b1

/-- One pass of the loop over the points: the three axes in turn. -/
def AABB.expand (b : AABB) (p : Vector3) : AABB :=
  [0, 1, 2].foldl (AABB.expand_axis p) b

/-- `AABB::AABB(begin, end)`: both corners start at the first point, then the
box is grown by every further point. An empty range dereferences `end` and
gives `none`. -/
def AABB.of_points : List Vector3 → Option AABB
  | [] => none
  | p :: ps => some (ps.foldl AABB.expand { minp := p, maxp := p })

/-- The contact event with its two geometries exchanged. -/
def Event.exchange_geoms (e : Event) : Event :=
  { e with contact_geom1 := e.contact_geom2, contact_geom2 := e.contact_geom1 }

/-- Two fixed-base arms and free bodies: bodies 1 (the base) and 2 are the
links of articulated body 7, bodies 3 and 4 the links of articulated body 8,
every other body is free; the bodies in `disabled` are disabled; nothing
moves. -/
def two_arms (disabled : List SingleBodyPtr) : Bodies :=
  { is_enabled := fun b => !(disabled.contains b),
    get_articulated_body := fun b =>
      if b = 1 ∨ b = 2 then some 7 else if b = 3 ∨ b = 4 then some 8 else none,
    get_links := fun ab => if ab = 7 then [1, 2] else if ab = 8 then [3, 4] else [],
    calc_point_vel := fun _ _ _ => 0 }

/-- Event problem data with every impulse vector non-empty: two contacts, one
with a linearized and one with a true cone, one limit, and one entry in each of
the three constraint segments; the indices are laid out in order. -/
def layout_data : EventProblemData :=
  { EventProblemData.empty with
    N_LIN_CONE := 1, N_TRUE_CONE := 1,
    ALPHA_C_IDX := 0, BETA_C_IDX := 2, NBETA_C_IDX := 4, BETAU_C_IDX := 6,
    ALPHA_L_IDX := 7, BETA_T_IDX := 8, ALPHA_X_IDX := 9, BETA_X_IDX := 10, N_VARS := 11,
    alpha_c := [1, 2], beta_c := [3, -4, 5], alpha_l := [6], beta_t := [7],
    alpha_x := [8], beta_x := [9] }

/-- Event problem data with one bounded friction entry `-1` and no companion
segment: the indices are in layout order, `NBETA_C_IDX` and all later indices
are `N_VARS = 1`. -/
def unpaired_data : EventProblemData :=
  { EventProblemData.empty with
    NBETA_C_IDX := 1, BETAU_C_IDX := 1, ALPHA_L_IDX := 1, BETA_T_IDX := 1,
    ALPHA_X_IDX := 1, BETA_X_IDX := 1, N_VARS := 1, beta_c := [-1] }

/-! # Properties -/

/-! ## The node set as a strictly increasing list -/

theorem mem_set_insert (a b : SingleBodyPtr) (s : List SingleBodyPtr) :
    a ∈ set_insert b s ↔ a = b ∨ a ∈ s := by
  induction s with
  | nil => simp [set_insert]
  | cons x xs ih =>
    unfold set_insert
    split_ifs with h1 h2
    · simp
    · subst h2; simp
    · simp [ih]; tauto

theorem set_insert_sorted (b : SingleBodyPtr) (s : List SingleBodyPtr)
    (hs : s.Pairwise (· < ·)) : (set_insert b s).Pairwise (· < ·) := by
  induction s with
  | nil => simp [set_insert]
  | cons x xs ih =>
    rw [List.pairwise_cons] at hs
    unfold set_insert
    split_ifs with h1 h2
    · refine List.pairwise_cons.2 ⟨?_, List.pairwise_cons.2 hs⟩
      intro y hy
      rcases List.mem_cons.1 hy with rfl | hy
      · exact h1
      · exact lt_trans h1 (hs.1 y hy)
    · exact List.pairwise_cons.2 hs
    · refine List.pairwise_cons.2 ⟨?_, ih hs.2⟩
      intro y hy
      rcases (mem_set_insert y b xs).1 hy with hyb | hy
      · rw [hyb]
        exact lt_of_le_of_ne (not_lt.1 h1) (fun h => h2 h.symm)
      · exact hs.1 y hy

/-! ## The queue loop ends -/

theorem pop_bound_pos (D n : Nat) : 1 ≤ pop_bound D n := by
  cases n <;> simp [pop_bound]

theorem pop_bound_succ_le (D n : Nat) : pop_bound D n ≤ pop_bound D (n + 1) := by
  induction n with
  | zero => simp [pop_bound]
  | succ n ih =>
    show 1 + D * pop_bound D n ≤ 1 + D * pop_bound D (n + 1)
    exact Nat.add_le_add_left (Nat.mul_le_mul_left D ih) 1

theorem queue_fuel_eq (D : Nat) (nodes q : List SingleBodyPtr) :
    queue_fuel D nodes q = (q.map (entry_weight D nodes)).sum := rfl

theorem entry_weight_erase_le (D : Nat) (nodes : List SingleBodyPtr) (n x : SingleBodyPtr) :
    entry_weight D (nodes.erase n) x ≤ entry_weight D nodes x := by
  by_cases hn : n ∈ nodes
  · have hlen : (nodes.erase n).length + 1 = nodes.length := by
      rw [List.length_erase_of_mem hn]
      have := List.length_pos_of_mem hn
      omega
    unfold entry_weight
    by_cases hx : x ∈ nodes.erase n
    · have hx2 : x ∈ nodes := List.mem_of_mem_erase hx
      rw [if_pos hx, if_pos hx2, ← hlen]
      exact pop_bound_succ_le D _
    · rw [if_neg hx, hlen]
      split_ifs
      · exact le_refl _
      · exact pop_bound_succ_le D _
  · rw [List.erase_of_not_mem hn]

theorem entry_weight_front (D : Nat) (nodes : List SingleBodyPtr) (n : SingleBodyPtr) :
    1 + D * pop_bound D (nodes.erase n).length ≤ entry_weight D nodes n := by
  unfold entry_weight
  by_cases hn : n ∈ nodes
  · have hlen : (nodes.erase n).length + 1 = nodes.length := by
      rw [List.length_erase_of_mem hn]
      have := List.length_pos_of_mem hn
      omega
    rw [if_pos hn, ← hlen]
    exact le_refl _
  · rw [if_neg hn, List.erase_of_not_mem hn]
    exact le_refl _

theorem mem_neighbors (edges : List (SingleBodyPtr × SingleBodyPtr)) (node x : SingleBodyPtr)
    (nodes : List SingleBodyPtr) :
    x ∈ neighbors edges node nodes ↔ (node, x) ∈ edges ∧ x ∈ nodes := by
  unfold neighbors
  simp only [List.mem_map, List.mem_filter, Bool.and_eq_true, beq_iff_eq, decide_eq_true_eq,
    Prod.exists]
  constructor
  · rintro ⟨a, b, ⟨hm, rfl, hb⟩, rfl⟩
    exact ⟨hm, hb⟩
  · rintro ⟨hm, hx⟩
    exact ⟨node, x, ⟨hm, rfl, hx⟩, rfl⟩

theorem neighbors_length_le (edges : List (SingleBodyPtr × SingleBodyPtr)) (node : SingleBodyPtr)
    (nodes : List SingleBodyPtr) : (neighbors edges node nodes).length ≤ edges.length := by
  unfold neighbors
  rw [List.length_map]
  exact List.length_filter_le _ _

theorem pop_node_fuel_lt (edges : List (SingleBodyPtr × SingleBodyPtr)) (s : Traversal)
    (node : SingleBodyPtr) (rest : List SingleBodyPtr) (hq : s.node_q = node :: rest) :
    queue_fuel edges.length (pop_node edges s node rest).nodes (pop_node edges s node rest).node_q
      < queue_fuel edges.length s.nodes s.node_q := by
  rw [queue_fuel_eq, queue_fuel_eq, hq]
  simp only [pop_node, List.map_append, List.sum_append, List.map_cons, List.sum_cons]
  have h1 : (rest.map (entry_weight edges.length (s.nodes.erase node))).sum
      ≤ (rest.map (entry_weight edges.length s.nodes)).sum :=
    List.sum_le_sum (fun x _ => entry_weight_erase_le _ _ _ _)
  have h2 : ((neighbors edges node (s.nodes.erase node)).map
      (entry_weight edges.length (s.nodes.erase node))).sum
      ≤ edges.length * pop_bound edges.length (s.nodes.erase node).length := by
    have h3 := List.sum_le_card_nsmul
      ((neighbors edges node (s.nodes.erase node)).map
        (entry_weight edges.length (s.nodes.erase node)))
      (pop_bound edges.length (s.nodes.erase node).length)
      (by
        intro w hw
        obtain ⟨x, hx, rfl⟩ := List.mem_map.1 hw
        have hx2 := ((mem_neighbors _ _ _ _).1 hx).2
        unfold entry_weight
        rw [if_pos hx2])
    rw [List.length_map, smul_eq_mul] at h3
    exact le_trans h3 (Nat.mul_le_mul_right _ (neighbors_length_le _ _ _))
  have h4 := entry_weight_front edges.length s.nodes node
  omega

theorem queue_fuel_zero (D : Nat) (nodes q : List SingleBodyPtr)
    (h : queue_fuel D nodes q = 0) : q = [] := by
  cases q with
  | nil => rfl
  | cons x xs =>
    rw [queue_fuel_eq, List.map_cons, List.sum_cons] at h
    have : 1 ≤ entry_weight D nodes x := by
      unfold entry_weight
      split_ifs <;> exact pop_bound_pos _ _
    omega

/-- With the fuel it is given, the queue loop runs until the queue is empty. -/
theorem process_queue_drains (edges : List (SingleBodyPtr × SingleBodyPtr)) (fuel : Nat) :
    ∀ s : Traversal, queue_fuel edges.length s.nodes s.node_q ≤ fuel →
      (process_queue edges fuel s).node_q = [] := by
  induction fuel with
  | zero =>
    intro s h
    exact queue_fuel_zero _ _ _ (Nat.le_zero.1 h)
  | succ fuel ih =>
    intro s h
    unfold process_queue
    split
    · assumption
    · rename_i node rest hq
      apply ih
      have := pop_node_fuel_lt edges s node rest hq
      omega

/-- A property kept by every pass of the queue loop holds when the loop ends. -/
theorem process_queue_induction (edges : List (SingleBodyPtr × SingleBodyPtr))
    (P : Traversal → Prop)
    (hstep : ∀ s node rest, s.node_q = node :: rest → P s → P (pop_node edges s node rest))
    (fuel : Nat) : ∀ s : Traversal, P s → P (process_queue edges fuel s) := by
  induction fuel with
  | zero => intro s h; exact h
  | succ fuel ih =>
    intro s h
    unfold process_queue
    split
    · exact h
    · rename_i node rest hq
      exact ih _ (hstep s node rest hq h)
/-! ## One island: what the queue loop keeps -/

theorem touches_any_nil (r : EventRef) : r.touches_any [] = false := rfl

theorem touches_any_append (r : EventRef) (l1 l2 : List SingleBodyPtr) :
    r.touches_any (l1 ++ l2) = (r.touches_any l1 || r.touches_any l2) := by
  simp [EventRef.touches_any]

theorem touches_any_singleton (r : EventRef) (n : SingleBodyPtr) :
    r.touches_any [n] = r.touches n := by
  simp [EventRef.touches_any]

theorem touches_any_iff (r : EventRef) (l : List SingleBodyPtr) :
    r.touches_any l = true ↔ ∃ x ∈ l, r.touches x = true := by
  simp [EventRef.touches_any]

theorem touches_iff (r : EventRef) (x : SingleBodyPtr) :
    r.touches x = true ↔ r.sb1 = x ∨ r.sb2 = x := by
  simp [EventRef.touches]

theorem traversal_inv_init (edges : List (SingleBodyPtr × SingleBodyPtr))
    (S : List SingleBodyPtr) (ec : List EventRef) (start : SingleBodyPtr)
    (hS : S.Nodup) (hstart : start ∈ S) :
    TraversalInv edges S ec start
      { nodes := S, node_q := [start], events_copy := ec, popped := [], group := [] } where
  nodup := hS
  nodes_iff := by simp
  queue_reach := by
    intro x hx
    rw [List.mem_singleton.1 hx]
    exact ⟨hstart, Relation.ReflTransGen.refl⟩
  popped_reach := by simp
  frontier := by simp
  events := by simp [touches_any_nil]
  group_perm := by simp
  group_mem := by simp
  group_all := by simp [touches_any_nil]
  start_seen := by simp

theorem traversal_inv_step (edges : List (SingleBodyPtr × SingleBodyPtr))
    (S : List SingleBodyPtr) (ec : List EventRef) (start : SingleBodyPtr)
    (hclosed : ∀ a b, (a, b) ∈ edges → a ∈ S → b ∈ S)
    (s : Traversal) (node : SingleBodyPtr) (rest : List SingleBodyPtr)
    (hq : s.node_q = node :: rest) (h : TraversalInv edges S ec start s) :
    TraversalInv edges S ec start (pop_node edges s node rest) := by
  have hnode := h.queue_reach node (by rw [hq]; simp)
  have hmem : ∀ x, x ∈ s.nodes.erase node ↔ x ∈ S ∧ x ∉ s.popped ++ [node] := by
    intro x
    rw [h.nodup.mem_erase_iff, h.nodes_iff]
    simp only [List.mem_append, List.mem_singleton, not_or]
    tauto
  refine
    { nodup := h.nodup.erase node
      nodes_iff := hmem
      queue_reach := ?_
      popped_reach := ?_
      frontier := ?_
      events := ?_
      group_perm := ?_
      group_mem := ?_
      group_all := ?_
      start_seen := ?_ }
  · intro x hx
    rcases List.mem_append.1 hx with hx | hx
    · exact h.queue_reach x (by rw [hq]; exact List.mem_cons_of_mem _ hx)
    · obtain ⟨he, hx2⟩ := (mem_neighbors _ _ _ _).1 hx
      exact ⟨((hmem x).1 hx2).1, Relation.ReflTransGen.tail hnode.2 he⟩
  · intro x hx
    rcases List.mem_append.1 hx with hx | hx
    · exact h.popped_reach x hx
    · rw [List.mem_singleton.1 hx]
      exact hnode
  · intro a b hab ha
    show b ∈ s.popped ++ [node] ∨ b ∈ rest ++ neighbors edges node (s.nodes.erase node)
    rcases List.mem_append.1 ha with ha | ha
    · rcases h.frontier a b hab ha with hb | hb
      · exact Or.inl (List.mem_append_left _ hb)
      · rw [hq] at hb
        rcases List.mem_cons.1 hb with hb | hb
        · exact Or.inl (by rw [hb]; simp)
        · exact Or.inr (List.mem_append_left _ hb)
    · rw [List.mem_singleton.1 ha] at hab
      have hbS : b ∈ S := hclosed node b hab hnode.1
      by_cases hb : b ∈ s.popped ++ [node]
      · exact Or.inl hb
      · exact Or.inr (List.mem_append_right _
          ((mem_neighbors _ _ _ _).2 ⟨hab, (hmem b).2 ⟨hbS, hb⟩⟩))
  · show s.events_copy.filter (fun r => !r.touches node)
      = ec.filter (fun r => !r.touches_any (s.popped ++ [node]))
    rw [h.events, List.filter_filter]
    apply List.filter_congr
    intro r _
    rw [touches_any_append, touches_any_singleton]
    cases r.touches node <;> cases r.touches_any s.popped <;> rfl
  · show ((s.group ++ (s.events_copy.filter (fun r => r.touches node)).map EventRef.ptr)
      ++ (s.events_copy.filter (fun r => !r.touches node)).map EventRef.ptr).Perm
        (ec.map EventRef.ptr)
    rw [List.append_assoc, ← List.map_append]
    refine List.Perm.trans (List.Perm.append_left _ (List.Perm.map _ ?_)) h.group_perm
    exact List.filter_append_perm _ _
  · intro i hi
    rcases List.mem_append.1 hi with hi | hi
    · obtain ⟨r, hr, hptr, ht⟩ := h.group_mem i hi
      refine ⟨r, hr, hptr, ?_⟩
      show r.touches_any (s.popped ++ [node]) = true
      rw [touches_any_append, ht]
      rfl
    · obtain ⟨r, hr, hptr⟩ := List.mem_map.1 hi
      obtain ⟨hr1, hr2⟩ := List.mem_filter.1 hr
      rw [h.events] at hr1
      refine ⟨r, (List.mem_filter.1 hr1).1, hptr, ?_⟩
      show r.touches_any (s.popped ++ [node]) = true
      rw [touches_any_append, touches_any_singleton, hr2]
      simp
  · intro r hr ht
    show r.ptr ∈ s.group ++ (s.events_copy.filter (fun r => r.touches node)).map EventRef.ptr
    have ht2 : r.touches_any (s.popped ++ [node]) = true := ht
    rw [touches_any_append, touches_any_singleton] at ht2
    by_cases hp : r.touches_any s.popped = true
    · exact List.mem_append_left _ (h.group_all r hr hp)
    · have hn : r.touches node = true := by
        rcases Bool.or_eq_true_iff.1 ht2 with h1 | h1
        · exact absurd h1 hp
        · exact h1
      apply List.mem_append_right
      apply List.mem_map.2
      refine ⟨r, List.mem_filter.2 ⟨?_, hn⟩, rfl⟩
      rw [h.events]
      exact List.mem_filter.2 ⟨hr, by simpa using hp⟩
  · show start ∈ s.popped ++ [node] ∨ start ∈ rest ++ neighbors edges node (s.nodes.erase node)
    rcases h.start_seen with hs | hs
    · exact Or.inl (List.mem_append_left _ hs)
    · rw [hq] at hs
      rcases List.mem_cons.1 hs with hs | hs
      · exact Or.inl (by rw [hs]; simp)
      · exact Or.inr (List.mem_append_left _ hs)

/-- The queue loop of an island, run from the first node of a closed set of
nodes, empties its queue and ends in a state that satisfies `TraversalInv`. -/
theorem first_island (edges : List (SingleBodyPtr × SingleBodyPtr))
    (node : SingleBodyPtr) (nodes : List SingleBodyPtr) (ec : List EventRef)
    (hS : (node :: nodes).Nodup)
    (hclosed : ∀ a b, (a, b) ∈ edges → a ∈ node :: nodes → b ∈ node :: nodes) :
    (process_queue edges (queue_fuel edges.length (node :: nodes) [node])
        { nodes := node :: nodes, node_q := [node], events_copy := ec,
          popped := [], group := [] }).node_q = []
    ∧ TraversalInv edges (node :: nodes) ec node
      (process_queue edges (queue_fuel edges.length (node :: nodes) [node])
        { nodes := node :: nodes, node_q := [node], events_copy := ec,
          popped := [], group := [] }) := by
  constructor
  · exact process_queue_drains edges _ _ (le_refl _)
  · exact process_queue_induction edges (TraversalInv edges (node :: nodes) ec node)
      (fun s n rest hq h => traversal_inv_step edges _ ec node hclosed s n rest hq h) _ _
      (traversal_inv_init edges _ ec node hS (List.mem_cons_self _ _))
/-! ## The outer loop: the islands of a run -/

theorem inv_mem_split {edges : List (SingleBodyPtr × SingleBodyPtr)} {S : List SingleBodyPtr}
    {ec : List EventRef} {start : SingleBodyPtr} {s : Traversal}
    (h : TraversalInv edges S ec start s) (x : SingleBodyPtr) :
    x ∈ S ↔ x ∈ s.popped ∨ x ∈ s.nodes := by
  constructor
  · intro hx
    by_cases hp : x ∈ s.popped
    · exact Or.inl hp
    · exact Or.inr ((h.nodes_iff x).2 ⟨hx, hp⟩)
  · rintro (hx | hx)
    · exact (h.popped_reach x hx).1
    · exact ((h.nodes_iff x).1 hx).1

theorem inv_touches_split {edges : List (SingleBodyPtr × SingleBodyPtr)} {S : List SingleBodyPtr}
    {ec : List EventRef} {start : SingleBodyPtr} {s : Traversal}
    (h : TraversalInv edges S ec start s) (r : EventRef) :
    r.touches_any S = (r.touches_any s.popped || r.touches_any s.nodes) := by
  rw [Bool.eq_iff_iff, Bool.or_eq_true_iff, touches_any_iff, touches_any_iff, touches_any_iff]
  constructor
  · rintro ⟨x, hx, ht⟩
    rcases (inv_mem_split h x).1 hx with hx | hx
    · exact Or.inl ⟨x, hx, ht⟩
    · exact Or.inr ⟨x, hx, ht⟩
  · rintro (⟨x, hx, ht⟩ | ⟨x, hx, ht⟩)
    · exact ⟨x, (inv_mem_split h x).2 (Or.inl hx), ht⟩
    · exact ⟨x, (inv_mem_split h x).2 (Or.inr hx), ht⟩

theorem inv_start_popped {edges : List (SingleBodyPtr × SingleBodyPtr)} {S : List SingleBodyPtr}
    {ec : List EventRef} {start : SingleBodyPtr} {s : Traversal}
    (h : TraversalInv edges S ec start s) (hq : s.node_q = []) : start ∈ s.popped := by
  rcases h.start_seen with hs | hs
  · exact hs
  · rw [hq] at hs
    exact absurd hs (List.not_mem_nil _)

theorem inv_popped_closed {edges : List (SingleBodyPtr × SingleBodyPtr)} {S : List SingleBodyPtr}
    {ec : List EventRef} {start : SingleBodyPtr} {s : Traversal}
    (h : TraversalInv edges S ec start s) (hq : s.node_q = [])
    (a b : SingleBodyPtr) (hab : (a, b) ∈ edges) (ha : a ∈ s.popped) : b ∈ s.popped := by
  rcases h.frontier a b hab ha with hb | hb
  · exact hb
  · rw [hq] at hb
    exact absurd hb (List.not_mem_nil _)

theorem inv_nodes_closed {edges : List (SingleBodyPtr × SingleBodyPtr)} {S : List SingleBodyPtr}
    {ec : List EventRef} {start : SingleBodyPtr} {s : Traversal}
    (h : TraversalInv edges S ec start s) (hq : s.node_q = [])
    (hsymm : ∀ a b, (a, b) ∈ edges → (b, a) ∈ edges)
    (hclosed : ∀ a b, (a, b) ∈ edges → a ∈ S → b ∈ S)
    (a b : SingleBodyPtr) (hab : (a, b) ∈ edges) (ha : a ∈ s.nodes) : b ∈ s.nodes := by
  obtain ⟨haS, hap⟩ := (h.nodes_iff a).1 ha
  refine (h.nodes_iff b).2 ⟨hclosed a b hab haS, fun hb => hap ?_⟩
  exact inv_popped_closed h hq b a (hsymm a b hab) hb

theorem inv_events_rest {edges : List (SingleBodyPtr × SingleBodyPtr)} {S : List SingleBodyPtr}
    {ec : List EventRef} {start : SingleBodyPtr} {s : Traversal}
    (h : TraversalInv edges S ec start s) :
    s.events_copy.filter (fun r => !r.touches_any s.nodes)
      = ec.filter (fun r => !r.touches_any S) := by
  rw [h.events, List.filter_filter]
  apply List.filter_congr
  intro r _
  rw [inv_touches_split h r]
  cases r.touches_any s.popped <;> cases r.touches_any s.nodes <;> rfl

/-- The outer loop, given one pass more than there are nodes, is a complete
run. -/
theorem build_islands_run (edges : List (SingleBodyPtr × SingleBodyPtr))
    (hsymm : ∀ a b, (a, b) ∈ edges → (b, a) ∈ edges) (fuel : Nat) :
    ∀ (S : List SingleBodyPtr) (ec : List EventRef), S.length < fuel → S.Nodup →
      (∀ a b, (a, b) ∈ edges → a ∈ S → b ∈ S) →
      Run edges S ec (build_islands edges fuel S ec) := by
  induction fuel with
  | zero => intro S ec h; exact absurd h (Nat.not_lt_zero _)
  | succ fuel ih =>
    intro S ec hlen hS hclosed
    cases S with
    | nil => exact Run.done ec
    | cons node nodes =>
      obtain ⟨hq, hinv⟩ := first_island edges node nodes ec hS hclosed
      unfold build_islands
      refine Run.island (node :: nodes) ec node _ _ hq hinv (ih _ _ ?_ hinv.nodup ?_)
      · have hsub : ∀ x, x ∈ (process_queue edges (queue_fuel edges.length (node :: nodes) [node])
            { nodes := node :: nodes, node_q := [node], events_copy := ec,
              popped := [], group := [] }).nodes → x ∈ nodes := by
          intro x hx
          obtain ⟨hxS, hxp⟩ := (hinv.nodes_iff x).1 hx
          rcases List.mem_cons.1 hxS with hx1 | hx1
          · rw [hx1] at hxp
            exact absurd (inv_start_popped hinv hq) hxp
          · exact hx1
        have := (List.subperm_of_subset hinv.nodup hsub).length_le
        simp only [List.length_cons] at hlen
        omega
      · exact inv_nodes_closed hinv hq hsymm hclosed

/-- Every event leaves the remaining events for exactly one island, and the
events left at the end are those that refer to no node. -/
theorem run_perm {edges : List (SingleBodyPtr × SingleBodyPtr)} {S : List SingleBodyPtr}
    {ec : List EventRef} {isl : List Island} (h : Run edges S ec isl) :
    (isl.flatMap Island.group
      ++ (ec.filter (fun r => !r.touches_any S)).map EventRef.ptr).Perm (ec.map EventRef.ptr) := by
  induction h with
  | done ec => simp [touches_any_nil]
  | island S ec start s rest hq hinv _ ih =>
    rw [List.flatMap_cons, List.append_assoc, ← inv_events_rest hinv]
    exact List.Perm.trans (List.Perm.append_left _ ih) hinv.group_perm

theorem run_popped_sub {edges : List (SingleBodyPtr × SingleBodyPtr)} {S : List SingleBodyPtr}
    {ec : List EventRef} {isl : List Island} (h : Run edges S ec isl) :
    ∀ (k : Nat) (I : Island), isl[k]? = some I → ∀ x ∈ I.popped, x ∈ S := by
  induction h with
  | done ec => intro k I hk; simp at hk
  | island S ec start s rest hq hinv _ ih =>
    intro k I hk x hx
    cases k with
    | zero =>
      simp only [List.getElem?_cons_zero, Option.some.injEq] at hk
      subst hk
      exact (hinv.popped_reach x hx).1
    | succ k =>
      rw [List.getElem?_cons_succ] at hk
      exact ((hinv.nodes_iff x).1 (ih k I hk x hx)).1

theorem run_disjoint {edges : List (SingleBodyPtr × SingleBodyPtr)} {S : List SingleBodyPtr}
    {ec : List EventRef} {isl : List Island} (h : Run edges S ec isl) :
    ∀ (k1 k2 : Nat) (I1 I2 : Island) (x : SingleBodyPtr), isl[k1]? = some I1 → isl[k2]? = some I2 →
      x ∈ I1.popped → x ∈ I2.popped → k1 = k2 := by
  induction h with
  | done ec => intro k1 k2 I1 I2 x hk; simp at hk
  | island S ec start s rest hq hinv hrun ih =>
    intro k1 k2 I1 I2 x hk1 hk2 hx1 hx2
    have hlater : ∀ (k : Nat) (I : Island), rest[k]? = some I → x ∈ I.popped → x ∉ s.popped := by
      intro k I hk hx
      exact ((hinv.nodes_iff x).1 (run_popped_sub hrun k I hk x hx)).2
    cases k1 with
    | zero =>
      cases k2 with
      | zero => rfl
      | succ k2 =>
        simp only [List.getElem?_cons_zero, Option.some.injEq] at hk1
        subst hk1
        rw [List.getElem?_cons_succ] at hk2
        exact absurd hx1 (hlater k2 I2 hk2 hx2)
    | succ k1 =>
      rw [List.getElem?_cons_succ] at hk1
      cases k2 with
      | zero =>
        simp only [List.getElem?_cons_zero, Option.some.injEq] at hk2
        subst hk2
        exact absurd hx2 (hlater k1 I1 hk1 hx1)
      | succ k2 =>
        rw [List.getElem?_cons_succ] at hk2
        rw [ih k1 k2 I1 I2 x hk1 hk2 hx1 hx2]

theorem run_reach {edges : List (SingleBodyPtr × SingleBodyPtr)} {S : List SingleBodyPtr}
    {ec : List EventRef} {isl : List Island} (h : Run edges S ec isl) :
    ∀ (k : Nat) (I : Island), isl[k]? = some I →
      ∃ start, start ∈ I.popped ∧ ∀ x ∈ I.popped, Reach edges start x := by
  induction h with
  | done ec => intro k I hk; simp at hk
  | island S ec start s rest hq hinv _ ih =>
    intro k I hk
    cases k with
    | zero =>
      simp only [List.getElem?_cons_zero, Option.some.injEq] at hk
      subst hk
      exact ⟨start, inv_start_popped hinv hq, fun x hx => (hinv.popped_reach x hx).2⟩
    | succ k =>
      rw [List.getElem?_cons_succ] at hk
      exact ih k I hk

theorem run_closed {edges : List (SingleBodyPtr × SingleBodyPtr)} {S : List SingleBodyPtr}
    {ec : List EventRef} {isl : List Island} (h : Run edges S ec isl) :
    ∀ (k : Nat) (I : Island), isl[k]? = some I → ∀ a b, (a, b) ∈ edges → a ∈ I.popped → b ∈ I.popped := by
  induction h with
  | done ec => intro k I hk; simp at hk
  | island S ec start s rest hq hinv _ ih =>
    intro k I hk
    cases k with
    | zero =>
      simp only [List.getElem?_cons_zero, Option.some.injEq] at hk
      subst hk
      exact inv_popped_closed hinv hq
    | succ k =>
      rw [List.getElem?_cons_succ] at hk
      exact ih k I hk

theorem run_cover {edges : List (SingleBodyPtr × SingleBodyPtr)} {S : List SingleBodyPtr}
    {ec : List EventRef} {isl : List Island} (h : Run edges S ec isl) :
    ∀ x ∈ S, ∃ (k : Nat) (I : Island), isl[k]? = some I ∧ x ∈ I.popped := by
  induction h with
  | done ec => intro x hx; simp at hx
  | island S ec start s rest hq hinv _ ih =>
    intro x hx
    rcases (inv_mem_split hinv x).1 hx with hx | hx
    · exact ⟨0, { popped := s.popped, group := s.group }, List.getElem?_cons_zero, hx⟩
    · obtain ⟨k, I, hk, hxI⟩ := ih x hx
      exact ⟨k + 1, I, by rw [List.getElem?_cons_succ]; exact hk, hxI⟩

/-- An event that refers to a node is in the island of the first pass of the
outer loop that takes one of its bodies off the queue. -/
theorem run_placed {edges : List (SingleBodyPtr × SingleBodyPtr)} {S : List SingleBodyPtr}
    {ec : List EventRef} {isl : List Island} (h : Run edges S ec isl) :
    ∀ r ∈ ec, r.touches_any S = true → ∃ (k : Nat) (I : Island), isl[k]? = some I ∧ r.ptr ∈ I.group
      ∧ r.touches_any I.popped = true
      ∧ ∀ (j : Nat) (J : Island), j < k → isl[j]? = some J → r.touches_any J.popped = false := by
  induction h with
  | done ec => intro r _ ht; simp [touches_any_nil] at ht
  | island S ec start s rest hq hinv _ ih =>
    intro r hr ht
    by_cases hp : r.touches_any s.popped = true
    · refine ⟨0, { popped := s.popped, group := s.group }, List.getElem?_cons_zero,
        hinv.group_all r hr hp, hp, ?_⟩
      intro j J hj
      exact absurd hj (Nat.not_lt_zero _)
    · have hp2 : r.touches_any s.popped = false := by simpa using hp
      have hr2 : r ∈ s.events_copy := by
        rw [hinv.events]
        exact List.mem_filter.2 ⟨hr, by simp [hp2]⟩
      have ht2 : r.touches_any s.nodes = true := by
        rw [inv_touches_split hinv r, hp2] at ht
        simpa using ht
      obtain ⟨k, I, hk, hg, hI, hbefore⟩ := ih r hr2 ht2
      refine ⟨k + 1, I, by rw [List.getElem?_cons_succ]; exact hk, hg, hI, ?_⟩
      intro j J hj hJ
      cases j with
      | zero =>
        simp only [List.getElem?_cons_zero, Option.some.injEq] at hJ
        subst hJ
        exact hp2
      | succ j =>
        rw [List.getElem?_cons_succ] at hJ
        exact hbefore j J (by omega) hJ

/-- Every member of an island is an event that refers to a node taken off the
queue for that island and to no node taken off the queue for an earlier one. -/
theorem run_member {edges : List (SingleBodyPtr × SingleBodyPtr)} {S : List SingleBodyPtr}
    {ec : List EventRef} {isl : List Island} (h : Run edges S ec isl) :
    ∀ (k : Nat) (I : Island), isl[k]? = some I → ∀ i ∈ I.group, ∃ r ∈ ec, r.ptr = i
      ∧ r.touches_any I.popped = true
      ∧ ∀ (j : Nat) (J : Island), j < k → isl[j]? = some J → r.touches_any J.popped = false := by
  induction h with
  | done ec => intro k I hk; simp at hk
  | island S ec start s rest hq hinv _ ih =>
    intro k I hk i hi
    cases k with
    | zero =>
      simp only [List.getElem?_cons_zero, Option.some.injEq] at hk
      subst hk
      obtain ⟨r, hr, hptr, ht⟩ := hinv.group_mem i hi
      exact ⟨r, hr, hptr, ht, fun j J hj => absurd hj (Nat.not_lt_zero _)⟩
    | succ k =>
      rw [List.getElem?_cons_succ] at hk
      obtain ⟨r, hr, hptr, ht, hbefore⟩ := ih k I hk i hi
      rw [hinv.events] at hr
      obtain ⟨hr1, hr2⟩ := List.mem_filter.1 hr
      refine ⟨r, hr1, hptr, ht, ?_⟩
      intro j J hj hJ
      cases j with
      | zero =>
        simp only [List.getElem?_cons_zero, Option.some.injEq] at hJ
        subst hJ
        simpa using hr2
      | succ j =>
        rw [List.getElem?_cons_succ] at hJ
        exact hbefore j J (by omega) hJ

/-! ## The body graph -/

theorem add_event_nodes_mem (B : Bodies) (g : Graph) (r : EventRef) (x : SingleBodyPtr) :
    x ∈ (add_event_nodes B g r).nodes ↔ x ∈ g.nodes ∨ r.adds_node B x := by
  unfold add_event_nodes EventRef.adds_node
  cases r.event_type with
  | eNone => simp
  | eContact =>
    by_cases h1 : B.is_enabled r.sb1 = true <;> by_cases h2 : B.is_enabled r.sb2 = true <;>
      simp [h1, h2, mem_set_insert] <;> tauto
  | eLimit => simp [mem_set_insert]; tauto
  | eConstraint => simp [mem_set_insert]; tauto

theorem add_event_edges_mem (B : Bodies) (g : Graph) (r : EventRef)
    (p : SingleBodyPtr × SingleBodyPtr) :
    p ∈ (add_event_nodes B g r).edges ↔ p ∈ g.edges ∨ r.adds_edge B p := by
  unfold add_event_nodes EventRef.adds_edge
  cases r.event_type with
  | eNone => simp
  | eContact =>
    by_cases h1 : B.is_enabled r.sb1 = true <;> by_cases h2 : B.is_enabled r.sb2 = true <;>
      simp [h1, h2]
  | eLimit => simp
  | eConstraint => simp

theorem add_event_nodes_sorted (B : Bodies) (g : Graph) (r : EventRef)
    (h : g.nodes.Pairwise (· < ·)) : (add_event_nodes B g r).nodes.Pairwise (· < ·) := by
  unfold add_event_nodes
  cases r.event_type with
  | eNone => exact h
  | eContact =>
    simp only
    split_ifs
    · exact set_insert_sorted _ _ (set_insert_sorted _ _ h)
    · exact set_insert_sorted _ _ h
    · exact set_insert_sorted _ _ h
    · exact h
  | eLimit => exact set_insert_sorted _ _ (set_insert_sorted _ _ h)
  | eConstraint => exact set_insert_sorted _ _ (set_insert_sorted _ _ h)

theorem foldl_nodes_mem (B : Bodies) (rs : List EventRef) :
    ∀ (g : Graph) (x : SingleBodyPtr),
      x ∈ (rs.foldl (add_event_nodes B) g).nodes ↔ x ∈ g.nodes ∨ ∃ r ∈ rs, r.adds_node B x := by
  induction rs with
  | nil => intro g x; simp
  | cons r rs ih =>
    intro g x
    rw [List.foldl_cons, ih, add_event_nodes_mem]
    simp only [List.mem_cons, exists_eq_or_imp]
    tauto

theorem foldl_edges_mem (B : Bodies) (rs : List EventRef) :
    ∀ (g : Graph) (p : SingleBodyPtr × SingleBodyPtr),
      p ∈ (rs.foldl (add_event_nodes B) g).edges ↔ p ∈ g.edges ∨ ∃ r ∈ rs, r.adds_edge B p := by
  induction rs with
  | nil => intro g p; simp
  | cons r rs ih =>
    intro g p
    rw [List.foldl_cons, ih, add_event_edges_mem]
    simp only [List.mem_cons, exists_eq_or_imp]
    tauto

theorem foldl_nodes_sorted (B : Bodies) (rs : List EventRef) :
    ∀ g : Graph, g.nodes.Pairwise (· < ·) →
      (rs.foldl (add_event_nodes B) g).nodes.Pairwise (· < ·) := by
  induction rs with
  | nil => intro g h; exact h
  | cons r rs ih =>
    intro g h
    rw [List.foldl_cons]
    exact ih _ (add_event_nodes_sorted B g r h)

theorem collect_nodes_mem (B : Bodies) (rs : List EventRef) (x : SingleBodyPtr) :
    x ∈ (collect_nodes B rs).nodes ↔ ∃ r ∈ rs, r.adds_node B x := by
  unfold collect_nodes
  rw [foldl_nodes_mem]
  simp

theorem collect_edges_mem (B : Bodies) (rs : List EventRef) (p : SingleBodyPtr × SingleBodyPtr) :
    p ∈ (collect_nodes B rs).edges ↔ ∃ r ∈ rs, r.adds_edge B p := by
  unfold collect_nodes
  rw [foldl_edges_mem]
  simp

theorem collect_nodes_nodup (B : Bodies) (rs : List EventRef) :
    (collect_nodes B rs).nodes.Nodup := by
  have h : (collect_nodes B rs).nodes.Pairwise (· < ·) :=
    foldl_nodes_sorted B rs _ List.Pairwise.nil
  exact h.imp (fun hab => Nat.ne_of_lt hab)

/-! ### Edges between the links of an articulated body -/

theorem link_edges_mem (nodes : List SingleBodyPtr) (links : List RigidBodyPtr)
    (p : SingleBodyPtr × SingleBodyPtr) (h : p ∈ link_edges nodes links) :
    p.1 ∈ links ∧ p.2 ∈ links ∧ p.1 ∈ nodes ∧ p.2 ∈ nodes ∧ (p.2, p.1) ∈ link_edges nodes links := by
  induction links with
  | nil => simp [link_edges] at h
  | cons j ks ih =>
    unfold link_edges at h ⊢
    rcases List.mem_append.1 h with h | h
    · by_cases hj : j ∈ nodes
      · rw [if_pos hj] at h ⊢
        obtain ⟨k, hk, hp⟩ := List.mem_flatMap.1 h
        obtain ⟨hk1, hk2⟩ := List.mem_filter.1 hk
        have hk2 : k ∈ nodes := by simpa using hk2
        have hswap : ∀ q, q = (j, k) ∨ q = (k, j) →
            q ∈ (ks.filter (fun k => decide (k ∈ nodes))).flatMap (fun k => [(j, k), (k, j)]) := by
          intro q hq
          refine List.mem_flatMap.2 ⟨k, hk, ?_⟩
          rcases hq with rfl | rfl <;> simp
        simp only [List.mem_cons, List.mem_singleton, List.not_mem_nil, or_false] at hp
        rcases hp with rfl | rfl
        · exact ⟨by simp, by simp [hk1], hj, hk2,
            List.mem_append_left _ (hswap _ (Or.inr rfl))⟩
        · exact ⟨by simp [hk1], by simp, hk2, hj,
            List.mem_append_left _ (hswap _ (Or.inl rfl))⟩
      · rw [if_neg hj] at h
        simp at h
    · obtain ⟨h1, h2, h3, h4, h5⟩ := ih h
      exact ⟨List.mem_cons_of_mem _ h1, List.mem_cons_of_mem _ h2, h3, h4,
        List.mem_append_right _ h5⟩

theorem link_edges_complete (nodes : List SingleBodyPtr) (links : List RigidBodyPtr)
    (a b : SingleBodyPtr) (ha : a ∈ links) (hb : b ∈ links) (hab : a ≠ b)
    (han : a ∈ nodes) (hbn : b ∈ nodes) : (a, b) ∈ link_edges nodes links := by
  induction links with
  | nil => simp at ha
  | cons j ks ih =>
    unfold link_edges
    rcases List.mem_cons.1 ha with ha | ha
    · rcases List.mem_cons.1 hb with hb | hb
      · exact absurd (ha.trans hb.symm) hab
      · apply List.mem_append_left
        rw [← ha, if_pos han]
        exact List.mem_flatMap.2 ⟨b, List.mem_filter.2 ⟨hb, by simpa using hbn⟩, by simp⟩
    · rcases List.mem_cons.1 hb with hb | hb
      · apply List.mem_append_left
        rw [← hb, if_pos hbn]
        exact List.mem_flatMap.2 ⟨a, List.mem_filter.2 ⟨ha, by simpa using han⟩, by simp⟩
      · exact List.mem_append_right _ (ih ha hb)

theorem articulated_edges_mem (B : Bodies) (nodes : List SingleBodyPtr) (l : List SingleBodyPtr) :
    ∀ (st : List ArticulatedBodyPtr × List (SingleBodyPtr × SingleBodyPtr))
      (p : SingleBodyPtr × SingleBodyPtr),
      p ∈ (l.foldl (add_articulated_edges B nodes) st).2 →
        p ∈ st.2 ∨ ∃ sb ∈ l, ∃ ab, B.get_articulated_body sb = some ab
          ∧ p ∈ link_edges nodes (B.get_links ab) := by
  induction l with
  | nil => intro st p h; exact Or.inl h
  | cons sb l ih =>
    intro st p h
    rw [List.foldl_cons] at h
    rcases ih _ p h with h | ⟨sb2, hsb2, ab, hab, hp⟩
    · unfold add_articulated_edges at h
      cases hab : B.get_articulated_body sb with
      | none => rw [hab] at h; exact Or.inl h
      | some ab =>
        rw [hab] at h
        simp only at h
        split_ifs at h
        · exact Or.inl h
        · rcases List.mem_append.1 h with h | h
          · exact Or.inl h
          · exact Or.inr ⟨sb, List.mem_cons_self _ _, ab, hab, h⟩
    · exact Or.inr ⟨sb2, List.mem_cons_of_mem _ hsb2, ab, hab, hp⟩

theorem add_articulated_edges_mono (B : Bodies) (nodes : List SingleBodyPtr)
    (st : List ArticulatedBodyPtr × List (SingleBodyPtr × SingleBodyPtr)) (sb : SingleBodyPtr) :
    (∀ ab ∈ st.1, ab ∈ (add_articulated_edges B nodes st sb).1)
    ∧ (∀ p ∈ st.2, p ∈ (add_articulated_edges B nodes st sb).2) := by
  unfold add_articulated_edges
  cases B.get_articulated_body sb with
  | none => exact ⟨fun _ h => h, fun _ h => h⟩
  | some ab =>
    simp only
    split_ifs
    · exact ⟨fun _ h => h, fun _ h => h⟩
    · exact ⟨fun _ h => List.mem_cons_of_mem _ h, fun _ h => List.mem_append_left _ h⟩

theorem add_articulated_edges_done (B : Bodies) (nodes : List SingleBodyPtr)
    (st : List ArticulatedBodyPtr × List (SingleBodyPtr × SingleBodyPtr)) (sb : SingleBodyPtr)
    (h : ab_done B nodes st) :
    ab_done B nodes (add_articulated_edges B nodes st sb)
    ∧ ∀ ab, B.get_articulated_body sb = some ab → ab ∈ (add_articulated_edges B nodes st sb).1 := by
  unfold add_articulated_edges
  cases hab : B.get_articulated_body sb with
  | none => exact ⟨h, fun ab h2 => by simp at h2⟩
  | some ab =>
    simp only
    split_ifs with hmem
    · refine ⟨h, fun ab2 h2 => ?_⟩
      rw [← Option.some.inj h2]
      exact hmem
    · refine ⟨?_, fun ab2 h2 => ?_⟩
      · intro ab2 hab2 p hp
        rcases List.mem_cons.1 hab2 with hab2 | hab2
        · rw [hab2] at hp
          exact List.mem_append_right _ hp
        · exact List.mem_append_left _ (h ab2 hab2 p hp)
      · rw [← Option.some.inj h2]
        exact List.mem_cons_self _ _

theorem articulated_edges_done (B : Bodies) (nodes : List SingleBodyPtr) (l : List SingleBodyPtr) :
    ∀ st : List ArticulatedBodyPtr × List (SingleBodyPtr × SingleBodyPtr), ab_done B nodes st →
      ab_done B nodes (l.foldl (add_articulated_edges B nodes) st)
      ∧ (∀ ab ∈ st.1, ab ∈ (l.foldl (add_articulated_edges B nodes) st).1)
      ∧ (∀ p ∈ st.2, p ∈ (l.foldl (add_articulated_edges B nodes) st).2)
      ∧ ∀ sb ∈ l, ∀ ab, B.get_articulated_body sb = some ab →
          ab ∈ (l.foldl (add_articulated_edges B nodes) st).1 := by
  induction l with
  | nil => intro st h; exact ⟨h, fun _ h => h, fun _ h => h, fun sb hsb => by simp at hsb⟩
  | cons sb l ih =>
    intro st h
    rw [List.foldl_cons]
    obtain ⟨h1, h2⟩ := add_articulated_edges_done B nodes st sb h
    obtain ⟨m1, m2⟩ := add_articulated_edges_mono B nodes st sb
    obtain ⟨i1, i2, i3, i4⟩ := ih _ h1
    refine ⟨i1, fun ab hab => i2 ab (m1 ab hab), fun p hp => i3 p (m2 p hp), ?_⟩
    intro sb2 hsb2 ab hab
    rcases List.mem_cons.1 hsb2 with hsb2 | hsb2
    · rw [hsb2] at hab
      exact i2 ab (h2 ab hab)
    · exact i4 sb2 hsb2 ab hab

theorem build_graph_nodes (B : Bodies) (rs : List EventRef) :
    (build_graph B rs).nodes = (collect_nodes B rs).nodes := rfl

theorem build_graph_nodes_mem (B : Bodies) (rs : List EventRef) (x : SingleBodyPtr) :
    x ∈ (build_graph B rs).nodes ↔ ∃ r ∈ rs, r.adds_node B x :=
  collect_nodes_mem B rs x

theorem build_graph_nodup (B : Bodies) (rs : List EventRef) : (build_graph B rs).nodes.Nodup :=
  collect_nodes_nodup B rs

theorem ab_done_init (B : Bodies) (nodes : List SingleBodyPtr)
    (edges : List (SingleBodyPtr × SingleBodyPtr)) : ab_done B nodes ([], edges) := by
  intro ab hab
  simp at hab

/-- Every edge of the body graph comes from a contact between two enabled bodies
or joins two links, both nodes, of one articulated body. -/
theorem build_graph_edges_sound (B : Bodies) (rs : List EventRef)
    (p : SingleBodyPtr × SingleBodyPtr) (h : p ∈ (build_graph B rs).edges) :
    (∃ r ∈ rs, r.adds_edge B p)
    ∨ ∃ sb ∈ (build_graph B rs).nodes, ∃ ab, B.get_articulated_body sb = some ab
        ∧ p ∈ link_edges (build_graph B rs).nodes (B.get_links ab) := by
  rcases articulated_edges_mem B _ _ _ p h with h | h
  · exact Or.inl ((collect_edges_mem B rs p).1 h)
  · exact Or.inr h

theorem build_graph_contact_edge (B : Bodies) (rs : List EventRef)
    (p : SingleBodyPtr × SingleBodyPtr) (h : ∃ r ∈ rs, r.adds_edge B p) :
    p ∈ (build_graph B rs).edges :=
  (articulated_edges_done B _ _ _ (ab_done_init B _ _)).2.2.1 p ((collect_edges_mem B rs p).2 h)

theorem build_graph_link_edge (B : Bodies) (rs : List EventRef) (sb : SingleBodyPtr)
    (ab : ArticulatedBodyPtr) (p : SingleBodyPtr × SingleBodyPtr)
    (hsb : sb ∈ (build_graph B rs).nodes) (hab : B.get_articulated_body sb = some ab)
    (hp : p ∈ link_edges (build_graph B rs).nodes (B.get_links ab)) :
    p ∈ (build_graph B rs).edges := by
  obtain ⟨h1, _, _, h4⟩ := articulated_edges_done B (collect_nodes B rs).nodes
    (collect_nodes B rs).nodes ([], (collect_nodes B rs).edges) (ab_done_init B _ _)
  exact h1 ab (h4 sb hsb ab hab) p hp

theorem adds_edge_swap (B : Bodies) (r : EventRef) (a b : SingleBodyPtr)
    (h : r.adds_edge B (a, b)) : r.adds_edge B (b, a) := by
  obtain ⟨h1, h2, h3, h4⟩ := h
  refine ⟨h1, h2, h3, ?_⟩
  rcases h4 with h4 | h4
  · right
    rw [Prod.mk.injEq] at h4 ⊢
    exact ⟨h4.2, h4.1⟩
  · left
    rw [Prod.mk.injEq] at h4 ⊢
    exact ⟨h4.2, h4.1⟩

theorem adds_edge_nodes (B : Bodies) (r : EventRef) (a b : SingleBodyPtr)
    (h : r.adds_edge B (a, b)) : r.adds_node B a ∧ r.adds_node B b := by
  obtain ⟨h1, h2, h3, h4⟩ := h
  unfold EventRef.adds_node
  rw [h1]
  rcases h4 with h4 | h4 <;> rw [Prod.mk.injEq] at h4 <;> obtain ⟨ha, hb⟩ := h4 <;>
    subst ha <;> subst hb <;> simp [h2, h3]

theorem build_graph_symm (B : Bodies) (rs : List EventRef) (a b : SingleBodyPtr)
    (h : (a, b) ∈ (build_graph B rs).edges) : (b, a) ∈ (build_graph B rs).edges := by
  rcases build_graph_edges_sound B rs _ h with ⟨r, hr, he⟩ | ⟨sb, hsb, ab, hab, hp⟩
  · exact build_graph_contact_edge B rs _ ⟨r, hr, adds_edge_swap B r a b he⟩
  · exact build_graph_link_edge B rs sb ab _ hsb hab (link_edges_mem _ _ _ hp).2.2.2.2

theorem build_graph_closed (B : Bodies) (rs : List EventRef) (a b : SingleBodyPtr)
    (h : (a, b) ∈ (build_graph B rs).edges) (_ha : a ∈ (build_graph B rs).nodes) :
    b ∈ (build_graph B rs).nodes := by
  rcases build_graph_edges_sound B rs _ h with ⟨r, hr, he⟩ | ⟨sb, hsb, ab, hab, hp⟩
  · exact (build_graph_nodes_mem B rs b).2 ⟨r, hr, (adds_edge_nodes B r a b he).2⟩
  · exact (link_edges_mem _ _ _ hp).2.2.2.1

/-- The traversal of the body graph of the copied events is a complete run. -/
theorem build_graph_run (B : Bodies) (rs : List EventRef) :
    Run (build_graph B rs).edges (build_graph B rs).nodes rs
      (build_islands (build_graph B rs).edges ((build_graph B rs).nodes.length + 1)
        (build_graph B rs).nodes rs) :=
  build_islands_run _ (build_graph_symm B rs) _ _ rs (Nat.lt_succ_self _)
    (build_graph_nodup B rs) (build_graph_closed B rs)

theorem connected_islands_run (B : Bodies) (events : List Event) (isl : List Island)
    (h : Event.connected_islands B events = some isl) :
    ∃ rs, copy_events 0 events = some rs
      ∧ (build_graph B rs).nodes = Event.node_set B events
      ∧ Run (build_graph B rs).edges (build_graph B rs).nodes rs isl := by
  unfold Event.connected_islands at h
  cases hc : copy_events 0 events with
  | none => rw [hc] at h; simp at h
  | some rs =>
    rw [hc] at h
    simp only [Option.some.injEq] at h
    refine ⟨rs, rfl, ?_, ?_⟩
    · unfold Event.node_set
      rw [hc]
    · rw [← h]
      exact build_graph_run B rs

theorem determine_connected_events_eq (B : Bodies) (events : List Event)
    (groups : List (List Nat)) (h : Event.determine_connected_events B events = some groups) :
    ∃ isl, Event.connected_islands B events = some isl ∧ groups = isl.map Island.group := by
  unfold Event.determine_connected_events at h
  cases hc : Event.connected_islands B events with
  | none => rw [hc] at h; simp at h
  | some isl =>
    rw [hc] at h
    simp only [Option.map_some', Option.some.injEq] at h
    exact ⟨isl, rfl, h.symm⟩

/-! ### The copy of the event list -/

theorem copy_events_sound : ∀ (es : List Event) (i : Nat) (rs : List EventRef),
    copy_events i es = some rs → ∀ r ∈ rs, i ≤ r.ptr ∧ ∃ e, es[r.ptr - i]? = some e
      ∧ e.event_type ≠ EventType.eNone ∧ r.event_type = e.event_type
      ∧ e.get_bodies = some (r.sb1, r.sb2) := by
  intro es
  induction es with
  | nil =>
    intro i rs h r hr
    simp only [copy_events, Option.some.injEq] at h
    rw [← h] at hr
    simp at hr
  | cons e es ih =>
    intro i rs h r hr
    unfold copy_events at h
    have hshift : ∀ r2 : EventRef, i + 1 ≤ r2.ptr → (e :: es)[r2.ptr - i]? = es[r2.ptr - (i + 1)]? := by
      intro r2 h2
      have : r2.ptr - i = (r2.ptr - (i + 1)) + 1 := by omega
      rw [this, List.getElem?_cons_succ]
    by_cases ht : e.event_type = EventType.eNone
    · rw [if_pos ht] at h
      obtain ⟨h1, e2, h2⟩ := ih (i + 1) rs h r hr
      exact ⟨by omega, e2, by rw [hshift r h1]; exact h2.1, h2.2⟩
    · rw [if_neg ht] at h
      cases hb : e.get_bodies with
      | none => rw [hb] at h; simp at h
      | some b =>
        cases hc : copy_events (i + 1) es with
        | none => rw [hb, hc] at h; simp at h
        | some rs2 =>
          rw [hb, hc] at h
          obtain ⟨b1, b2⟩ := b
          simp only [Option.some.injEq] at h
          rw [← h] at hr
          rcases List.mem_cons.1 hr with hr | hr
          · rw [hr]
            refine ⟨le_refl _, e, ?_, ht, rfl, hb⟩
            simp
          · obtain ⟨h1, e2, h2⟩ := ih (i + 1) rs2 hc r hr
            exact ⟨by omega, e2, by rw [hshift r h1]; exact h2.1, h2.2⟩

theorem copy_events_complete : ∀ (es : List Event) (i : Nat) (rs : List EventRef),
    copy_events i es = some rs → ∀ (k : Nat) (e : Event), es[k]? = some e →
      e.event_type ≠ EventType.eNone →
      ∃ r ∈ rs, r.ptr = i + k ∧ r.event_type = e.event_type
        ∧ e.get_bodies = some (r.sb1, r.sb2) := by
  intro es
  induction es with
  | nil => intro i rs _ k e hk; simp at hk
  | cons e0 es ih =>
    intro i rs h k e hk hne
    unfold copy_events at h
    by_cases ht : e0.event_type = EventType.eNone
    · rw [if_pos ht] at h
      cases k with
      | zero =>
        simp only [List.getElem?_cons_zero, Option.some.injEq] at hk
        rw [hk] at ht
        exact absurd ht hne
      | succ k =>
        rw [List.getElem?_cons_succ] at hk
        obtain ⟨r, hr, h1, h2⟩ := ih (i + 1) rs h k e hk hne
        exact ⟨r, hr, by omega, h2⟩
    · rw [if_neg ht] at h
      cases hb : e0.get_bodies with
      | none => rw [hb] at h; simp at h
      | some b =>
        cases hc : copy_events (i + 1) es with
        | none => rw [hb, hc] at h; simp at h
        | some rs2 =>
          rw [hb, hc] at h
          obtain ⟨b1, b2⟩ := b
          simp only [Option.some.injEq] at h
          rw [← h]
          cases k with
          | zero =>
            simp only [List.getElem?_cons_zero, Option.some.injEq] at hk
            rw [← hk]
            exact ⟨_, List.mem_cons_self _ _, rfl, rfl, hb⟩
          | succ k =>
            rw [List.getElem?_cons_succ] at hk
            obtain ⟨r, hr, h1, h2⟩ := ih (i + 1) rs2 hc k e hk hne
            exact ⟨r, List.mem_cons_of_mem _ hr, by omega, h2⟩

theorem copy_events_nodup : ∀ (es : List Event) (i : Nat) (rs : List EventRef),
    copy_events i es = some rs → (rs.map EventRef.ptr).Nodup := by
  intro es
  induction es with
  | nil =>
    intro i rs h
    simp only [copy_events, Option.some.injEq] at h
    rw [← h]
    exact List.nodup_nil
  | cons e es ih =>
    intro i rs h
    have hall := copy_events_sound (e :: es) i rs h
    unfold copy_events at h
    by_cases ht : e.event_type = EventType.eNone
    · rw [if_pos ht] at h
      exact ih (i + 1) rs h
    · rw [if_neg ht] at h
      cases hb : e.get_bodies with
      | none => rw [hb] at h; simp at h
      | some b =>
        cases hc : copy_events (i + 1) es with
        | none => rw [hb, hc] at h; simp at h
        | some rs2 =>
          rw [hb, hc] at h
          obtain ⟨b1, b2⟩ := b
          simp only [Option.some.injEq] at h
          rw [← h, List.map_cons, List.nodup_cons]
          refine ⟨?_, ih (i + 1) rs2 hc⟩
          intro hmem
          obtain ⟨r, hr, hptr⟩ := List.mem_map.1 hmem
          have := (copy_events_sound es (i + 1) rs2 hc r hr).1
          simp only at hptr
          omega

/-- The copy succeeds when every event that is not of type `eNone` has the
references of its type set. -/
theorem copy_events_some : ∀ (es : List Event) (i : Nat),
    (∀ e ∈ es, e.event_type ≠ EventType.eNone → e.get_bodies ≠ none) →
    ∃ rs, copy_events i es = some rs := by
  intro es
  induction es with
  | nil => intro i _; exact ⟨[], rfl⟩
  | cons e es ih =>
    intro i h
    obtain ⟨rs, hrs⟩ := ih (i + 1) (fun e2 he2 => h e2 (List.mem_cons_of_mem _ he2))
    unfold copy_events
    by_cases ht : e.event_type = EventType.eNone
    · rw [if_pos ht]
      exact ⟨rs, hrs⟩
    · rw [if_neg ht, hrs]
      cases hb : e.get_bodies with
      | none => exact absurd hb (h e (List.mem_cons_self _ _) ht)
      | some b =>
        obtain ⟨b1, b2⟩ := b
        exact ⟨_, rfl⟩

/-! ## Events of one island and events of different islands -/

theorem touches_any_mem (r : EventRef) (l : List SingleBodyPtr) :
    r.touches_any l = true ↔ r.sb1 ∈ l ∨ r.sb2 ∈ l := by
  rw [touches_any_iff]
  constructor
  · rintro ⟨x, hx, ht⟩
    rcases (touches_iff r x).1 ht with h | h
    · exact Or.inl (by rw [h]; exact hx)
    · exact Or.inr (by rw [h]; exact hx)
  · rintro (h | h)
    · exact ⟨r.sb1, h, (touches_iff r _).2 (Or.inl rfl)⟩
    · exact ⟨r.sb2, h, (touches_iff r _).2 (Or.inr rfl)⟩

theorem touches_any_false (r : EventRef) (l : List SingleBodyPtr) :
    r.touches_any l = false ↔ r.sb1 ∉ l ∧ r.sb2 ∉ l := by
  rw [← not_iff_not, Bool.not_eq_false, touches_any_mem]
  tauto

theorem reach_symm {edges : List (SingleBodyPtr × SingleBodyPtr)}
    (hsymm : ∀ a b, (a, b) ∈ edges → (b, a) ∈ edges) {a b : SingleBodyPtr}
    (h : Reach edges a b) : Reach edges b a := by
  induction h with
  | refl => exact Relation.ReflTransGen.refl
  | tail _ hbc ih => exact Relation.ReflTransGen.head (hsymm _ _ hbc) ih

/-- The member `i` of an island is the pointer of one copied event, which
refers to a node taken off the queue for that island. -/
theorem run_member_ref {edges : List (SingleBodyPtr × SingleBodyPtr)} {S : List SingleBodyPtr}
    {ec : List EventRef} {isl : List Island} (h : Run edges S ec isl)
    (hptr : (ec.map EventRef.ptr).Nodup) (k : Nat) (I : Island) (hk : isl[k]? = some I)
    (r : EventRef) (hr : r ∈ ec) (hi : r.ptr ∈ I.group) :
    ∃ x ∈ I.popped, r.touches x = true := by
  obtain ⟨r2, hr2, hp, ht, _⟩ := run_member h k I hk r.ptr hi
  have : r2 = r := List.inj_on_of_nodup_map hptr hr2 hr hp
  rw [this] at ht
  exact (touches_any_iff r _).1 ht

/-- Two events of one island have bodies joined by a chain of edges. -/
theorem run_same_island {edges : List (SingleBodyPtr × SingleBodyPtr)} {S : List SingleBodyPtr}
    {ec : List EventRef} {isl : List Island} (h : Run edges S ec isl)
    (hsymm : ∀ a b, (a, b) ∈ edges → (b, a) ∈ edges)
    (hptr : (ec.map EventRef.ptr).Nodup) (k : Nat) (I : Island) (hk : isl[k]? = some I)
    (r1 r2 : EventRef) (hr1 : r1 ∈ ec) (hr2 : r2 ∈ ec)
    (h1 : r1.ptr ∈ I.group) (h2 : r2.ptr ∈ I.group) :
    ∃ x y, x ∈ S ∧ y ∈ S ∧ r1.touches x = true ∧ r2.touches y = true ∧ Reach edges x y := by
  obtain ⟨x, hx, htx⟩ := run_member_ref h hptr k I hk r1 hr1 h1
  obtain ⟨y, hy, hty⟩ := run_member_ref h hptr k I hk r2 hr2 h2
  obtain ⟨start, _, hreach⟩ := run_reach h k I hk
  exact ⟨x, y, run_popped_sub h k I hk x hx, run_popped_sub h k I hk y hy, htx, hty,
    Relation.ReflTransGen.trans (reach_symm hsymm (hreach x hx)) (hreach y hy)⟩

/-- An event whose node bodies are joined has all its node bodies taken off
the queue for its own island. -/
theorem run_linked_popped {edges : List (SingleBodyPtr × SingleBodyPtr)} {S : List SingleBodyPtr}
    {ec : List EventRef} {isl : List Island} (h : Run edges S ec isl)
    (hptr : (ec.map EventRef.ptr).Nodup) (k : Nat) (I : Island) (hk : isl[k]? = some I)
    (r : EventRef) (hr : r ∈ ec) (hi : r.ptr ∈ I.group) (hl : Linked edges S r)
    (b : SingleBodyPtr) (hb : b ∈ S) (htb : r.touches b = true) : b ∈ I.popped := by
  obtain ⟨x, hx, htx⟩ := run_member_ref h hptr k I hk r hr hi
  rcases hl x b htx htb (run_popped_sub h k I hk x hx) hb with hxb | hxb
  · rw [← hxb]
    exact hx
  · exact run_closed h k I hk x b hxb hx

/-- Two events whose node bodies are joined and that share a node are in the
same island. -/
theorem run_shared_node {edges : List (SingleBodyPtr × SingleBodyPtr)} {S : List SingleBodyPtr}
    {ec : List EventRef} {isl : List Island} (h : Run edges S ec isl)
    (hptr : (ec.map EventRef.ptr).Nodup)
    (k1 k2 : Nat) (I1 I2 : Island) (hk1 : isl[k1]? = some I1) (hk2 : isl[k2]? = some I2)
    (r1 r2 : EventRef) (hr1 : r1 ∈ ec) (hr2 : r2 ∈ ec)
    (h1 : r1.ptr ∈ I1.group) (h2 : r2.ptr ∈ I2.group)
    (hl1 : Linked edges S r1) (hl2 : Linked edges S r2)
    (b : SingleBodyPtr) (hb : b ∈ S) (ht1 : r1.touches b = true) (ht2 : r2.touches b = true) :
    k1 = k2 :=
  run_disjoint h k1 k2 I1 I2 b hk1 hk2
    (run_linked_popped h hptr k1 I1 hk1 r1 hr1 h1 hl1 b hb ht1)
    (run_linked_popped h hptr k2 I2 hk2 r2 hr2 h2 hl2 b hb ht2)

/-! ### From the copied events back to the event list -/

theorem copy_events_ref (events : List Event) (rs : List EventRef)
    (h : copy_events 0 events = some rs) (r : EventRef) (hr : r ∈ rs) :
    ∃ e, events[r.ptr]? = some e ∧ e ∈ events ∧ e.event_type ≠ EventType.eNone
      ∧ r.event_type = e.event_type ∧ e.get_bodies = some (r.sb1, r.sb2) := by
  obtain ⟨_, e, h1, h2⟩ := copy_events_sound events 0 rs h r hr
  rw [Nat.sub_zero] at h1
  exact ⟨e, h1, List.getElem?_mem h1, h2⟩

theorem copy_events_find (events : List Event) (rs : List EventRef)
    (h : copy_events 0 events = some rs) (i : Nat) (e : Event) (b1 b2 : SingleBodyPtr)
    (hi : events[i]? = some e) (hne : e.event_type ≠ EventType.eNone)
    (hb : e.get_bodies = some (b1, b2)) :
    ∃ r ∈ rs, r.ptr = i ∧ r.event_type = e.event_type ∧ r.sb1 = b1 ∧ r.sb2 = b2 := by
  obtain ⟨r, hr, h1, h2, h3⟩ := copy_events_complete events 0 rs h i e hi hne
  rw [hb, Option.some.injEq, Prod.mk.injEq] at h3
  exact ⟨r, hr, by omega, h2, h3.1.symm, h3.2.symm⟩

theorem get_bodies_ne_none (e : Event) (p : SingleBodyPtr × SingleBodyPtr)
    (h : e.get_bodies = some p) : e.event_type ≠ EventType.eNone := by
  intro ht
  unfold Event.get_bodies at h
  rw [ht] at h
  simp at h

/-- Every edge of the body graph is a direct connection in the sense of
`Event.adjacent`. -/
theorem build_graph_edge_adjacent (B : Bodies) (events : List Event) (rs : List EventRef)
    (hc : copy_events 0 events = some rs) (x y : SingleBodyPtr)
    (h : (x, y) ∈ (build_graph B rs).edges) : Event.adjacent B events x y := by
  rcases build_graph_edges_sound B rs _ h with ⟨r, hr, ht, h1, h2, h4⟩ | ⟨sb, _, ab, _, hp⟩
  · obtain ⟨e, _, he, _, hty, hb⟩ := copy_events_ref events rs hc r hr
    left
    refine ⟨e, he, by rw [← hty]; exact ht, ?_⟩
    rcases h4 with h4 | h4 <;> rw [Prod.mk.injEq] at h4 <;> obtain ⟨hx, hy⟩ := h4 <;>
      subst hx <;> subst hy
    · exact ⟨Or.inl hb, h1, h2⟩
    · exact ⟨Or.inr hb, h2, h1⟩
  · right
    obtain ⟨h1, h2, _⟩ := link_edges_mem _ _ _ hp
    exact ⟨ab, h1, h2⟩

theorem reach_connected (B : Bodies) (events : List Event) (rs : List EventRef)
    (hc : copy_events 0 events = some rs) (x y : SingleBodyPtr)
    (h : Reach (build_graph B rs).edges x y) : Event.connected B events x y :=
  Relation.ReflTransGen.mono (fun a b hab => build_graph_edge_adjacent B events rs hc a b hab) h

/-! ### Regular joints give joined events -/

theorem joint_linked_ref (B : Bodies) (events : List Event) (rs : List EventRef)
    (hc : copy_events 0 events = some rs)
    (hj : ∀ e ∈ events, Event.joint_linked B e = true) (r : EventRef) (hr : r ∈ rs)
    (ht : r.event_type = EventType.eLimit ∨ r.event_type = EventType.eConstraint) :
    B.is_enabled r.sb1 = true ∧ B.is_enabled r.sb2 = true
      ∧ (r.sb1 = r.sb2 ∨ ∃ ab, B.get_articulated_body r.sb1 = some ab
          ∧ r.sb1 ∈ B.get_links ab ∧ r.sb2 ∈ B.get_links ab) := by
  obtain ⟨e, _, he, _, hty, hb⟩ := copy_events_ref events rs hc r hr
  have h := hj e he
  unfold Event.joint_linked at h
  rw [← hty, if_pos ht, hb] at h
  simp only [Bool.and_eq_true, Bool.or_eq_true, beq_iff_eq] at h
  obtain ⟨⟨h1, h2⟩, h3⟩ := h
  refine ⟨h1, h2, ?_⟩
  rcases h3 with h3 | h3
  · exact Or.inl h3
  · right
    cases hab : B.get_articulated_body r.sb1 with
    | none => rw [hab] at h3; simp at h3
    | some ab =>
      rw [hab] at h3
      simp only [Bool.and_eq_true, decide_eq_true_eq] at h3
      exact ⟨ab, rfl, h3.1, h3.2⟩

theorem event_type_cases (t : EventType) :
    t = EventType.eNone ∨ t = EventType.eContact
      ∨ (t = EventType.eLimit ∨ t = EventType.eConstraint) := by
  cases t <;> simp

/-- With regular joints every node of the body graph is an enabled body. -/
theorem nodes_enabled (B : Bodies) (events : List Event) (rs : List EventRef)
    (hc : copy_events 0 events = some rs)
    (hj : ∀ e ∈ events, Event.joint_linked B e = true) (x : SingleBodyPtr)
    (hx : x ∈ (build_graph B rs).nodes) : B.is_enabled x = true := by
  obtain ⟨r, hr, ha⟩ := (build_graph_nodes_mem B rs x).1 hx
  rcases event_type_cases r.event_type with ht | ht | ht
  · unfold EventRef.adds_node at ha
    rw [ht] at ha
    exact absurd ha id
  · unfold EventRef.adds_node at ha
    rw [ht] at ha
    rcases ha with ⟨h1, h2⟩ | ⟨h1, h2⟩ <;> rw [h1] <;> exact h2
  · obtain ⟨h1, h2, _⟩ := joint_linked_ref B events rs hc hj r hr ht
    unfold EventRef.adds_node at ha
    rcases ht with ht | ht <;> rw [ht] at ha <;> rcases ha with ha | ha <;> rw [ha] <;>
      assumption

/-- With regular joints the node bodies of every copied event are joined in the
body graph. -/
theorem graph_linked (B : Bodies) (events : List Event) (rs : List EventRef)
    (hc : copy_events 0 events = some rs)
    (hj : ∀ e ∈ events, Event.joint_linked B e = true) (r : EventRef) (hr : r ∈ rs) :
    Linked (build_graph B rs).edges (build_graph B rs).nodes r := by
  intro x y hx hy hxn hyn
  by_cases hxy : x = y
  · exact Or.inl hxy
  right
  have hex := nodes_enabled B events rs hc hj x hxn
  have hey := nodes_enabled B events rs hc hj y hyn
  have hpair : (x = r.sb1 ∧ y = r.sb2) ∨ (x = r.sb2 ∧ y = r.sb1) := by
    rcases (touches_iff r x).1 hx with h1 | h1 <;> rcases (touches_iff r y).1 hy with h2 | h2
    · exact absurd (h1.symm.trans h2) hxy
    · exact Or.inl ⟨h1.symm, h2.symm⟩
    · exact Or.inr ⟨h1.symm, h2.symm⟩
    · exact absurd (h1.symm.trans h2) hxy
  rcases event_type_cases r.event_type with ht | ht | ht
  · obtain ⟨e, _, _, hne, hty, _⟩ := copy_events_ref events rs hc r hr
    rw [← hty] at hne
    exact absurd ht hne
  · apply build_graph_contact_edge
    refine ⟨r, hr, ht, ?_⟩
    rcases hpair with ⟨h1, h2⟩ | ⟨h1, h2⟩
    · exact ⟨by rw [← h1]; exact hex, by rw [← h2]; exact hey, Or.inl (by rw [h1, h2])⟩
    · exact ⟨by rw [← h2]; exact hey, by rw [← h1]; exact hex, Or.inr (by rw [h1, h2])⟩
  · obtain ⟨_, _, h3⟩ := joint_linked_ref B events rs hc hj r hr ht
    have hne : r.sb1 ≠ r.sb2 := by
      rcases hpair with ⟨h1, h2⟩ | ⟨h1, h2⟩
      · rw [← h1, ← h2]; exact hxy
      · rw [← h1, ← h2]; exact fun h => hxy h.symm
    rcases h3 with h3 | ⟨ab, hab, hl1, hl2⟩
    · exact absurd h3 hne
    · have hn1 : r.sb1 ∈ (build_graph B rs).nodes := by
        rcases hpair with ⟨h1, _⟩ | ⟨_, h2⟩
        · rw [← h1]; exact hxn
        · rw [← h2]; exact hyn
      have hn2 : r.sb2 ∈ (build_graph B rs).nodes := by
        rcases hpair with ⟨_, h2⟩ | ⟨h1, _⟩
        · rw [← h2]; exact hyn
        · rw [← h1]; exact hxn
      apply build_graph_link_edge B rs r.sb1 ab _ hn1 hab
      rcases hpair with ⟨h1, h2⟩ | ⟨h1, h2⟩
      · rw [h1, h2]
        exact link_edges_complete _ _ _ _ hl1 hl2 hne hn1 hn2
      · rw [h1, h2]
        exact link_edges_complete _ _ _ _ hl2 hl1 (fun h => hne h.symm) hn2 hn1

/-! ## The islands of an event list -/

theorem determine_connected_events_run (B : Bodies) (events : List Event)
    (groups : List (List Nat)) (h : Event.determine_connected_events B events = some groups) :
    ∃ isl rs, Event.connected_islands B events = some isl ∧ groups = isl.map Island.group
      ∧ copy_events 0 events = some rs
      ∧ (build_graph B rs).nodes = Event.node_set B events
      ∧ Run (build_graph B rs).edges (build_graph B rs).nodes rs isl := by
  obtain ⟨isl, h1, h2⟩ := determine_connected_events_eq B events groups h
  obtain ⟨rs, h3, h4, h5⟩ := connected_islands_run B events isl h1
  exact ⟨isl, rs, h1, h2, h3, h4, h5⟩

theorem groups_getElem (isl : List Island) (k : Nat) (g : List Nat)
    (h : (isl.map Island.group)[k]? = some g) : ∃ I, isl[k]? = some I ∧ I.group = g := by
  rw [List.getElem?_map] at h
  cases hI : isl[k]? with
  | none => rw [hI] at h; simp at h
  | some I =>
    rw [hI] at h
    simp only [Option.map_some', Option.some.injEq] at h
    exact ⟨I, rfl, h⟩

theorem groups_mem (isl : List Island) (g : List Nat) (h : g ∈ isl.map Island.group) :
    ∃ (k : Nat) (I : Island), isl[k]? = some I ∧ I.group = g := by
  obtain ⟨k, hk⟩ := List.mem_iff_getElem?.1 h
  obtain ⟨I, hI, hg⟩ := groups_getElem isl k g hk
  exact ⟨k, I, hI, hg⟩

theorem run_groups_nodup {edges : List (SingleBodyPtr × SingleBodyPtr)} {S : List SingleBodyPtr}
    {ec : List EventRef} {isl : List Island} (h : Run edges S ec isl)
    (hptr : (ec.map EventRef.ptr).Nodup) : (isl.map Island.group).flatten.Nodup := by
  have h1 := (run_perm h).nodup_iff.2 hptr
  rw [List.flatMap_def] at h1
  exact h1.of_append_left

theorem flatten_nodup_index (L : List (List Nat)) (h : L.flatten.Nodup)
    (k1 k2 : Nat) (g1 g2 : List Nat) (i : Nat) (h1 : L[k1]? = some g1) (h2 : L[k2]? = some g2)
    (hi1 : i ∈ g1) (hi2 : i ∈ g2) : k1 = k2 := by
  have hp := (List.nodup_flatten.1 h).2
  rw [List.pairwise_iff_getElem] at hp
  obtain ⟨hl1, hg1⟩ := List.getElem?_eq_some_iff.1 h1
  obtain ⟨hl2, hg2⟩ := List.getElem?_eq_some_iff.1 h2
  rcases Nat.lt_trichotomy k1 k2 with hlt | heq | hgt
  · have hd := hp k1 k2 hl1 hl2 hlt
    rw [hg1, hg2] at hd
    exact absurd hi2 (hd hi1)
  · exact heq
  · have hd := hp k2 k1 hl2 hl1 hgt
    rw [hg1, hg2] at hd
    exact absurd hi1 (hd hi2)

/-- The members of the islands are exactly the copied events that refer to a
node. -/
theorem island_member_iff (B : Bodies) (events : List Event) (rs : List EventRef)
    (isl : List Island) (hc : copy_events 0 events = some rs)
    (hrun : Run (build_graph B rs).edges (build_graph B rs).nodes rs isl) (i : Nat) :
    (∃ g ∈ isl.map Island.group, i ∈ g) ↔ ∃ e b1 b2, events[i]? = some e
      ∧ e.event_type ≠ EventType.eNone ∧ e.get_bodies = some (b1, b2)
      ∧ (b1 ∈ (build_graph B rs).nodes ∨ b2 ∈ (build_graph B rs).nodes) := by
  constructor
  · rintro ⟨g, hg, hi⟩
    obtain ⟨k, I, hk, hIg⟩ := groups_mem isl g hg
    rw [← hIg] at hi
    obtain ⟨r, hr, hptr, ht, _⟩ := run_member hrun k I hk i hi
    obtain ⟨e, he, _, hne, _, hb⟩ := copy_events_ref events rs hc r hr
    rw [hptr] at he
    refine ⟨e, r.sb1, r.sb2, he, hne, hb, ?_⟩
    rcases (touches_any_mem r _).1 ht with h1 | h1
    · exact Or.inl (run_popped_sub hrun k I hk _ h1)
    · exact Or.inr (run_popped_sub hrun k I hk _ h1)
  · rintro ⟨e, b1, b2, he, hne, hb, hn⟩
    obtain ⟨r, hr, hptr, _, h1, h2⟩ := copy_events_find events rs hc i e b1 b2 he hne hb
    have ht : r.touches_any (build_graph B rs).nodes = true := by
      rw [touches_any_mem, h1, h2]
      exact hn
    obtain ⟨k, I, hk, hg, _⟩ := run_placed hrun r hr ht
    refine ⟨I.group, ?_, by rw [← hptr]; exact hg⟩
    exact List.mem_map.2 ⟨I, List.getElem?_mem hk, rfl⟩

/-- C5: every event appears at most once over all islands, every island member
is an event of the input whose type is not None, and an event that has at
least one body in the node set appears exactly once, in the island being built
when the first of its bodies is taken off the traversal queue: the island `I`
whose record of dequeued nodes contains a body of the event while the record
of no earlier island does. -/
theorem determine_connected_events_first_body (B : Bodies) (events : List Event)
    (groups : List (List Nat)) (h : Event.determine_connected_events B events = some groups) :
    ∃ islands, Event.connected_islands B events = some islands
      ∧ groups = islands.map Island.group
      ∧ groups.flatten.Nodup
      ∧ (∀ g ∈ groups, ∀ i ∈ g, ∃ e, events[i]? = some e ∧ e.event_type ≠ EventType.eNone)
      ∧ ∀ (i : Nat) (e : Event) (b1 b2 : SingleBodyPtr), events[i]? = some e →
          e.get_bodies = some (b1, b2) →
          (b1 ∈ Event.node_set B events ∨ b2 ∈ Event.node_set B events) →
          groups.flatten.count i = 1
          ∧ ∃ (k : Nat) (I : Island), islands[k]? = some I ∧ i ∈ I.group
            ∧ (b1 ∈ I.popped ∨ b2 ∈ I.popped)
            ∧ ∀ (j : Nat) (J : Island), j < k → islands[j]? = some J →
                b1 ∉ J.popped ∧ b2 ∉ J.popped := by
  obtain ⟨isl, rs, hci, hg, hc, hn, hrun⟩ := determine_connected_events_run B events groups h
  have hnd : groups.flatten.Nodup := by
    rw [hg]
    exact run_groups_nodup hrun (copy_events_nodup events 0 rs hc)
  refine ⟨isl, hci, hg, hnd, ?_, ?_⟩
  · intro g hgm i hi
    rw [hg] at hgm
    obtain ⟨e, _, _, he, hne, _⟩ := (island_member_iff B events rs isl hc hrun i).1 ⟨g, hgm, hi⟩
    exact ⟨e, he, hne⟩
  · intro i e b1 b2 he hb hnode
    obtain ⟨r, hr, hptr, _, h1, h2⟩ :=
      copy_events_find events rs hc i e b1 b2 he (get_bodies_ne_none e _ hb) hb
    have ht : r.touches_any (build_graph B rs).nodes = true := by
      rw [touches_any_mem, h1, h2, hn]
      exact hnode
    obtain ⟨k, I, hk, hgi, hI, hbefore⟩ := run_placed hrun r hr ht
    rw [hptr] at hgi
    rw [touches_any_mem, h1, h2] at hI
    refine ⟨List.count_eq_one_of_mem hnd ?_, k, I, hk, hgi, hI, ?_⟩
    · rw [hg]
      exact List.mem_flatten.2 ⟨I.group, List.mem_map.2 ⟨I, List.getElem?_mem hk, rfl⟩, hgi⟩
    · intro j J hj hJ
      have := hbefore j J hj hJ
      rw [touches_any_false, h1, h2] at this
      exact this

/-- Witness of C5 on the arm example. -/
theorem determine_connected_events_first_body_witness :
    Event.determine_connected_events (arm_bodies [1])
        [contact_event 1 5, limit_event 1 2 0, contact_event 5 6] = some [[0, 1], [2]]
    ∧ ∃ islands, Event.connected_islands (arm_bodies [1])
        [contact_event 1 5, limit_event 1 2 0, contact_event 5 6] = some islands
      ∧ [[0, 1], [2]] = islands.map Island.group :=
  ⟨by decide,
    let ⟨islands, h1, h2, _⟩ := determine_connected_events_first_body (arm_bodies [1])
      [contact_event 1 5, limit_event 1 2 0, contact_event 5 6] [[0, 1], [2]] (by decide)
    ⟨islands, h1, h2⟩⟩

theorem touches_list (r : EventRef) (x : SingleBodyPtr) :
    r.touches x = true ↔ x ∈ [r.sb1, r.sb2] := by
  rw [touches_iff]
  simp only [List.mem_cons, List.mem_singleton, List.not_mem_nil, or_false]
  constructor <;> rintro (h | h) <;> [exact Or.inl h.symm; exact Or.inr h.symm;
    exact Or.inl h.symm; exact Or.inr h.symm]

/-- Separation over the node set: two events placed in islands such that no
chain of contact events between enabled bodies or of links of a shared
articulated body joins a body of the one that is a node of the body graph to a
body of the other that is a node are placed in different islands. (A disabled
body that a limit or constraint event has made a node is a node here.) -/
theorem determine_connected_events_separates (B : Bodies) (events : List Event)
    (groups : List (List Nat)) (h : Event.determine_connected_events B events = some groups)
    (k1 k2 : Nat) (g1 g2 : List Nat) (i1 i2 : Nat) (e1 e2 : Event)
    (a1 b1 a2 b2 : SingleBodyPtr)
    (hk1 : groups[k1]? = some g1) (hk2 : groups[k2]? = some g2)
    (hi1 : i1 ∈ g1) (hi2 : i2 ∈ g2)
    (he1 : events[i1]? = some e1) (he2 : events[i2]? = some e2)
    (hb1 : e1.get_bodies = some (a1, b1)) (hb2 : e2.get_bodies = some (a2, b2))
    (hno : ∀ x ∈ [a1, b1], ∀ y ∈ [a2, b2], x ∈ Event.node_set B events →
      y ∈ Event.node_set B events → ¬ Event.connected B events x y) :
    k1 ≠ k2 := by
  obtain ⟨isl, rs, _, hg, hc, hn, hrun⟩ := determine_connected_events_run B events groups h
  intro hk
  rw [hg] at hk1 hk2
  obtain ⟨I1, hI1, hIg1⟩ := groups_getElem isl k1 g1 hk1
  obtain ⟨I2, hI2, hIg2⟩ := groups_getElem isl k2 g2 hk2
  rw [← hk, hI1, Option.some.injEq] at hI2
  rw [← hIg1] at hi1
  rw [← hIg2, ← hI2] at hi2
  obtain ⟨r1, hr1, hp1, _, hs1, hs1b⟩ :=
    copy_events_find events rs hc i1 e1 a1 b1 he1 (get_bodies_ne_none e1 _ hb1) hb1
  obtain ⟨r2, hr2, hp2, _, hs2, hs2b⟩ :=
    copy_events_find events rs hc i2 e2 a2 b2 he2 (get_bodies_ne_none e2 _ hb2) hb2
  rw [← hp1] at hi1
  rw [← hp2] at hi2
  obtain ⟨x, y, hx, hy, htx, hty, hreach⟩ := run_same_island hrun (build_graph_symm B rs)
    (copy_events_nodup events 0 rs hc) k1 I1 hI1 r1 r2 hr1 hr2 hi1 hi2
  rw [touches_list, hs1, hs1b] at htx
  rw [touches_list, hs2, hs2b] at hty
  rw [hn] at hx hy
  exact hno x htx y hty hx hy (reach_connected B events rs hc x y hreach)

/-- An instance of the separation: two contacts that share only a disabled body, which is no node. -/
theorem determine_connected_events_separates_witness :
    Event.determine_connected_events (free_bodies [2] (fun _ => 0))
        [contact_event 1 2, contact_event 2 3] = some [[0], [1]]
    ∧ (0 : Nat) ≠ 1 := by
  have hnodes : Event.node_set (free_bodies [2] (fun _ => 0))
      [contact_event 1 2, contact_event 2 3] = [1, 3] := by decide
  have hstay : ∀ z, Event.connected (free_bodies [2] (fun _ => 0))
      [contact_event 1 2, contact_event 2 3] 1 z → z = 1 := by
    intro z hz
    induction hz with
    | refl => rfl
    | tail _ hstep ih =>
      rw [ih] at hstep
      rcases hstep with ⟨e, he, _, hb, _, hen⟩ | ⟨ab, h1, _⟩
      · simp only [List.mem_cons, List.mem_singleton, List.not_mem_nil, or_false] at he
        rcases he with rfl | rfl
        · rcases hb with hb | hb
          · have : (1, 2) = (1, _) := Option.some.inj hb
            rw [Prod.mk.injEq] at this
            rw [← this.2] at hen
            exact absurd hen (by decide)
          · have h2 : (1, 2) = (_, 1) := Option.some.inj hb
            rw [Prod.mk.injEq] at h2
            exact absurd h2.2 (by decide)
        · rcases hb with hb | hb
          · have h2 : (2, 3) = (1, _) := Option.some.inj hb
            rw [Prod.mk.injEq] at h2
            exact absurd h2.1 (by decide)
          · have h2 : (2, 3) = (_, 1) := Option.some.inj hb
            rw [Prod.mk.injEq] at h2
            exact absurd h2.2 (by decide)
      · simp [free_bodies] at h1
  refine ⟨by decide, determine_connected_events_separates (free_bodies [2] (fun _ => 0))
    [contact_event 1 2, contact_event 2 3] [[0], [1]] (by decide) 0 1 [0] [1] 0 1
    (contact_event 1 2) (contact_event 2 3) 1 2 2 3 rfl rfl (by simp) (by simp) rfl rfl rfl rfl ?_⟩
  intro x hx y hy hxn hyn hconn
  rw [hnodes] at hxn hyn
  simp only [List.mem_cons, List.mem_singleton, List.not_mem_nil, or_false] at hx hy hxn hyn
  have hx1 : x = 1 := by
    rcases hx with h1 | h1
    · exact h1
    · rcases hxn with h2 | h2
      · exact h2
      · rw [h1] at h2
        exact absurd h2 (by decide)
  have hy3 : y = 3 := by
    rcases hy with h1 | h1
    · rcases hyn with h2 | h2
      · rw [h1] at h2
        exact absurd h2 (by decide)
      · exact h2
    · exact h1
  rw [hx1] at hconn
  have h3 := hstay y hconn
  rw [hy3] at h3
  exact absurd h3 (by decide)

theorem adds_node_of_touches (B : Bodies) (events : List Event) (rs : List EventRef)
    (hc : copy_events 0 events = some rs) (r : EventRef) (hr : r ∈ rs) (b : SingleBodyPtr)
    (ht : r.touches b = true) (hen : B.is_enabled b = true) : b ∈ (build_graph B rs).nodes := by
  rw [build_graph_nodes_mem]
  refine ⟨r, hr, ?_⟩
  obtain ⟨e, _, _, hne, hty, _⟩ := copy_events_ref events rs hc r hr
  rw [← hty] at hne
  unfold EventRef.adds_node
  rcases (touches_iff r b).1 ht with h1 | h1 <;>
    rcases event_type_cases r.event_type with h2 | h2 | h2 | h2 <;>
    first
    | exact absurd h2 hne
    | (rw [h2]; subst h1; simp [hen])

/-- C4 (amended): when the joint of every limit or constraint event is regular
(both links enabled, and equal or both links of the articulated body that the
inboard link reports), no two distinct islands reference the same enabled
body: if an event of island `k1` and an event of island `k2` both have the
enabled body `b` as one of their bodies, then `k1 = k2`. -/
theorem determine_connected_events_enabled_body (B : Bodies) (events : List Event)
    (groups : List (List Nat)) (h : Event.determine_connected_events B events = some groups)
    (hj : ∀ e ∈ events, Event.joint_linked B e = true)
    (k1 k2 : Nat) (g1 g2 : List Nat) (i1 i2 : Nat) (e1 e2 : Event)
    (a1 b1 a2 b2 b : SingleBodyPtr)
    (hk1 : groups[k1]? = some g1) (hk2 : groups[k2]? = some g2)
    (hi1 : i1 ∈ g1) (hi2 : i2 ∈ g2)
    (he1 : events[i1]? = some e1) (he2 : events[i2]? = some e2)
    (hb1 : e1.get_bodies = some (a1, b1)) (hb2 : e2.get_bodies = some (a2, b2))
    (h1 : b ∈ [a1, b1]) (h2 : b ∈ [a2, b2]) (hen : B.is_enabled b = true) :
    k1 = k2 := by
  obtain ⟨isl, rs, _, hg, hc, _, hrun⟩ := determine_connected_events_run B events groups h
  rw [hg] at hk1 hk2
  obtain ⟨I1, hI1, hIg1⟩ := groups_getElem isl k1 g1 hk1
  obtain ⟨I2, hI2, hIg2⟩ := groups_getElem isl k2 g2 hk2
  obtain ⟨r1, hr1, hp1, _, hs1, hs1b⟩ :=
    copy_events_find events rs hc i1 e1 a1 b1 he1 (get_bodies_ne_none e1 _ hb1) hb1
  obtain ⟨r2, hr2, hp2, _, hs2, hs2b⟩ :=
    copy_events_find events rs hc i2 e2 a2 b2 he2 (get_bodies_ne_none e2 _ hb2) hb2
  rw [← hIg1, ← hp1] at hi1
  rw [← hIg2, ← hp2] at hi2
  have ht1 : r1.touches b = true := by rw [touches_list, hs1, hs1b]; exact h1
  have ht2 : r2.touches b = true := by rw [touches_list, hs2, hs2b]; exact h2
  exact run_shared_node hrun (copy_events_nodup events 0 rs hc) k1 k2 I1 I2 hI1 hI2 r1 r2
    hr1 hr2 hi1 hi2 (graph_linked B events rs hc hj r1 hr1) (graph_linked B events rs hc hj r2 hr2)
    b (adds_node_of_touches B events rs hc r1 hr1 b ht1 hen) ht1 ht2

/-- C4 (as stated) fails: two contacts that share a disabled body are in two
islands, and both islands reference that body. -/
theorem determine_connected_events_shared_disabled :
    Event.determine_connected_events (free_bodies [2] (fun _ => 0))
        [contact_event 1 2, contact_event 2 3] = some [[0], [1]]
    ∧ (contact_event 1 2).get_bodies = some (1, 2)
    ∧ (contact_event 2 3).get_bodies = some (2, 3) := by
  decide

/-- Witness of C4 (amended): two contacts that share an enabled body. -/
theorem determine_connected_events_enabled_body_witness :
    Event.determine_connected_events (free_bodies [] (fun _ => 0))
        [contact_event 1 2, contact_event 2 3] = some [[0, 1]]
    ∧ (0 : Nat) = 0 :=
  ⟨by decide, determine_connected_events_enabled_body (free_bodies [] (fun _ => 0))
    [contact_event 1 2, contact_event 2 3] [[0, 1]] (by decide) (by decide)
    0 0 [0, 1] [0, 1] 0 1 (contact_event 1 2) (contact_event 2 3) 1 2 2 3 2
    rfl rfl (by simp) (by simp) rfl rfl rfl rfl (by simp) (by simp) rfl⟩

/-- The call returns when every event whose type is not None has the
references of its type set. -/
theorem determine_connected_events_some (B : Bodies) (events : List Event)
    (h : ∀ e ∈ events, e.event_type ≠ EventType.eNone → e.get_bodies ≠ none) :
    ∃ groups, Event.determine_connected_events B events = some groups := by
  obtain ⟨rs, hrs⟩ := copy_events_some events 0 h
  unfold Event.determine_connected_events Event.connected_islands
  rw [hrs]
  exact ⟨_, rfl⟩

theorem adds_node_touches (B : Bodies) (r : EventRef) (x : SingleBodyPtr)
    (h : r.adds_node B x) : r.touches x = true := by
  rw [touches_iff]
  unfold EventRef.adds_node at h
  rcases event_type_cases r.event_type with h2 | h2 | h2 | h2 <;> rw [h2] at h
  · exact absurd h id
  · rcases h with ⟨h, _⟩ | ⟨h, _⟩
    · exact Or.inl h.symm
    · exact Or.inr h.symm
  · rcases h with h | h
    · exact Or.inl h.symm
    · exact Or.inr h.symm
  · rcases h with h | h
    · exact Or.inl h.symm
    · exact Or.inr h.symm

theorem adds_edge_touches (B : Bodies) (r : EventRef) (x y : SingleBodyPtr)
    (h : r.adds_edge B (x, y)) :
    r.touches x = true ∧ r.touches y = true ∧ B.is_enabled x = true ∧ B.is_enabled y = true := by
  obtain ⟨_, h2, h3, h4⟩ := h
  rw [touches_iff, touches_iff]
  rcases h4 with h4 | h4 <;> rw [Prod.mk.injEq] at h4 <;> obtain ⟨hx, hy⟩ := h4 <;>
    subst hx <;> subst hy
  · exact ⟨Or.inl rfl, Or.inr rfl, h2, h3⟩
  · exact ⟨Or.inr rfl, Or.inl rfl, h3, h2⟩

/-- A contact between two enabled bodies has its two bodies joined by an edge. -/
theorem contact_linked (B : Bodies) (rs : List EventRef) (r : EventRef) (hr : r ∈ rs)
    (ht : r.event_type = EventType.eContact) (h1 : B.is_enabled r.sb1 = true)
    (h2 : B.is_enabled r.sb2 = true) :
    Linked (build_graph B rs).edges (build_graph B rs).nodes r := by
  intro x y hx hy _ _
  by_cases hxy : x = y
  · exact Or.inl hxy
  right
  apply build_graph_contact_edge
  refine ⟨r, hr, ht, h1, h2, ?_⟩
  rcases (touches_iff r x).1 hx with h3 | h3 <;> rcases (touches_iff r y).1 hy with h4 | h4
  · exact absurd (h3.symm.trans h4) hxy
  · exact Or.inl (by rw [h3, h4])
  · exact Or.inr (by rw [h3, h4])
  · exact absurd (h3.symm.trans h4) hxy

/-- Two contacts through a middle body: for two contact events of an event
list, `e1` between the bodies `A` and `Bd` and `e2` between `Bd` and `C`, with
`A` and `C` enabled: when `Bd` is enabled both events are in one island; when
`Bd` is disabled and is no node of the body graph (no limit or constraint event
has made it one), and no chain joins `A` to `C`, the two events are in two
different islands. -/
theorem determine_connected_events_disabled_splits (B : Bodies) (events : List Event)
    (groups : List (List Nat)) (h : Event.determine_connected_events B events = some groups)
    (i1 i2 : Nat) (e1 e2 : Event) (A Bd C : SingleBodyPtr)
    (he1 : events[i1]? = some e1) (he2 : events[i2]? = some e2)
    (ht1 : e1.event_type = EventType.eContact) (ht2 : e2.event_type = EventType.eContact)
    (hb1 : e1.get_bodies = some (A, Bd) ∨ e1.get_bodies = some (Bd, A))
    (hb2 : e2.get_bodies = some (Bd, C) ∨ e2.get_bodies = some (C, Bd))
    (hA : B.is_enabled A = true) (hC : B.is_enabled C = true) :
    (B.is_enabled Bd = true → ∃ g ∈ groups, i1 ∈ g ∧ i2 ∈ g)
    ∧ (B.is_enabled Bd = false → Bd ∉ Event.node_set B events →
        ¬ Event.connected B events A C →
        ∃ (k1 k2 : Nat) (g1 g2 : List Nat), k1 ≠ k2
          ∧ groups[k1]? = some g1 ∧ groups[k2]? = some g2 ∧ i1 ∈ g1 ∧ i2 ∈ g2) := by
  obtain ⟨isl, rs, _, hg, hc, hn, hrun⟩ := determine_connected_events_run B events groups h
  have hptr := copy_events_nodup events 0 rs hc
  obtain ⟨p1, hp1⟩ : ∃ p : SingleBodyPtr × SingleBodyPtr, e1.get_bodies = some p
      ∧ (p = (A, Bd) ∨ p = (Bd, A)) := by
    rcases hb1 with h | h
    · exact ⟨_, h, Or.inl rfl⟩
    · exact ⟨_, h, Or.inr rfl⟩
  obtain ⟨p2, hp2⟩ : ∃ p : SingleBodyPtr × SingleBodyPtr, e2.get_bodies = some p
      ∧ (p = (Bd, C) ∨ p = (C, Bd)) := by
    rcases hb2 with h | h
    · exact ⟨_, h, Or.inl rfl⟩
    · exact ⟨_, h, Or.inr rfl⟩
  obtain ⟨r1, hr1, hptr1, hty1, hs1, hs1b⟩ := copy_events_find events rs hc i1 e1 p1.1 p1.2 he1
    (by rw [ht1]; simp) hp1.1
  obtain ⟨r2, hr2, hptr2, hty2, hs2, hs2b⟩ := copy_events_find events rs hc i2 e2 p2.1 p2.2 he2
    (by rw [ht2]; simp) hp2.1
  have hr1A : r1.touches A = true := by
    rw [touches_iff, hs1, hs1b]
    rcases hp1.2 with h | h <;> rw [h] <;> simp
  have hr1B : r1.touches Bd = true := by
    rw [touches_iff, hs1, hs1b]
    rcases hp1.2 with h | h <;> rw [h] <;> simp
  have hr2C : r2.touches C = true := by
    rw [touches_iff, hs2, hs2b]
    rcases hp2.2 with h | h <;> rw [h] <;> simp
  have hr2B : r2.touches Bd = true := by
    rw [touches_iff, hs2, hs2b]
    rcases hp2.2 with h | h <;> rw [h] <;> simp
  have hr1only : ∀ x, r1.touches x = true → x = A ∨ x = Bd := by
    intro x hx
    rw [touches_iff, hs1, hs1b] at hx
    rcases hp1.2 with h | h <;> rw [h] at hx <;> rcases hx with h5 | h5 <;>
      first
      | exact Or.inl h5.symm
      | exact Or.inr h5.symm
  have hr2only : ∀ x, r2.touches x = true → x = C ∨ x = Bd := by
    intro x hx
    rw [touches_iff, hs2, hs2b] at hx
    rcases hp2.2 with h | h <;> rw [h] at hx <;> rcases hx with h5 | h5 <;>
      first
      | exact Or.inl h5.symm
      | exact Or.inr h5.symm
  have hAn := adds_node_of_touches B events rs hc r1 hr1 A hr1A hA
  have hCn := adds_node_of_touches B events rs hc r2 hr2 C hr2C hC
  obtain ⟨k1, I1, hk1, hg1, _⟩ := run_placed hrun r1 hr1
    ((touches_any_iff r1 _).2 ⟨A, hAn, hr1A⟩)
  obtain ⟨k2, I2, hk2, hg2, _⟩ := run_placed hrun r2 hr2
    ((touches_any_iff r2 _).2 ⟨C, hCn, hr2C⟩)
  have hgk1 : groups[k1]? = some I1.group := by rw [hg, List.getElem?_map, hk1]; rfl
  have hgk2 : groups[k2]? = some I2.group := by rw [hg, List.getElem?_map, hk2]; rfl
  constructor
  · intro hB
    have hen1 : B.is_enabled r1.sb1 = true ∧ B.is_enabled r1.sb2 = true := by
      rw [hs1, hs1b]
      rcases hp1.2 with h | h <;> rw [h]
      · exact ⟨hA, hB⟩
      · exact ⟨hB, hA⟩
    have hen2 : B.is_enabled r2.sb1 = true ∧ B.is_enabled r2.sb2 = true := by
      rw [hs2, hs2b]
      rcases hp2.2 with h | h <;> rw [h]
      · exact ⟨hB, hC⟩
      · exact ⟨hC, hB⟩
    have hk : k1 = k2 := run_shared_node hrun hptr k1 k2 I1 I2 hk1 hk2 r1 r2 hr1 hr2 hg1 hg2
      (contact_linked B rs r1 hr1 (by rw [hty1]; exact ht1) hen1.1 hen1.2)
      (contact_linked B rs r2 hr2 (by rw [hty2]; exact ht2) hen2.1 hen2.2)
      Bd (adds_node_of_touches B events rs hc r1 hr1 Bd hr1B hB) hr1B hr2B
    rw [← hk, hk1, Option.some.injEq] at hk2
    rw [← hk2] at hg2
    refine ⟨I1.group, List.getElem?_mem hgk1, ?_, ?_⟩
    · rw [← hptr1]; exact hg1
    · rw [← hptr2]; exact hg2
  · intro _ hBn hno
    refine ⟨k1, k2, I1.group, I2.group, ?_, hgk1, hgk2, by rw [← hptr1]; exact hg1,
      by rw [← hptr2]; exact hg2⟩
    intro hk
    rw [← hk, hk1, Option.some.injEq] at hk2
    rw [← hk2] at hg2
    obtain ⟨x, y, hx, hy, htx, hty, hreach⟩ := run_same_island hrun (build_graph_symm B rs)
      hptr k1 I1 hk1 r1 r2 hr1 hr2 hg1 hg2
    rw [hn] at hx hy
    have hxA : x = A := by
      rcases hr1only x htx with h | h
      · exact h
      · rw [h] at hx
        exact absurd hx hBn
    have hyC : y = C := by
      rcases hr2only y hty with h | h
      · exact h
      · rw [h] at hy
        exact absurd hy hBn
    rw [hxA, hyC] at hreach
    exact hno (reach_connected B events rs hc A C hreach)

/-- An instance with the middle body disabled and no node: the two contacts are
in the islands 0 and 1. -/
theorem determine_connected_events_disabled_splits_witness :
    Event.determine_connected_events (free_bodies [2] (fun _ => 0))
        [contact_event 1 2, contact_event 2 3] = some [[0], [1]]
    ∧ ∃ (k1 k2 : Nat) (g1 g2 : List Nat), k1 ≠ k2
        ∧ [[0], [1]][k1]? = some g1 ∧ [[0], [1]][k2]? = some g2 ∧ 0 ∈ g1 ∧ 1 ∈ g2 := by
  have hstay : ∀ z, Event.connected (free_bodies [2] (fun _ => 0))
      [contact_event 1 2, contact_event 2 3] 1 z → z = 1 := by
    intro z hz
    induction hz with
    | refl => rfl
    | tail _ hstep ih =>
      rw [ih] at hstep
      rcases hstep with ⟨e, he, _, hb, _, hen⟩ | ⟨ab, h1, _⟩
      · simp only [List.mem_cons, List.mem_singleton, List.not_mem_nil, or_false] at he
        rcases he with rfl | rfl
        · rcases hb with hb | hb
          · have h2 : (1, 2) = (1, _) := Option.some.inj hb
            rw [Prod.mk.injEq] at h2
            rw [← h2.2] at hen
            exact absurd hen (by decide)
          · have h2 : (1, 2) = (_, 1) := Option.some.inj hb
            rw [Prod.mk.injEq] at h2
            exact absurd h2.2 (by decide)
        · rcases hb with hb | hb
          · have h2 : (2, 3) = (1, _) := Option.some.inj hb
            rw [Prod.mk.injEq] at h2
            exact absurd h2.1 (by decide)
          · have h2 : (2, 3) = (_, 1) := Option.some.inj hb
            rw [Prod.mk.injEq] at h2
            exact absurd h2.2 (by decide)
      · simp [free_bodies] at h1
  exact ⟨by decide,
    (determine_connected_events_disabled_splits (free_bodies [2] (fun _ => 0))
      [contact_event 1 2, contact_event 2 3] [[0], [1]] (by decide) 0 1
      (contact_event 1 2) (contact_event 2 3) 1 2 3 rfl rfl rfl rfl (Or.inl rfl) (Or.inl rfl)
      rfl rfl).2 rfl (by decide) (fun hc => absurd (hstay 3 hc) (by decide))⟩

theorem copy_events_length : ∀ (es : List Event) (i : Nat) (rs : List EventRef),
    copy_events i es = some rs → (∀ e ∈ es, e.event_type ≠ EventType.eNone) →
    rs.length = es.length := by
  intro es
  induction es with
  | nil =>
    intro i rs h _
    simp only [copy_events, Option.some.injEq] at h
    rw [← h]
    rfl
  | cons e es ih =>
    intro i rs h hne
    unfold copy_events at h
    rw [if_neg (hne e (List.mem_cons_self _ _))] at h
    cases hb : e.get_bodies with
    | none => rw [hb] at h; simp at h
    | some b =>
      cases hc : copy_events (i + 1) es with
      | none => rw [hb, hc] at h; simp at h
      | some rs2 =>
        rw [hb, hc] at h
        obtain ⟨b1, b2⟩ := b
        simp only [Option.some.injEq] at h
        rw [← h, List.length_cons, List.length_cons,
          ih (i + 1) rs2 hc (fun e2 he2 => hne e2 (List.mem_cons_of_mem _ he2))]

theorem length_one_of_nodup (l : List Nat) (c : Nat) (hn : l.Nodup) (hc : c ∈ l)
    (hall : ∀ i ∈ l, i = c) : l.length = 1 := by
  cases l with
  | nil => simp at hc
  | cons a t =>
    cases t with
    | nil => rfl
    | cons b t2 =>
      exfalso
      have ha := hall a (by simp)
      have hb := hall b (by simp)
      rw [List.nodup_cons] at hn
      exact hn.1 (by rw [ha, hb]; simp)

theorem flatMap_length_one (isl : List Island) (h : ∀ I ∈ isl, I.group.length = 1) :
    (isl.flatMap Island.group).length = isl.length := by
  induction isl with
  | nil => rfl
  | cons I rest ih =>
    rw [List.flatMap_cons, List.length_append, h I (List.mem_cons_self _ _),
      ih (fun J hJ => h J (List.mem_cons_of_mem _ hJ)), List.length_cons, Nat.add_comm]

theorem flatMap_nodup_index (l : List (SingleBodyPtr × SingleBodyPtr))
    (h : (l.flatMap (fun p => [p.1, p.2])).Nodup) (i j : Nat)
    (p q : SingleBodyPtr × SingleBodyPtr) (x : SingleBodyPtr)
    (hi : l[i]? = some p) (hj : l[j]? = some q) (hx : x ∈ [p.1, p.2]) (hy : x ∈ [q.1, q.2]) :
    i = j := by
  rw [List.flatMap_def] at h
  refine flatten_nodup_index _ h i j [p.1, p.2] [q.1, q.2] x ?_ ?_ hx hy
  · rw [List.getElem?_map, hi]; rfl
  · rw [List.getElem?_map, hj]; rfl

/-- C8. For every list of `n` events with bodies set (so none is of type None)
whose `2n` bodies are distinct and enabled, where no two events are connected
through an articulated body, `Event::determine_connected_events` returns
exactly `n` islands, each containing exactly one event. The joint of a limit or
constraint event is a joint of an articulated body: its two links are links of
the articulated body that the inboard link reports (for contact events, as in
the instance of 10 contacts, this says nothing). -/
theorem determine_connected_events_independent (B : Bodies) (events : List Event)
    (bodies : List (SingleBodyPtr × SingleBodyPtr))
    (hb : events.map Event.get_bodies = bodies.map some)
    (hdist : (bodies.flatMap (fun p => [p.1, p.2])).Nodup)
    (hen : ∀ p ∈ bodies, B.is_enabled p.1 = true ∧ B.is_enabled p.2 = true)
    (hind : ∀ ab, ∀ p ∈ bodies, ∀ q ∈ bodies, ∀ x ∈ [p.1, p.2], ∀ y ∈ [q.1, q.2],
      x ∈ B.get_links ab → y ∈ B.get_links ab → p = q)
    (hj : ∀ e ∈ events, Event.joint_linked B e = true) :
    ∃ groups, Event.determine_connected_events B events = some groups
      ∧ groups.length = events.length ∧ ∀ g ∈ groups, g.length = 1 := by
  -- every event has its bodies, listed in `bodies` at the index of the event
  have hget : ∀ (i : Nat) (e : Event), events[i]? = some e →
      ∃ p, e.get_bodies = some p ∧ bodies[i]? = some p := by
    intro i e he
    have h1 : (events.map Event.get_bodies)[i]? = some e.get_bodies := by
      rw [List.getElem?_map, he]; rfl
    rw [hb, List.getElem?_map] at h1
    cases hp : bodies[i]? with
    | none => rw [hp] at h1; simp at h1
    | some p =>
      rw [hp] at h1
      simp only [Option.map_some', Option.some.injEq] at h1
      exact ⟨p, h1.symm, rfl⟩
  have hsome : ∀ e ∈ events, e.event_type ≠ EventType.eNone → e.get_bodies ≠ none := by
    intro e he _
    obtain ⟨i, hi⟩ := List.mem_iff_getElem?.1 he
    obtain ⟨p, hp, _⟩ := hget i e hi
    rw [hp]
    simp
  have hnone : ∀ e ∈ events, e.event_type ≠ EventType.eNone := by
    intro e he
    obtain ⟨i, hi⟩ := List.mem_iff_getElem?.1 he
    obtain ⟨p, hp, _⟩ := hget i e hi
    exact get_bodies_ne_none e p hp
  obtain ⟨groups, hgr⟩ := determine_connected_events_some B events hsome
  obtain ⟨isl, rs, _, hg, hc, _, hrun⟩ := determine_connected_events_run B events groups hgr
  have hptr := copy_events_nodup events 0 rs hc
  -- the pair of bodies of a copied event
  have hpair : ∀ r ∈ rs, bodies[r.ptr]? = some (r.sb1, r.sb2) := by
    intro r hr
    obtain ⟨e, he, _, _, _, hbe⟩ := copy_events_ref events rs hc r hr
    obtain ⟨p, hp, hp2⟩ := hget r.ptr e he
    rw [hbe, Option.some.injEq] at hp
    rw [hp]
    exact hp2
  -- two copied events that refer to one body are the same event
  have huniq : ∀ r ∈ rs, ∀ r2 ∈ rs, ∀ x, r.touches x = true → r2.touches x = true → r = r2 := by
    intro r hr r2 hr2 x hx hx2
    rw [touches_list] at hx hx2
    have := flatMap_nodup_index bodies hdist r.ptr r2.ptr _ _ x (hpair r hr) (hpair r2 hr2) hx hx2
    exact List.inj_on_of_nodup_map hptr hr hr2 this
  have henabled : ∀ r ∈ rs, ∀ x, r.touches x = true → B.is_enabled x = true := by
    intro r hr x hx
    have h1 := hen _ (List.getElem?_mem (hpair r hr))
    rcases (touches_iff r x).1 hx with h | h <;> rw [← h]
    · exact h1.1
    · exact h1.2
  have hnode : ∀ r ∈ rs, ∀ x, r.touches x = true → x ∈ (build_graph B rs).nodes :=
    fun r hr x hx => adds_node_of_touches B events rs hc r hr x hx (henabled r hr x hx)
  -- a chain of edges stays within the bodies of one event
  have hstay : ∀ r ∈ rs, ∀ x z, r.touches x = true → Reach (build_graph B rs).edges x z →
      r.touches z = true := by
    intro r hr x z hx hz
    induction hz with
    | refl => exact hx
    | tail _ hstep ih =>
      rename_i y w _
      rcases build_graph_edges_sound B rs _ hstep with ⟨r2, hr2, he⟩ | ⟨sb, _, ab, _, hp⟩
      · obtain ⟨h1, h2, _⟩ := adds_edge_touches B r2 y w he
        rw [huniq r hr r2 hr2 y ih h1]
        exact h2
      · obtain ⟨hl1, hl2, _, hwn, _⟩ := link_edges_mem _ _ _ hp
        obtain ⟨r2, hr2, ha⟩ := (build_graph_nodes_mem B rs w).1 hwn
        have hw2 := adds_node_touches B r2 w ha
        have heq := hind ab _ (List.getElem?_mem (hpair r hr)) _ (List.getElem?_mem (hpair r2 hr2))
          y ((touches_list r y).1 ih) w ((touches_list r2 w).1 hw2) hl1 hl2
        rw [touches_list] at hw2 ⊢
        rw [Prod.mk.injEq] at heq
        rw [heq.1, heq.2]
        exact hw2
  have hnd : groups.flatten.Nodup := by
    rw [hg]
    exact run_groups_nodup hrun hptr
  -- every island holds exactly one event
  have hone : ∀ I ∈ isl, I.group.length = 1 := by
    intro I hI
    obtain ⟨k, hk⟩ := List.mem_iff_getElem?.1 hI
    obtain ⟨start, hstart, hreach⟩ := run_reach hrun k I hk
    have hsn := run_popped_sub hrun k I hk start hstart
    obtain ⟨r0, hr0, ha0⟩ := (build_graph_nodes_mem B rs start).1 hsn
    have ht0 := adds_node_touches B r0 start ha0
    obtain ⟨k2, I2, hk2, hg2, _⟩ := run_placed hrun r0 hr0
      ((touches_any_iff r0 _).2 ⟨start, hsn, ht0⟩)
    have hs2 := run_linked_popped hrun hptr k2 I2 hk2 r0 hr0 hg2
      (graph_linked B events rs hc hj r0 hr0) start hsn ht0
    have hkk := run_disjoint hrun k k2 I I2 start hk hk2 hstart hs2
    rw [← hkk, hk, Option.some.injEq] at hk2
    rw [← hk2] at hg2
    refine length_one_of_nodup I.group r0.ptr ?_ hg2 ?_
    · rw [hg] at hnd
      exact (List.nodup_flatten.1 hnd).1 _ (List.mem_map.2 ⟨I, hI, rfl⟩)
    · intro i hi
      obtain ⟨r, hr, hp, ht, _⟩ := run_member hrun k I hk i hi
      obtain ⟨x, hx, htx⟩ := (touches_any_iff r _).1 ht
      have := huniq r0 hr0 r hr x (hstay r0 hr0 start x ht0 (hreach x hx)) htx
      rw [← hp, this]
  refine ⟨groups, hgr, ?_, ?_⟩
  · have hperm := (run_perm hrun).length_eq
    have hrem : rs.filter (fun r => !r.touches_any (build_graph B rs).nodes) = [] := by
      rw [List.filter_eq_nil_iff]
      intro r hr
      have : r.touches_any (build_graph B rs).nodes = true :=
        (touches_any_iff r _).2 ⟨r.sb1, hnode r hr _ ((touches_iff r _).2 (Or.inl rfl)),
          (touches_iff r _).2 (Or.inl rfl)⟩
      simp [this]
    rw [hrem, List.map_nil, List.append_nil, List.length_map, flatMap_length_one isl hone,
      copy_events_length events 0 rs hc hnone] at hperm
    rw [hg, List.length_map]
    exact hperm
  · intro g hgm
    rw [hg] at hgm
    obtain ⟨I, hI, hIg⟩ := List.mem_map.1 hgm
    rw [← hIg]
    exact hone I hI

/-- Witness of C8: two contacts and a limit event of a joint of an articulated body, on six distinct bodies. -/
theorem determine_connected_events_independent_witness :
    [contact_event 1 2, contact_event 3 4, limit_event 5 6 0].map Event.get_bodies
        = [(1, 2), (3, 4), (5, 6)].map some
    ∧ ∃ groups, Event.determine_connected_events
        { is_enabled := fun _ => true,
          get_articulated_body := fun b => if b = 5 ∨ b = 6 then some 9 else none,
          get_links := fun ab => if ab = 9 then [5, 6] else [],
          calc_point_vel := fun _ _ _ => 0 }
        [contact_event 1 2, contact_event 3 4, limit_event 5 6 0] = some groups
      ∧ groups.length = [contact_event 1 2, contact_event 3 4, limit_event 5 6 0].length
      ∧ ∀ g ∈ groups, g.length = 1 :=
  ⟨by decide, determine_connected_events_independent _
    [contact_event 1 2, contact_event 3 4, limit_event 5 6 0] [(1, 2), (3, 4), (5, 6)]
    (by decide) (by decide) (by decide)
    (by
      intro ab p hp q hq x hx y hy h1 h2
      by_cases h9 : ab = 9
      · subst h9
        simp only [if_true, List.mem_cons, List.mem_singleton, List.not_mem_nil, or_false]
          at h1 h2 hp hq hx hy
        rcases hp with rfl | rfl | rfl <;> rcases hq with rfl | rfl | rfl <;>
          first
          | rfl
          | (exfalso
             rcases hx with rfl | rfl <;> rcases hy with rfl | rfl <;> simp at h1 h2)
      · simp only [if_neg h9, List.not_mem_nil] at h1)
    (by decide)⟩

/-- C2 fails on the code: the contact of the disabled base 1 of an arm with the
box 5 and the contact of the boxes 5 and 6 share the enabled body 5 and are in
different islands, because the limit event of the arm makes the disabled base
a node, through which the first contact is taken. -/
theorem determine_connected_events_shared_enabled_split :
    Event.determine_connected_events (arm_bodies [1])
        [contact_event 1 5, limit_event 1 2 0, contact_event 5 6] = some [[0, 1], [2]]
    ∧ (contact_event 1 5).get_bodies = some (1, 5)
    ∧ (contact_event 5 6).get_bodies = some (5, 6)
    ∧ (arm_bodies [1]).is_enabled 5 = true := by
  decide

/-- C6 fails on the code: the contact between the disabled bodies 1 and 3 is
placed in an island, because the limit event of the arm makes the disabled
base 1 a node. -/
theorem determine_connected_events_places_disabled_contact :
    Event.determine_connected_events (arm_bodies [1, 3])
        [limit_event 1 2 0, contact_event 1 3] = some [[0, 1]]
    ∧ (contact_event 1 3).get_bodies = some (1, 3)
    ∧ (arm_bodies [1, 3]).is_enabled 1 = false
    ∧ (arm_bodies [1, 3]).is_enabled 3 = false := by
  decide

/-! ## Groups without impact -/

theorem impact_detected_eq (B : Bodies) (g : List Event)
    (h : ∀ e ∈ g, e.determine_event_class B ≠ none) :
    Event.impact_detected B g = some (Event.has_impact B g) := by
  induction g with
  | nil => rfl
  | cons e es ih =>
    have he := h e (List.mem_cons_self _ _)
    have ih2 := ih (fun e2 he2 => h e2 (List.mem_cons_of_mem _ he2))
    unfold Event.impact_detected Event.has_impact
    cases hc : e.determine_event_class B with
    | none => exact absurd hc he
    | some c =>
      have hi : e.is_impacting B = some (decide (c = EventClass.eImpacting)) := by
        unfold Event.is_impacting
        rw [hc]
      rw [hi]
      by_cases hcl : c = EventClass.eImpacting
      · simp [hcl, hi]
      · simp only [hcl, decide_False, List.any_cons, hi, Option.some.injEq, Bool.false_eq_true,
          Bool.false_or]
        rw [ih2]
        rfl

/-- C9 (amended): for every list of islands all of whose events can be
classified (contact or limit events with their references set),
`Event::remove_nonimpacting_groups` leaves exactly the sub-list of the islands
that contain at least one event classified Impacting, in their original
relative order and with the events of each surviving island unchanged. -/
theorem remove_nonimpacting_groups_filter (B : Bodies) (groups : List (List Event))
    (h : ∀ g ∈ groups, ∀ e ∈ g, e.determine_event_class B ≠ none) :
    Event.remove_nonimpacting_groups B groups = some (groups.filter (Event.has_impact B)) := by
  induction groups with
  | nil => rfl
  | cons g gs ih =>
    unfold Event.remove_nonimpacting_groups
    rw [impact_detected_eq B g (h g (List.mem_cons_self _ _)),
      ih (fun g2 hg2 => h g2 (List.mem_cons_of_mem _ hg2))]
    cases hd : Event.has_impact B g <;> simp [List.filter_cons, hd]

/-- C9 (as stated) fails: on an island that holds a constraint event the call
does not return a list of islands, since the event cannot be classified. -/
theorem remove_nonimpacting_groups_constraint :
    Event.remove_nonimpacting_groups (free_bodies [] (fun _ => 0)) [[constraint_event 1 2]]
      = none
    ∧ Event.remove_nonimpacting_groups (free_bodies [] (fun _ => 0)) [[constraint_event 1 2]]
      ≠ some ([[constraint_event 1 2]].filter
          (Event.has_impact (free_bodies [] (fun _ => 0)))) := by
  decide

/-- Witness of C9 (amended): one impacting and one resting contact. -/
theorem remove_nonimpacting_groups_filter_witness :
    (∀ g ∈ [[contact_event 1 2], [contact_event 3 4]], ∀ e ∈ g,
      e.determine_event_class (free_bodies [] (fun b => if b = 2 then 1 else 0)) ≠ none)
    ∧ Event.remove_nonimpacting_groups (free_bodies [] (fun b => if b = 2 then 1 else 0))
        [[contact_event 1 2], [contact_event 3 4]]
      = some ([[contact_event 1 2], [contact_event 3 4]].filter
          (Event.has_impact (free_bodies [] (fun b => if b = 2 then 1 else 0)))) :=
  ⟨by decide, remove_nonimpacting_groups_filter _ _ (by decide)⟩

/-- C10: `Event::remove_nonimpacting_groups` is idempotent: with the same body
velocities, applying it to its own output returns that output unchanged. -/
theorem remove_nonimpacting_groups_idempotent (B : Bodies) (groups out : List (List Event))
    (h : Event.remove_nonimpacting_groups B groups = some out) :
    Event.remove_nonimpacting_groups B out = some out := by
  induction groups generalizing out with
  | nil =>
    simp only [Event.remove_nonimpacting_groups, Option.some.injEq] at h
    rw [← h]
    rfl
  | cons g gs ih =>
    unfold Event.remove_nonimpacting_groups at h
    cases hd : Event.impact_detected B g with
    | none => rw [hd] at h; simp at h
    | some d =>
      cases hr : Event.remove_nonimpacting_groups B gs with
      | none => rw [hd, hr] at h; simp at h
      | some rest =>
        rw [hd, hr] at h
        simp only [Option.some.injEq] at h
        have hrest := ih rest hr
        cases d with
        | false =>
          simp only [Bool.false_eq_true, if_false] at h
          rw [← h]
          exact hrest
        | true =>
          simp only [if_true] at h
          rw [← h]
          unfold Event.remove_nonimpacting_groups
          rw [hd, hrest]
          rfl

/-- Witness of C10: three groups, of which the resting one is removed. -/
theorem remove_nonimpacting_groups_idempotent_witness :
    Event.remove_nonimpacting_groups (free_bodies [] (fun b => if b = 2 then 1 else 0))
        [[contact_event 1 2], [contact_event 3 4], [limit_event 5 6 (-1), contact_event 3 4]]
      = some [[contact_event 1 2], [limit_event 5 6 (-1), contact_event 3 4]]
    ∧ Event.remove_nonimpacting_groups (free_bodies [] (fun b => if b = 2 then 1 else 0))
        [[contact_event 1 2], [limit_event 5 6 (-1), contact_event 3 4]]
      = some [[contact_event 1 2], [limit_event 5 6 (-1), contact_event 3 4]] := by
  have h : Event.remove_nonimpacting_groups (free_bodies [] (fun b => if b = 2 then 1 else 0))
      [[contact_event 1 2], [contact_event 3 4], [limit_event 5 6 (-1), contact_event 3 4]]
      = some [[contact_event 1 2], [limit_event 5 6 (-1), contact_event 3 4]] := by
    simp [Event.remove_nonimpacting_groups, Event.impact_detected, Event.is_impacting,
      Event.determine_event_class, Event.calc_event_vel, contact_event, limit_event, free_bodies]
  exact ⟨h, remove_nonimpacting_groups_idempotent _ _ _ h⟩

/-! ## A minimal set of contact events -/

theorem count_events_eq (group : List Event) :
    Event.count_events group = (Event.num_contacts group, group.length) := by
  induction group with
  | nil => rfl
  | cons e es ih =>
    unfold Event.count_events
    rw [ih]
    by_cases h : e.event_type = EventType.eContact
    · simp [Event.num_contacts, h]
    · simp [Event.num_contacts, h]

theorem erase_unselected_sublist (sel : List Nat) (group : List Event) :
    ∀ ci : Nat, List.Sublist (erase_unselected sel ci group) group := by
  induction group with
  | nil => intro ci; exact List.Sublist.slnil
  | cons e es ih =>
    intro ci
    unfold erase_unselected
    by_cases h : ci ∈ sel
    · rw [if_pos h]; exact (ih (ci + 1)).cons₂ e
    · rw [if_neg h]; exact (ih (ci + 1)).cons e

theorem erase_unselected_zero_only (group : List Event) :
    ∀ ci : Nat, 0 < ci → erase_unselected [0] ci group = [] := by
  induction group with
  | nil => intro ci _; rfl
  | cons e es ih =>
    intro ci hci
    unfold erase_unselected
    have h : ci ∉ [0] := by
      intro h
      rw [List.mem_singleton] at h
      omega
    rw [if_neg h]
    exact ih (ci + 1) (Nat.succ_pos ci)

theorem select_loop_zero_only (Jc_iM_JcT : Nat → Nat → Real)
    (hM : ∀ i : Nat, 0 < Jc_iM_JcT i 0) :
    ∀ (n i : Nat), select_loop Jc_iM_JcT n i [0] = [0] := by
  intro n
  induction n with
  | zero => intro i; rfl
  | succ n ih =>
    intro i
    unfold select_loop
    have h : select_step Jc_iM_JcT [0] i = [0] := by
      simp only [select_step, List.map_cons, List.map_nil, min_element, List.foldl_nil]
      rw [if_neg (not_le.2 (hM i))]
    rw [h]
    exact ih (i + 1)

/-- C11. A group with at most one Contact event, or with fewer than 4 events,
is returned unchanged by `determine_minimal_set`. -/
theorem determine_minimal_set_skip (Jc_iM_JcT : Nat → Nat → Real) (group : List Event)
    (h : Event.num_contacts group ≤ 1 ∨ group.length < 4) :
    Event.determine_minimal_set Jc_iM_JcT group = group := by
  unfold Event.determine_minimal_set
  simp only [count_events_eq]
  rw [if_pos h]

theorem determine_minimal_set_skip_witness :
    (Event.num_contacts [contact_event 1 2, contact_event 1 2, contact_event 1 2] ≤ 1
      ∨ [contact_event 1 2, contact_event 1 2, contact_event 1 2].length < 4)
    ∧ Event.determine_minimal_set (fun _ _ => 1)
        [contact_event 1 2, contact_event 1 2, contact_event 1 2]
      = [contact_event 1 2, contact_event 1 2, contact_event 1 2] :=
  ⟨Or.inr (by decide), determine_minimal_set_skip _ _ (Or.inr (by decide))⟩

/-- C12 fails on the code: in the group of a limit event followed by three
contacts between the same bodies (all entries of the contact-space inertia
matrix positive), the first Contact event is erased: the removal loop counts
every event of the group, so that the selected contact index 0 keeps the event
at position 0, which is the limit event. -/
theorem determine_minimal_set_erases_first_contact :
    Event.determine_minimal_set (fun _ _ => 1)
        [limit_event 1 2 0, contact_event 2 5, contact_event 2 6, contact_event 2 7]
      = [limit_event 1 2 0]
    ∧ (contact_event 2 5).event_type = EventType.eContact := by
  refine ⟨?_, rfl⟩
  unfold Event.determine_minimal_set
  simp only [count_events_eq]
  rw [if_neg (by decide)]
  unfold select_contacts
  rw [select_loop_zero_only _ (fun _ => by norm_num)]
  rfl

/-- C13 fails on the code: in the group of three contacts followed by a limit
event (all entries of the contact-space inertia matrix positive), the Limit
event is erased: the removal loop counts every event of the group, and the
position 3 of the limit event is not a selected contact index. -/
theorem determine_minimal_set_erases_limit :
    Event.determine_minimal_set (fun _ _ => 1)
        [contact_event 2 5, contact_event 2 6, contact_event 2 7, limit_event 1 2 0]
      = [contact_event 2 5]
    ∧ (limit_event 1 2 0).event_type = EventType.eLimit := by
  refine ⟨?_, rfl⟩
  unfold Event.determine_minimal_set
  simp only [count_events_eq]
  rw [if_neg (by decide)]
  unfold select_contacts
  rw [select_loop_zero_only _ (fun _ => by norm_num)]
  rfl

/-- C14. The group after `determine_minimal_set` is an order-preserving
sub-list of the group before it, and it has at most as many Contact events. -/
theorem determine_minimal_set_sublist (Jc_iM_JcT : Nat → Nat → Real) (group : List Event) :
    List.Sublist (Event.determine_minimal_set Jc_iM_JcT group) group
    ∧ Event.num_contacts (Event.determine_minimal_set Jc_iM_JcT group)
        ≤ Event.num_contacts group := by
  have h : List.Sublist (Event.determine_minimal_set Jc_iM_JcT group) group := by
    unfold Event.determine_minimal_set
    simp only
    split
    · exact List.Sublist.refl group
    · exact erase_unselected_sublist _ group 0
  exact ⟨h, (h.filter _).length_le⟩

/-- Counterexample to C15: three contacts between the same two bodies with the
same point and normal are fewer than 4 events, so that the skip rule returns
the group with its three contacts. -/
theorem determine_minimal_set_three_coincident :
    Event.determine_minimal_set (fun _ _ => 1)
        [contact_event 1 2, contact_event 1 2, contact_event 1 2]
      = [contact_event 1 2, contact_event 1 2, contact_event 1 2]
    ∧ Event.num_contacts (Event.determine_minimal_set (fun _ _ => 1)
        [contact_event 1 2, contact_event 1 2, contact_event 1 2]) = 3 := by
  have h : Event.determine_minimal_set (fun _ _ => 1)
        [contact_event 1 2, contact_event 1 2, contact_event 1 2]
      = [contact_event 1 2, contact_event 1 2, contact_event 1 2] := by
    unfold Event.determine_minimal_set
    simp only [count_events_eq]
    rw [if_pos (Or.inr (by decide))]
  rw [h]
  exact ⟨rfl, by decide⟩

/-- C15, amended. A group of three Contact events is returned unchanged (three
contacts left); a group of at least 4 Contact events every one of which is
positively coupled to the first (column 0 of the contact-space inertia matrix
is positive, as for contacts at the same point with the same normal between the
same two bodies) is reduced to its first contact: exactly 1 contact is left. -/
theorem determine_minimal_set_coincident (Jc_iM_JcT : Nat → Nat → Real) (group : List Event)
    (hc : ∀ e ∈ group, e.event_type = EventType.eContact)
    (hM : ∀ i : Nat, 0 < Jc_iM_JcT i 0) :
    (group.length = 3 → Event.determine_minimal_set Jc_iM_JcT group = group
      ∧ Event.num_contacts (Event.determine_minimal_set Jc_iM_JcT group) = 3)
    ∧ (4 ≤ group.length → Event.determine_minimal_set Jc_iM_JcT group = group.take 1
      ∧ Event.num_contacts (Event.determine_minimal_set Jc_iM_JcT group) = 1) := by
  have hn : Event.num_contacts group = group.length := by
    unfold Event.num_contacts
    rw [List.filter_eq_self.2 (fun e he => by simp [hc e he])]
  constructor
  · intro h3
    have h := determine_minimal_set_skip Jc_iM_JcT group (Or.inr (by omega))
    rw [h]
    exact ⟨rfl, by rw [hn, h3]⟩
  · intro h4
    have h : Event.determine_minimal_set Jc_iM_JcT group = group.take 1 := by
      unfold Event.determine_minimal_set
      simp only [count_events_eq, hn]
      rw [if_neg (by omega)]
      unfold select_contacts
      rw [select_loop_zero_only Jc_iM_JcT hM]
      cases group with
      | nil => simp at h4
      | cons e es =>
        unfold erase_unselected
        rw [if_pos (List.mem_singleton.2 rfl), erase_unselected_zero_only es 1 (by decide)]
        rfl
    rw [h]
    refine ⟨rfl, ?_⟩
    cases group with
    | nil => simp at h4
    | cons e es =>
      have he := hc e (List.mem_cons_self e es)
      simp [Event.num_contacts, he]

theorem determine_minimal_set_coincident_witness :
    (∀ e ∈ [contact_event 1 2, contact_event 1 2, contact_event 1 2, contact_event 1 2],
      e.event_type = EventType.eContact)
    ∧ (Event.determine_minimal_set (fun _ _ => (1 : Real))
        [contact_event 1 2, contact_event 1 2, contact_event 1 2, contact_event 1 2]
      = [contact_event 1 2]
      ∧ Event.num_contacts (Event.determine_minimal_set (fun _ _ => (1 : Real))
        [contact_event 1 2, contact_event 1 2, contact_event 1 2, contact_event 1 2]) = 1) :=
  ⟨by decide,
   (determine_minimal_set_coincident (fun _ _ => (1 : Real))
      [contact_event 1 2, contact_event 1 2, contact_event 1 2, contact_event 1 2]
      (by decide) (fun _ => by norm_num)).2 (by decide)⟩

/-! ## The stacked solution vector -/

theorem segment_length (z : VectorN) (a b : Nat) (h : b ≤ z.length) :
    (segment z a b).length = b - a := by
  unfold segment
  rw [List.length_take, List.length_drop]
  omega

theorem segment_getElem? (z : VectorN) (a b i : Nat) :
    (segment z a b)[i]? = if i < b - a then z[a + i]? else none := by
  unfold segment
  rw [List.getElem?_take, List.getElem?_drop]

theorem segment_eq (z v : VectorN) (a b : Nat) (hl : v.length = b - a)
    (h : ∀ i : Nat, i < v.length → z[a + i]? = v[i]?) : segment z a b = v := by
  apply List.ext_getElem?
  intro i
  rw [segment_getElem?]
  by_cases hi : i < b - a
  · rw [if_pos hi]; exact h i (by omega)
  · rw [if_neg hi]; exact (List.getElem?_eq_none (by omega)).symm

theorem set_sub_vec_spec (z v : VectorN) (s : Nat) (h : s + v.length ≤ z.length) :
    ∃ z' : VectorN, VectorN.set_sub_vec z s v = some z' ∧ z'.length = z.length
      ∧ (∀ i : Nat, i < s → z'[i]? = z[i]?)
      ∧ (∀ i : Nat, i < v.length → z'[s + i]? = v[i]?) := by
  have hts : (List.take s z).length = s := by
    rw [List.length_take]; omega
  refine ⟨z.take s ++ v ++ z.drop (s + v.length), if_pos h, ?_, ?_, ?_⟩
  · rw [List.length_append, List.length_append, hts, List.length_drop]
    omega
  · intro i hi
    rw [List.append_assoc, List.getElem?_append_left (by rw [hts]; exact hi),
      List.getElem?_take_of_lt hi]
  · intro i hi
    rw [List.getElem?_append_left (by rw [List.length_append, hts]; omega),
      List.getElem?_append_right (by rw [hts]; omega), hts]
    congr 1
    omega

theorem split_negative_spec (NB : Nat) :
    ∀ (n i : Nat) (z : VectorN), i + n ≤ z.length → n = 0 ∨ NB < z.length →
      ∃ z' : VectorN, split_negative NB n i z = some z' ∧ z'.length = z.length
        ∧ ∀ j : Nat, j < i → j ≠ NB → z'[j]? = z[j]? := by
  intro n
  induction n with
  | zero => intro i z _ _; exact ⟨z, rfl, rfl, fun _ _ _ => rfl⟩
  | succ n ih =>
    intro i z hi hNB
    have hNB' : NB < z.length := by
      rcases hNB with h | h
      · omega
      · exact h
    have hi' : i < z.length := by omega
    unfold split_negative
    rw [List.getElem?_eq_getElem hi']
    simp only
    by_cases hneg : z[i] < 0
    · rw [if_pos hneg]
      have e1 : VectorN.write z NB (-z[i]) = some (z.set NB (-z[i])) := if_pos hNB'
      have e2 : VectorN.write (z.set NB (-z[i])) i 0 = some ((z.set NB (-z[i])).set i 0) :=
        if_pos (by rw [List.length_set]; exact hi')
      rw [e1, Option.some_bind, e2, Option.some_bind]
      obtain ⟨z', hz', hl, hj⟩ := ih (i + 1) ((z.set NB (-z[i])).set i 0)
        (by rw [List.length_set, List.length_set]; omega)
        (Or.inr (by rw [List.length_set, List.length_set]; exact hNB'))
      refine ⟨z', hz', ?_, ?_⟩
      · rw [hl, List.length_set, List.length_set]
      · intro j hji hjn
        rw [hj j (by omega) hjn, List.getElem?_set_ne (by omega),
          List.getElem?_set_ne (fun h => hjn h.symm)]
    · rw [if_neg hneg]
      obtain ⟨z', hz', hl, hj⟩ := ih (i + 1) z (by omega) (Or.inr hNB')
      exact ⟨z', hz', hl, fun j hji hjn => hj j (by omega) hjn⟩

theorem add_sub_vec_some (v z : VectorN) (a b : Nat) (h1 : a ≤ b) (h2 : b ≤ z.length)
    (hv : v.length = b - a) :
    add_sub_vec v z a b = some (List.zipWith (· + ·) v (segment z a b)) := by
  unfold add_sub_vec VectorN.get_sub_vec
  rw [if_pos ⟨h1, h2⟩, Option.some_bind]
  unfold VectorN.add
  rw [if_pos (by rw [segment_length z a b h2, hv])]

theorem stacked_beta_c_some (junk : Nat → Real) (d : EventProblemData) (z : VectorN)
    (hc : d.consistent) (hz : z.length = d.N_VARS) :
    d.stacked_beta_c junk z = some (segment z d.BETAU_C_IDX d.ALPHA_L_IDX,
      List.zipWith (· - ·) (segment z d.BETA_C_IDX d.NBETA_C_IDX)
          (segment z d.NBETA_C_IDX d.BETAU_C_IDX)
        ++ segment z d.BETAU_C_IDX d.ALPHA_L_IDX) := by
  have ho := hc.ordered
  have h2 := ho.h2
  have h3 := ho.h3
  have h4 := ho.h4
  have h5 := ho.h5
  have h6 := ho.h6
  have h7 := ho.h7
  have h8 := ho.h8
  have hb := hc.bounded
  have hcm := hc.companion
  have hu := hc.unbounded
  have l6 := segment_length z d.BETA_C_IDX d.NBETA_C_IDX (by omega)
  have l7 := segment_length z d.NBETA_C_IDX d.BETAU_C_IDX (by omega)
  have l10 := segment_length z d.BETAU_C_IDX d.ALPHA_L_IDX (by omega)
  have l8 : (List.zipWith (· - ·) (segment z d.BETA_C_IDX d.NBETA_C_IDX)
      (segment z d.NBETA_C_IDX d.BETAU_C_IDX)).length = d.N_LIN_CONE * 2 := by
    rw [List.length_zipWith, l6, l7]; omega
  have lr : (VectorN.resize junk (d.N_LIN_CONE * 2 + d.N_TRUE_CONE)).length
      = d.N_LIN_CONE * 2 + d.N_TRUE_CONE := by
    unfold VectorN.resize
    rw [List.length_map, List.length_range]
  unfold EventProblemData.stacked_beta_c VectorN.get_sub_vec
  rw [if_pos ⟨h2, by omega⟩, Option.some_bind, if_pos ⟨h3, by omega⟩, Option.some_bind]
  unfold VectorN.sub
  rw [if_pos (by rw [l6, l7]; omega), Option.some_bind]
  unfold VectorN.set_sub_vec
  rw [if_pos (by rw [l8, lr]; omega), Option.some_bind, if_pos ⟨h4, by omega⟩, Option.some_bind]
  simp only [List.take_zero, List.nil_append, Nat.zero_add]
  rw [if_pos (by rw [List.length_append, l8, List.length_drop, lr, l10]; omega),
    Option.some_bind, List.take_left' l8,
    List.drop_eq_nil_of_le (by rw [List.length_append, l8, List.length_drop, lr, l10]; omega),
    List.append_nil]

theorem friction_data_consistent (N_LIN_CONE N_TRUE_CONE : Nat) (beta_c : VectorN)
    (h : beta_c.length = 2 * N_LIN_CONE + N_TRUE_CONE) :
    (friction_data N_LIN_CONE N_TRUE_CONE beta_c).consistent := by
  refine ⟨⟨?_, ?_, ?_, ?_, ?_, ?_, ?_, ?_, ?_, ?_, ?_, ?_, ?_⟩, ?_, ?_, ?_, ?_⟩ <;>
    simp only [friction_data, EventProblemData.empty, EventProblemData.reset,
      List.length_nil] <;>
    omega

/-- C16 fails on the code: with one contact with a linearized cone and the
bounded friction impulses `beta_c = [1, -2]`, packed into the zero vector of
length 4, the negated magnitude 2 of `beta_c[1]` is stored in the slot
`NBETA_C_IDX = 2` and not in the companion slot `NBETA_C_IDX + 1 = 3`, which
stays 0: the loop writes `z[NBETA_C_IDX]`, its variable `j` is never read. -/
theorem to_stacked_companion_slot :
    (friction_data 1 0 [1, -2]).consistent
    ∧ (EventProblemData.to_stacked (friction_data 1 0 [1, -2]) [0, 0, 0, 0]).map (fun r => r.2)
      = some [1, 0, 2, 0] := by
  refine ⟨friction_data_consistent 1 0 [1, -2] rfl, ?_⟩
  norm_num [EventProblemData.to_stacked, friction_data, EventProblemData.empty,
    EventProblemData.reset, VectorN.set_sub_vec, split_negative, VectorN.write]

/-- C17 fails on the code: with one contact with a linearized cone, one with a
true cone and `beta_c = [1, 2, 3]`, packed into the zero vector of length 5,
the unbounded friction impulse `beta_c[2] = 3` is stored at index
`NBETA_C_IDX = 2` and the slot `BETAU_C_IDX = 4` of the unbounded segment stays
0: `beta_c` is written as one block from `BETA_C_IDX` on. -/
theorem to_stacked_unbounded_slot :
    (friction_data 1 1 [1, 2, 3]).consistent
    ∧ (friction_data 1 1 [1, 2, 3]).BETAU_C_IDX = 4
    ∧ (EventProblemData.to_stacked (friction_data 1 1 [1, 2, 3]) [0, 0, 0, 0, 0]).map
        (fun r => r.2) = some [1, 2, 3, 0, 0] := by
  refine ⟨friction_data_consistent 1 1 [1, 2, 3] rfl, rfl, ?_⟩
  norm_num [EventProblemData.to_stacked, friction_data, EventProblemData.empty,
    EventProblemData.reset, VectorN.set_sub_vec, split_negative, VectorN.write]

/-- C18, amended. With the index fields in layout order, the segments of the sizes of
the named vectors, `z` of length `N_VARS`, and room for `beta_c` and for the
slot `NBETA_C_IDX` that the loop writes, `to_stacked` returns; the data are
returned as they were, and the segments of `alpha_c`, `alpha_l`, `beta_t`,
`alpha_x` and `beta_x` of the stacked vector hold exactly these vectors. -/
theorem to_stacked_segments (d : EventProblemData) (z : VectorN) (ho : d.ordered)
    (hz : z.length = d.N_VARS)
    (hb : d.BETA_C_IDX + d.beta_c.length ≤ d.N_VARS)
    (hn : d.NBETA_C_IDX = d.BETA_C_IDX ∨ d.NBETA_C_IDX < d.N_VARS) :
    ∃ z' : VectorN, d.to_stacked z = some (d, z')
      ∧ z'.length = d.N_VARS
      ∧ segment z' d.ALPHA_C_IDX d.BETA_C_IDX = d.alpha_c
      ∧ segment z' d.ALPHA_L_IDX d.BETA_T_IDX = d.alpha_l
      ∧ segment z' d.BETA_T_IDX d.ALPHA_X_IDX = d.beta_t
      ∧ segment z' d.ALPHA_X_IDX d.BETA_X_IDX = d.alpha_x
      ∧ segment z' d.BETA_X_IDX d.N_VARS = d.beta_x := by
  have h1 := ho.h1
  have h2 := ho.h2
  have h3 := ho.h3
  have h4 := ho.h4
  have h5 := ho.h5
  have h6 := ho.h6
  have h7 := ho.h7
  have h8 := ho.h8
  have s1 := ho.alpha_c_size
  have s4 := ho.alpha_l_size
  have s5 := ho.beta_t_size
  have s6 := ho.alpha_x_size
  have s7 := ho.beta_x_size
  obtain ⟨z1, e1, l1, b1, m1⟩ := set_sub_vec_spec z d.alpha_c d.ALPHA_C_IDX (by omega)
  obtain ⟨z2, e2, l2, b2, m2⟩ := set_sub_vec_spec z1 d.beta_c d.BETA_C_IDX (by omega)
  obtain ⟨z3, e3, l3, b3⟩ := split_negative_spec d.NBETA_C_IDX
    (d.NBETA_C_IDX - d.BETA_C_IDX) d.BETA_C_IDX z2 (by omega) (by omega)
  obtain ⟨z4, e4, l4, b4, m4⟩ := set_sub_vec_spec z3 d.alpha_l d.ALPHA_L_IDX (by omega)
  obtain ⟨z5, e5, l5, b5, m5⟩ := set_sub_vec_spec z4 d.beta_t d.BETA_T_IDX (by omega)
  obtain ⟨z6, e6, l6, b6, m6⟩ := set_sub_vec_spec z5 d.alpha_x d.ALPHA_X_IDX (by omega)
  obtain ⟨z7, e7, l7, b7, m7⟩ := set_sub_vec_spec z6 d.beta_x d.BETA_X_IDX (by omega)
  refine ⟨z7, ?_, by omega, ?_, ?_, ?_, ?_, ?_⟩
  · unfold EventProblemData.to_stacked
    rw [e1, Option.some_bind, e2, Option.some_bind, e3, Option.some_bind, e4, Option.some_bind,
      e5, Option.some_bind, e6, Option.some_bind, e7, Option.some_bind]
  · refine segment_eq z7 d.alpha_c _ _ s1 (fun i hi => ?_)
    rw [b7 _ (by omega), b6 _ (by omega), b5 _ (by omega), b4 _ (by omega),
      b3 _ (by omega) (by omega), b2 _ (by omega), m1 i hi]
  · refine segment_eq z7 d.alpha_l _ _ s4 (fun i hi => ?_)
    rw [b7 _ (by omega), b6 _ (by omega), b5 _ (by omega), m4 i hi]
  · refine segment_eq z7 d.beta_t _ _ s5 (fun i hi => ?_)
    rw [b7 _ (by omega), b6 _ (by omega), m5 i hi]
  · refine segment_eq z7 d.alpha_x _ _ s6 (fun i hi => ?_)
    rw [b7 _ (by omega), m6 i hi]
  · exact segment_eq z7 d.beta_x _ _ s7 (fun i hi => m7 i hi)

/-- Counterexample to C18: the index fields are in layout order (all 0) and
the five segments have the sizes of their vectors (all empty), but `beta_c` has
one entry and `z` has length `N_VARS = 0`: the write of `beta_c` at
`BETA_C_IDX` falls outside `z`, and the call gives no stacked vector. Likewise
with the indices in layout order, `beta_c = [-1]` inside `z = [0]` and
`NBETA_C_IDX = N_VARS = 1`: the loop writes `z[NBETA_C_IDX]`, outside `z`. -/
theorem to_stacked_overlong_beta_c :
    (friction_data 0 0 [1]).ordered
    ∧ ([] : VectorN).length = (friction_data 0 0 [1]).N_VARS
    ∧ (friction_data 0 0 [1]).to_stacked [] = none
    ∧ unpaired_data.ordered
    ∧ ([0] : VectorN).length = unpaired_data.N_VARS
    ∧ unpaired_data.BETA_C_IDX + unpaired_data.beta_c.length ≤ unpaired_data.N_VARS
    ∧ unpaired_data.to_stacked [0] = none := by
  refine ⟨?_, rfl, rfl, ?_, rfl, by decide, ?_⟩
  · refine ⟨?_, ?_, ?_, ?_, ?_, ?_, ?_, ?_, ?_, ?_, ?_, ?_, ?_⟩ <;> decide
  · refine ⟨?_, ?_, ?_, ?_, ?_, ?_, ?_, ?_, ?_, ?_, ?_, ?_, ?_⟩ <;> decide
  · norm_num [EventProblemData.to_stacked, unpaired_data, EventProblemData.empty,
      EventProblemData.reset, VectorN.set_sub_vec, split_negative, VectorN.write]

theorem layout_data_ordered : layout_data.ordered :=
  ⟨by decide, by decide, by decide, by decide, by decide, by decide, by decide, by decide,
   by decide, by decide, by decide, by decide, by decide⟩

theorem to_stacked_segments_witness :
    layout_data.ordered
    ∧ ∃ z' : VectorN,
      layout_data.to_stacked [0, 0, 0, 0, 0, 0, 0, 0, 0, 0, 0] = some (layout_data, z')
      ∧ z'.length = 11
      ∧ segment z' 0 2 = [1, 2]
      ∧ segment z' 7 8 = [6]
      ∧ segment z' 8 9 = [7]
      ∧ segment z' 9 10 = [8]
      ∧ segment z' 10 11 = [9] :=
  ⟨layout_data_ordered,
   to_stacked_segments layout_data [0, 0, 0, 0, 0, 0, 0, 0, 0, 0, 0] layout_data_ordered rfl
     (by decide) (Or.inr (by decide))⟩

/-- C19. With a consistent index layout and `z` of length `N_VARS`,
`update_from_stacked` returns the data with each of `alpha_c`, `alpha_l`,
`beta_t`, `alpha_x`, `beta_x` increased entry by entry by its segment of `z`
(of the same size), `beta_c` increased by the difference of the bounded segment
and its companion followed by the unbounded segment, and every count and index
field as it was (only the work vectors change besides). -/
theorem update_from_stacked_adds (junk : Nat → Real) (d : EventProblemData) (z : VectorN)
    (hc : d.consistent) (hz : z.length = d.N_VARS) :
    d.update_from_stacked junk z = some { d with
        alpha_c := List.zipWith (· + ·) d.alpha_c (segment z d.ALPHA_C_IDX d.BETA_C_IDX),
        alpha_l := List.zipWith (· + ·) d.alpha_l (segment z d.ALPHA_L_IDX d.BETA_T_IDX),
        beta_t := List.zipWith (· + ·) d.beta_t (segment z d.BETA_T_IDX d.ALPHA_X_IDX),
        alpha_x := List.zipWith (· + ·) d.alpha_x (segment z d.ALPHA_X_IDX d.BETA_X_IDX),
        beta_x := List.zipWith (· + ·) d.beta_x (segment z d.BETA_X_IDX d.N_VARS),
        beta_c := List.zipWith (· + ·) d.beta_c
          (List.zipWith (· - ·) (segment z d.BETA_C_IDX d.NBETA_C_IDX)
              (segment z d.NBETA_C_IDX d.BETAU_C_IDX)
            ++ segment z d.BETAU_C_IDX d.ALPHA_L_IDX),
        workv := segment z d.BETAU_C_IDX d.ALPHA_L_IDX,
        workv2 := List.zipWith (· - ·) (segment z d.BETA_C_IDX d.NBETA_C_IDX)
              (segment z d.NBETA_C_IDX d.BETAU_C_IDX)
            ++ segment z d.BETAU_C_IDX d.ALPHA_L_IDX }
    ∧ (segment z d.ALPHA_C_IDX d.BETA_C_IDX).length = d.alpha_c.length
    ∧ (segment z d.ALPHA_L_IDX d.BETA_T_IDX).length = d.alpha_l.length
    ∧ (segment z d.BETA_T_IDX d.ALPHA_X_IDX).length = d.beta_t.length
    ∧ (segment z d.ALPHA_X_IDX d.BETA_X_IDX).length = d.alpha_x.length
    ∧ (segment z d.BETA_X_IDX d.N_VARS).length = d.beta_x.length
    ∧ (List.zipWith (· - ·) (segment z d.BETA_C_IDX d.NBETA_C_IDX)
              (segment z d.NBETA_C_IDX d.BETAU_C_IDX)
            ++ segment z d.BETAU_C_IDX d.ALPHA_L_IDX).length = d.beta_c.length := by
  have ho := hc.ordered
  have h1 := ho.h1
  have h2 := ho.h2
  have h3 := ho.h3
  have h4 := ho.h4
  have h5 := ho.h5
  have h6 := ho.h6
  have h7 := ho.h7
  have h8 := ho.h8
  have hb := hc.bounded
  have hcm := hc.companion
  have hu := hc.unbounded
  have hbs := hc.beta_c_size
  have l6 := segment_length z d.BETA_C_IDX d.NBETA_C_IDX (by omega)
  have l7 := segment_length z d.NBETA_C_IDX d.BETAU_C_IDX (by omega)
  have l10 := segment_length z d.BETAU_C_IDX d.ALPHA_L_IDX (by omega)
  have lw : (List.zipWith (· - ·) (segment z d.BETA_C_IDX d.NBETA_C_IDX)
              (segment z d.NBETA_C_IDX d.BETAU_C_IDX)
            ++ segment z d.BETAU_C_IDX d.ALPHA_L_IDX).length = d.beta_c.length := by
    rw [List.length_append, List.length_zipWith, l6, l7, l10]; omega
  refine ⟨?_, ?_, ?_, ?_, ?_, ?_, lw⟩
  · unfold EventProblemData.update_from_stacked
    rw [add_sub_vec_some _ z _ _ h1 (by omega) ho.alpha_c_size, Option.some_bind,
      add_sub_vec_some _ z _ _ h5 (by omega) ho.alpha_l_size, Option.some_bind,
      add_sub_vec_some _ z _ _ h6 (by omega) ho.beta_t_size, Option.some_bind,
      add_sub_vec_some _ z _ _ h7 (by omega) ho.alpha_x_size, Option.some_bind,
      add_sub_vec_some _ z _ _ h8 (by omega) ho.beta_x_size, Option.some_bind,
      stacked_beta_c_some junk d z hc hz, Option.some_bind]
    unfold VectorN.add
    rw [if_pos lw.symm, Option.some_bind]
  · rw [segment_length z _ _ (by omega), ho.alpha_c_size]
  · rw [segment_length z _ _ (by omega), ho.alpha_l_size]
  · rw [segment_length z _ _ (by omega), ho.beta_t_size]
  · rw [segment_length z _ _ (by omega), ho.alpha_x_size]
  · rw [segment_length z _ _ (by omega), ho.beta_x_size]

theorem update_from_stacked_adds_witness :
    (friction_data 1 1 [1, 2, 3]).consistent
    ∧ ((friction_data 1 1 [1, 2, 3]).update_from_stacked (fun _ => 0) [5, 6, 1, 2, 7]).map
        (fun d => d.beta_c) = some [1 + (5 - 1), 2 + (6 - 2), 3 + 7] := by
  refine ⟨friction_data_consistent 1 1 [1, 2, 3] rfl, ?_⟩
  rw [(update_from_stacked_adds (fun _ => 0) (friction_data 1 1 [1, 2, 3]) [5, 6, 1, 2, 7]
    (friction_data_consistent 1 1 [1, 2, 3] rfl) rfl).1]
  rfl

/-- C20 fails on the code: the friction impulses `beta_c = [1, -2]` of one
contact with a linearized cone, packed by `to_stacked` into the zero vector of
length 4 and unpacked by `update_from_stacked` into the zeroed data, come back
as `[-1, 0]`: the packing stores the magnitude of `beta_c[1]` in the companion
slot of `beta_c[0]`. -/
theorem to_stacked_update_from_stacked_round_trip :
    (friction_data 1 0 [1, -2]).consistent
    ∧ ((EventProblemData.to_stacked (friction_data 1 0 [1, -2]) [0, 0, 0, 0]).bind fun r =>
        EventProblemData.update_from_stacked (fun _ => 0) { r.1 with beta_c := [0, 0] } r.2).map
        (fun d => d.beta_c) = some [-1, 0] := by
  refine ⟨friction_data_consistent 1 0 [1, -2] rfl, ?_⟩
  norm_num [EventProblemData.to_stacked, friction_data, EventProblemData.empty,
    EventProblemData.reset, VectorN.set_sub_vec, split_negative, VectorN.write,
    EventProblemData.update_from_stacked, EventProblemData.stacked_beta_c, add_sub_vec,
    VectorN.get_sub_vec, VectorN.add, VectorN.sub, VectorN.resize, segment, List.range_succ]

/-! ## Resetting the event problem data -/

/-- C21. After `reset()` every count, every index field and `N_VARS` is 0,
`use_kappa` is false, `kappa` is 0, and every event list, the super-body list,
the working set, every vector and every matrix member is empty, whatever the
data before; the constructed data are in this state (the constructor calls
`reset`), and `reset` is idempotent. (The private work vectors are left as
they are.) -/
theorem reset_clears (d : EventProblemData) :
    (d.reset.N_K_TOTAL = 0 ∧ d.reset.N_LIN_CONE = 0 ∧ d.reset.N_TRUE_CONE = 0
      ∧ d.reset.N_LOOPS = 0 ∧ d.reset.N_CONTACTS = 0 ∧ d.reset.N_LIMITS = 0
      ∧ d.reset.N_CONSTRAINTS = 0 ∧ d.reset.N_CONSTRAINT_DOF_EXP = 0
      ∧ d.reset.N_CONSTRAINT_EQNS_EXP = 0 ∧ d.reset.N_CONSTRAINT_DOF_IMP = 0)
    ∧ (d.reset.ALPHA_C_IDX = 0 ∧ d.reset.BETA_C_IDX = 0 ∧ d.reset.NBETA_C_IDX = 0
      ∧ d.reset.BETAU_C_IDX = 0 ∧ d.reset.ALPHA_L_IDX = 0 ∧ d.reset.BETA_T_IDX = 0
      ∧ d.reset.ALPHA_X_IDX = 0 ∧ d.reset.BETA_X_IDX = 0 ∧ d.reset.N_VARS = 0)
    ∧ (d.reset.use_kappa = false ∧ d.reset.kappa = 0)
    ∧ (d.reset.contact_events = [] ∧ d.reset.limit_events = []
      ∧ d.reset.constraint_events = [] ∧ d.reset.super_bodies = []
      ∧ d.reset.contact_working_set = [])
    ∧ (d.reset.Jc_v = [] ∧ d.reset.Dc_v = [] ∧ d.reset.Jl_v = [] ∧ d.reset.Jx_v = []
      ∧ d.reset.Dx_v = [] ∧ d.reset.alpha_c = [] ∧ d.reset.beta_c = []
      ∧ d.reset.alpha_l = [] ∧ d.reset.beta_t = [] ∧ d.reset.alpha_x = []
      ∧ d.reset.beta_x = [])
    ∧ (d.reset.Jc_iM_JcT = ⟨0, 0, []⟩ ∧ d.reset.Jc_iM_DcT = ⟨0, 0, []⟩
      ∧ d.reset.Jc_iM_JlT = ⟨0, 0, []⟩ ∧ d.reset.Jc_iM_DtT = ⟨0, 0, []⟩
      ∧ d.reset.Jc_iM_JxT = ⟨0, 0, []⟩ ∧ d.reset.Jc_iM_DxT = ⟨0, 0, []⟩
      ∧ d.reset.Dc_iM_DcT = ⟨0, 0, []⟩ ∧ d.reset.Dc_iM_JlT = ⟨0, 0, []⟩
      ∧ d.reset.Dc_iM_DtT = ⟨0, 0, []⟩ ∧ d.reset.Dc_iM_JxT = ⟨0, 0, []⟩
      ∧ d.reset.Dc_iM_DxT = ⟨0, 0, []⟩ ∧ d.reset.Jl_iM_JlT = ⟨0, 0, []⟩
      ∧ d.reset.Jl_iM_DtT = ⟨0, 0, []⟩ ∧ d.reset.Jl_iM_JxT = ⟨0, 0, []⟩
      ∧ d.reset.Jl_iM_DxT = ⟨0, 0, []⟩ ∧ d.reset.Dt_iM_DtT = ⟨0, 0, []⟩
      ∧ d.reset.Dt_iM_JxT = ⟨0, 0, []⟩ ∧ d.reset.Dt_iM_DxT = ⟨0, 0, []⟩
      ∧ d.reset.Jx_iM_JxT = ⟨0, 0, []⟩ ∧ d.reset.Jx_iM_DxT = ⟨0, 0, []⟩
      ∧ d.reset.Dx_iM_DxT = ⟨0, 0, []⟩)
    ∧ d.reset.reset = d.reset
    ∧ EventProblemData.empty = EventProblemData.empty.reset :=
  ⟨⟨rfl, rfl, rfl, rfl, rfl, rfl, rfl, rfl, rfl, rfl⟩,
   ⟨rfl, rfl, rfl, rfl, rfl, rfl, rfl, rfl, rfl⟩,
   ⟨rfl, rfl⟩,
   ⟨rfl, rfl, rfl, rfl, rfl⟩,
   ⟨rfl, rfl, rfl, rfl, rfl, rfl, rfl, rfl, rfl, rfl, rfl⟩,
   ⟨rfl, rfl, rfl, rfl, rfl, rfl, rfl, rfl, rfl, rfl, rfl, rfl, rfl, rfl, rfl, rfl, rfl, rfl,
    rfl, rfl, rfl⟩,
   rfl, rfl⟩

/-! ## Event velocity, class and tolerance -/

theorem calc_event_vel_contact_eq (B : Bodies) (e : Event) (g1 g2 : CollisionGeometry)
    (sb1 sb2 : SingleBodyPtr) (ht : e.event_type = EventType.eContact)
    (h1 : e.contact_geom1 = some g1) (h2 : e.contact_geom2 = some g2)
    (hs1 : g1.get_single_body = some sb1) (hs2 : g2.get_single_body = some sb2) :
    e.calc_event_vel B = some (B.calc_point_vel sb1 e.contact_point e.contact_normal
      - B.calc_point_vel sb2 e.contact_point e.contact_normal) := by
  unfold Event.calc_event_vel
  rw [ht]
  simp only [h1, h2, hs1, hs2]

/-- C22. For a Contact event whose two geometries and their two bodies are
set, `calc_event_vel` returns the point velocity of the first body at the
contact point along the contact normal minus that of the second body. -/
theorem calc_event_vel_contact (B : Bodies) (e : Event) (g1 g2 : CollisionGeometry)
    (sb1 sb2 : SingleBodyPtr) (ht : e.event_type = EventType.eContact)
    (h1 : e.contact_geom1 = some g1) (h2 : e.contact_geom2 = some g2)
    (hs1 : g1.get_single_body = some sb1) (hs2 : g2.get_single_body = some sb2) :
    e.calc_event_vel B = some (B.calc_point_vel sb1 e.contact_point e.contact_normal
      - B.calc_point_vel sb2 e.contact_point e.contact_normal) :=
  calc_event_vel_contact_eq B e g1 g2 sb1 sb2 ht h1 h2 hs1 hs2

theorem calc_event_vel_contact_witness :
    (contact_event 1 2).calc_event_vel (free_bodies [] (fun b => if b = 1 then 3 else 5))
      = some ((free_bodies [] (fun b => if b = 1 then 3 else 5)).calc_point_vel 1
          (contact_event 1 2).contact_point (contact_event 1 2).contact_normal
        - (free_bodies [] (fun b => if b = 1 then 3 else 5)).calc_point_vel 2
          (contact_event 1 2).contact_point (contact_event 1 2).contact_normal) :=
  calc_event_vel_contact _ (contact_event 1 2) ⟨some 1⟩ ⟨some 2⟩ 1 2 rfl rfl rfl rfl rfl

/-- C23. For a Limit event on the degree of freedom `limit_dof` of its joint,
with joint velocity `qd`, `calc_event_vel` returns `qd` when `limit_upper` is
false and `-qd` when it is true; hence a limit event on the same joint and
degree of freedom with the other value of `limit_upper` has exactly the
opposite event velocity. -/
theorem calc_event_vel_limit (B : Bodies) (e : Event) (j : Joint) (qd : Real)
    (ht : e.event_type = EventType.eLimit) (hj : e.limit_joint = some j)
    (hq : j.qd[e.limit_dof]? = some qd) :
    e.calc_event_vel B = some (if e.limit_upper then -qd else qd)
    ∧ ∀ e2 : Event, e2.event_type = EventType.eLimit → e2.limit_joint = some j →
        e2.limit_dof = e.limit_dof → e2.limit_upper = !e.limit_upper →
        ∃ v : Real, e.calc_event_vel B = some v ∧ e2.calc_event_vel B = some (-v) := by
  have h : ∀ e : Event, e.event_type = EventType.eLimit → e.limit_joint = some j →
      j.qd[e.limit_dof]? = some qd →
      e.calc_event_vel B = some (if e.limit_upper then -qd else qd) := by
    intro e ht hj hq
    unfold Event.calc_event_vel
    rw [ht]
    simp only [hj, hq]
  refine ⟨h e ht hj hq, ?_⟩
  intro e2 ht2 hj2 hd hu
  refine ⟨_, h e ht hj hq, ?_⟩
  rw [h e2 ht2 hj2 (by rw [hd]; exact hq), hu]
  cases e.limit_upper <;> simp

theorem calc_event_vel_limit_witness :
    (limit_event 1 2 3).calc_event_vel (free_bodies [] (fun _ => 0))
      = some (if (limit_event 1 2 3).limit_upper then -3 else 3)
    ∧ ∃ v : Real, (limit_event 1 2 3).calc_event_vel (free_bodies [] (fun _ => 0)) = some v
      ∧ ({ limit_event 1 2 3 with limit_upper := true } : Event).calc_event_vel
          (free_bodies [] (fun _ => 0)) = some (-v) :=
  ⟨(calc_event_vel_limit (free_bodies [] (fun _ => 0)) (limit_event 1 2 3)
      ⟨1, 2, [3]⟩ 3 rfl rfl rfl).1,
   (calc_event_vel_limit (free_bodies [] (fun _ => 0)) (limit_event 1 2 3)
      ⟨1, 2, [3]⟩ 3 rfl rfl rfl).2 { limit_event 1 2 3 with limit_upper := true }
      rfl rfl rfl rfl⟩

/-- C24. For an event with `tol ≥ 0` and event velocity `vel`,
`determine_event_class` returns Separating iff `vel > tol`, Impacting iff
`vel < -tol`, and Resting otherwise; the threshold is the field `tol` of the
event (the function has no other input than the event and the body
velocities). In particular a contact with the default tolerance and unit
normal `(0, 0, 1)` between two bodies at rest is Resting. -/
theorem determine_event_class_thresholds (B : Bodies) (e : Event) (vel : Real)
    (htol : 0 ≤ e.tol) (hv : e.calc_event_vel B = some vel) :
    (e.determine_event_class B = some EventClass.eSeparating ↔ vel > e.tol)
    ∧ (e.determine_event_class B = some EventClass.eImpacting ↔ vel < -e.tol)
    ∧ (e.determine_event_class B = some EventClass.eResting ↔ ¬ vel > e.tol ∧ ¬ vel < -e.tol)
    ∧ (default_contact 1 2).determine_event_class (free_bodies [] (fun _ => 0))
        = some EventClass.eResting := by
  have hc : e.determine_event_class B = some (if vel > e.tol then EventClass.eSeparating
      else if vel < -e.tol then EventClass.eImpacting else EventClass.eResting) := by
    unfold Event.determine_event_class
    rw [hv]
  refine ⟨?_, ?_, ?_, ?_⟩
  · rw [hc]
    by_cases h1 : vel > e.tol
    · simp [h1]
    · by_cases h2 : vel < -e.tol
      · simp [h1, h2]
      · simp [h1, h2]
  · rw [hc]
    by_cases h1 : vel > e.tol
    · have h2 : ¬ vel < -e.tol := by
        intro h2
        have : vel < vel := lt_trans (lt_of_lt_of_le h2 (neg_nonpos.2 htol)) (lt_of_le_of_lt htol h1)
        exact lt_irrefl _ this
      simp [h1, h2]
    · by_cases h2 : vel < -e.tol
      · simp [h1, h2]
      · simp [h1, h2]
  · rw [hc]
    by_cases h1 : vel > e.tol
    · simp [h1]
    · by_cases h2 : vel < -e.tol
      · simp [h1, h2]
      · simp [h1, h2]
  · norm_num [Event.determine_event_class, Event.calc_event_vel, default_contact, Event.new,
      free_bodies, NEAR_ZERO]

theorem determine_event_class_thresholds_witness :
    0 ≤ (default_contact 1 2).tol
    ∧ (default_contact 1 2).calc_event_vel (free_bodies [] (fun _ => 0)) = some 0
    ∧ ((default_contact 1 2).determine_event_class (free_bodies [] (fun _ => 0))
        = some EventClass.eResting
      ↔ ¬ (0 : Real) > (default_contact 1 2).tol ∧ ¬ (0 : Real) < -(default_contact 1 2).tol) :=
  ⟨by norm_num [default_contact, Event.new, NEAR_ZERO],
   by simp [Event.calc_event_vel, default_contact, Event.new, free_bodies],
   (determine_event_class_thresholds (free_bodies [] (fun _ => 0)) (default_contact 1 2) 0
      (by norm_num [default_contact, Event.new, NEAR_ZERO])
      (by simp [Event.calc_event_vel, default_contact, Event.new, free_bodies])).2.2.1⟩

/-- Counterexample to C25: with the first body 1 at rest and the second body 2
moving with point velocity `-1` along the normal, the event velocity of the
contact with default tolerance is `0 - (-1) = 1` and the contact is
Separating. -/
theorem calc_event_vel_second_body_moving :
    (default_contact 1 2).calc_event_vel (free_bodies [] (fun b => if b = 2 then -1 else 0))
      = some 1
    ∧ (default_contact 1 2).determine_event_class
        (free_bodies [] (fun b => if b = 2 then -1 else 0)) = some EventClass.eSeparating := by
  constructor
  · norm_num [Event.calc_event_vel, default_contact, Event.new, free_bodies]
  · norm_num [Event.determine_event_class, Event.calc_event_vel, default_contact, Event.new,
      free_bodies, NEAR_ZERO]

/-- C25, amended. For a Contact event between the first body `sb1` and the
second body `sb2` with a tolerance in `[0, 1)` (such as the default one): if
`sb1` is at rest and `sb2` has point velocity `-1` along the normal at the
contact point, `calc_event_vel` returns `1` and the class is Separating; if
`sb1` has point velocity `-1` and `sb2` is at rest, `calc_event_vel` returns
`-1` and the class is Impacting. -/
theorem calc_event_vel_unit_approach (B : Bodies) (e : Event) (g1 g2 : CollisionGeometry)
    (sb1 sb2 : SingleBodyPtr) (ht : e.event_type = EventType.eContact)
    (h1 : e.contact_geom1 = some g1) (h2 : e.contact_geom2 = some g2)
    (hs1 : g1.get_single_body = some sb1) (hs2 : g2.get_single_body = some sb2)
    (htol0 : 0 ≤ e.tol) (htol1 : e.tol < 1) :
    (B.calc_point_vel sb1 e.contact_point e.contact_normal = 0 →
      B.calc_point_vel sb2 e.contact_point e.contact_normal = -1 →
      e.calc_event_vel B = some 1
      ∧ e.determine_event_class B = some EventClass.eSeparating)
    ∧ (B.calc_point_vel sb1 e.contact_point e.contact_normal = -1 →
      B.calc_point_vel sb2 e.contact_point e.contact_normal = 0 →
      e.calc_event_vel B = some (-1)
      ∧ e.determine_event_class B = some EventClass.eImpacting) := by
  have hv := calc_event_vel_contact_eq B e g1 g2 sb1 sb2 ht h1 h2 hs1 hs2
  constructor
  · intro ha hb
    rw [ha, hb] at hv
    have hv1 : e.calc_event_vel B = some 1 := by rw [hv]; norm_num
    refine ⟨hv1, ?_⟩
    unfold Event.determine_event_class
    rw [hv1]
    simp only
    rw [if_pos htol1]
  · intro ha hb
    rw [ha, hb] at hv
    have hv1 : e.calc_event_vel B = some (-1) := by rw [hv]; norm_num
    refine ⟨hv1, ?_⟩
    unfold Event.determine_event_class
    rw [hv1]
    simp only
    rw [if_neg (by linarith), if_pos (by linarith)]

theorem calc_event_vel_unit_approach_witness :
    (default_contact 1 2).calc_event_vel (free_bodies [] (fun b => if b = 1 then -1 else 0))
      = some (-1)
    ∧ (default_contact 1 2).determine_event_class
        (free_bodies [] (fun b => if b = 1 then -1 else 0)) = some EventClass.eImpacting :=
  (calc_event_vel_unit_approach (free_bodies [] (fun b => if b = 1 then -1 else 0))
    (default_contact 1 2) ⟨some 1⟩ ⟨some 2⟩ 1 2 rfl rfl rfl rfl rfl
    (by norm_num [default_contact, Event.new, NEAR_ZERO])
    (by norm_num [default_contact, Event.new, NEAR_ZERO])).2
    (by simp [free_bodies]) (by simp [free_bodies])

/-- C26. For a Contact event with its references set `calc_event_tol` returns
the larger of 1 and the length of `(v1 + w1 × r1) - (v2 + w2 × r2)`, where
`vi`, `wi` are the linear and angular velocity of body `i` and `ri` is the
contact point minus the position of body `i`; for a Limit event it returns the
larger of 1 and `|qd[limit_dof]|`; whenever it returns, the value is at least
1. -/
theorem calc_event_tol_value (norm : Vector3 → Real) (K : Motion) (e : Event) :
    (∀ (g1 g2 : CollisionGeometry) (sb1 sb2 : SingleBodyPtr),
      e.event_type = EventType.eContact →
      e.contact_geom1 = some g1 → e.contact_geom2 = some g2 →
      g1.get_single_body = some sb1 → g2.get_single_body = some sb2 →
      e.calc_event_tol norm K = some (max (norm (Vector3.sub
        (Vector3.add (K.get_lvel sb1) (Vector3.cross (K.get_avel sb1)
          (Vector3.sub e.contact_point (K.get_position sb1))))
        (Vector3.add (K.get_lvel sb2) (Vector3.cross (K.get_avel sb2)
          (Vector3.sub e.contact_point (K.get_position sb2)))))) 1))
    ∧ (∀ (j : Joint) (qd : Real), e.event_type = EventType.eLimit →
      e.limit_joint = some j → j.qd[e.limit_dof]? = some qd →
      e.calc_event_tol norm K = some (max 1 |qd|))
    ∧ (∀ r : Real, e.calc_event_tol norm K = some r → 1 ≤ r) := by
  refine ⟨?_, ?_, ?_⟩
  · intro g1 g2 sb1 sb2 ht h1 h2 hs1 hs2
    unfold Event.calc_event_tol
    rw [ht]
    simp only [h1, h2, hs1, hs2]
  · intro j qd ht hj hq
    unfold Event.calc_event_tol
    rw [ht]
    simp only [hj, hq]
  · intro r hr
    unfold Event.calc_event_tol at hr
    split at hr
    · split at hr
      · split at hr
        · injection hr with hr
          rw [← hr]
          exact le_max_right _ _
        · exact absurd hr (by simp)
      · exact absurd hr (by simp)
    · split at hr
      · split at hr
        · injection hr with hr
          rw [← hr]
          exact le_max_left _ _
        · exact absurd hr (by simp)
      · exact absurd hr (by simp)
    · exact absurd hr (by simp)

theorem calc_event_tol_value_witness :
    (contact_event 1 2).calc_event_tol (fun v => |v.x| + |v.y| + |v.z|)
        ⟨fun _ => ZEROS_3, fun b => if b = 1 then ⟨0, 0, 3⟩ else ZEROS_3, fun _ => ZEROS_3⟩
      = some 3
    ∧ (limit_event 1 2 (-5)).calc_event_tol (fun v => |v.x| + |v.y| + |v.z|)
        ⟨fun _ => ZEROS_3, fun _ => ZEROS_3, fun _ => ZEROS_3⟩ = some 5 := by
  constructor
  · rw [(calc_event_tol_value (fun v => |v.x| + |v.y| + |v.z|)
      ⟨fun _ => ZEROS_3, fun b => if b = 1 then ⟨0, 0, 3⟩ else ZEROS_3, fun _ => ZEROS_3⟩
      (contact_event 1 2)).1 ⟨some 1⟩ ⟨some 2⟩ 1 2 rfl rfl rfl rfl rfl]
    norm_num [Vector3.sub, Vector3.add, Vector3.cross, ZEROS_3, contact_event]
  · rw [(calc_event_tol_value (fun v => |v.x| + |v.y| + |v.z|)
      ⟨fun _ => ZEROS_3, fun _ => ZEROS_3, fun _ => ZEROS_3⟩
      (limit_event 1 2 (-5))).2.1 ⟨1, 2, [-5]⟩ (-5) rfl rfl rfl]
    norm_num

theorem calc_fail_of_type (B : Bodies) (norm : Vector3 → Real) (K : Motion) (e : Event)
    (h : e.event_type = EventType.eNone ∨ e.event_type = EventType.eConstraint) :
    e.calc_event_vel B = none ∧ e.determine_event_class B = none
      ∧ e.calc_event_tol norm K = none := by
  have hv : e.calc_event_vel B = none := by
    unfold Event.calc_event_vel
    rcases h with h | h <;> rw [h]
  refine ⟨hv, ?_, ?_⟩
  · unfold Event.determine_event_class
    rw [hv]
  · unfold Event.calc_event_tol
    rcases h with h | h <;> rw [h]

theorem calc_fail_of_unset (B : Bodies) (norm : Vector3 → Real) (K : Motion) (e : Event)
    (ht : e.event_type = EventType.eContact)
    (h : e.contact_geom1 = none ∨ e.contact_geom2 = none
      ∨ (∃ g : CollisionGeometry, e.contact_geom1 = some g ∧ g.get_single_body = none)
      ∨ (∃ g : CollisionGeometry, e.contact_geom2 = some g ∧ g.get_single_body = none)) :
    e.calc_event_vel B = none ∧ e.determine_event_class B = none
      ∧ e.calc_event_tol norm K = none := by
  have hv : e.calc_event_vel B = none := by
    unfold Event.calc_event_vel
    rw [ht]
    simp only
    split
    · split
      · simp_all
      · rfl
    · rfl
  have ht' : e.calc_event_tol norm K = none := by
    unfold Event.calc_event_tol
    rw [ht]
    simp only
    split
    · split
      · simp_all
      · rfl
    · rfl
  refine ⟨hv, ?_, ht'⟩
  unfold Event.determine_event_class
  rw [hv]

/-- Counterexample to C27: a Limit event as constructed by `Event::Event()`
whose joint is set, but whose `limit_dof` is still the constructor's value, is
no degree of freedom of the joint: `calc_event_vel`, `determine_event_class`
and `calc_event_tol` return no value. -/
theorem calc_event_vel_limit_dof_unset :
    (unset_dof_limit 1 2 0).calc_event_vel
      (free_bodies [] (fun _ => 0)) = none
    ∧ (unset_dof_limit 1 2 0).determine_event_class
      (free_bodies [] (fun _ => 0)) = none
    ∧ (unset_dof_limit 1 2 0).calc_event_tol (fun _ => 0)
      ⟨fun _ => ZEROS_3, fun _ => ZEROS_3, fun _ => ZEROS_3⟩ = none := by
  refine ⟨?_, ?_, ?_⟩
  · simp [Event.calc_event_vel, Event.new, unset_dof_limit]
  · simp [Event.determine_event_class, Event.calc_event_vel, Event.new, unset_dof_limit]
  · simp [Event.calc_event_tol, Event.new, unset_dof_limit]

/-- C27, amended. `calc_event_vel`, `determine_event_class` and
`calc_event_tol` return no value for an event of type None or Constraint and
for a Contact event with a geometry or a body of a geometry unset; they return
a value for a Contact event whose geometries and bodies are set and for a Limit
event whose joint is set and whose `limit_dof` is a degree of freedom of the
joint. -/
theorem calc_event_vel_defined (B : Bodies) (norm : Vector3 → Real) (K : Motion) (e : Event) :
    (e.event_type = EventType.eNone ∨ e.event_type = EventType.eConstraint →
      e.calc_event_vel B = none ∧ e.determine_event_class B = none
        ∧ e.calc_event_tol norm K = none)
    ∧ (e.event_type = EventType.eContact →
      (e.contact_geom1 = none ∨ e.contact_geom2 = none
        ∨ (∃ g : CollisionGeometry, e.contact_geom1 = some g ∧ g.get_single_body = none)
        ∨ (∃ g : CollisionGeometry, e.contact_geom2 = some g ∧ g.get_single_body = none)) →
      e.calc_event_vel B = none ∧ e.determine_event_class B = none
        ∧ e.calc_event_tol norm K = none)
    ∧ (∀ (g1 g2 : CollisionGeometry) (sb1 sb2 : SingleBodyPtr),
      e.event_type = EventType.eContact →
      e.contact_geom1 = some g1 → e.contact_geom2 = some g2 →
      g1.get_single_body = some sb1 → g2.get_single_body = some sb2 →
      (e.calc_event_vel B).isSome = true ∧ (e.determine_event_class B).isSome = true
        ∧ (e.calc_event_tol norm K).isSome = true)
    ∧ (∀ j : Joint, e.event_type = EventType.eLimit → e.limit_joint = some j →
      e.limit_dof < j.qd.length →
      (e.calc_event_vel B).isSome = true ∧ (e.determine_event_class B).isSome = true
        ∧ (e.calc_event_tol norm K).isSome = true) := by
  refine ⟨calc_fail_of_type B norm K e, calc_fail_of_unset B norm K e, ?_, ?_⟩
  · intro g1 g2 sb1 sb2 ht h1 h2 hs1 hs2
    have hv := calc_event_vel_contact_eq B e g1 g2 sb1 sb2 ht h1 h2 hs1 hs2
    refine ⟨by rw [hv]; rfl, ?_, ?_⟩
    · unfold Event.determine_event_class
      rw [hv]
      rfl
    · unfold Event.calc_event_tol
      rw [ht]
      simp only [h1, h2, hs1, hs2]
      rfl
  · intro j ht hj hd
    have hq : j.qd[e.limit_dof]? = some (j.qd[e.limit_dof]) := List.getElem?_eq_getElem hd
    have hv : e.calc_event_vel B
        = some (if e.limit_upper then -(j.qd[e.limit_dof]) else j.qd[e.limit_dof]) := by
      unfold Event.calc_event_vel
      rw [ht]
      simp only [hj, hq]
    refine ⟨by rw [hv]; rfl, ?_, ?_⟩
    · unfold Event.determine_event_class
      rw [hv]
      rfl
    · unfold Event.calc_event_tol
      rw [ht]
      simp only [hj, hq]
      rfl

theorem calc_event_vel_defined_witness :
    ((constraint_event 1 2).calc_event_vel (free_bodies [] (fun _ => 0)) = none
      ∧ (constraint_event 1 2).determine_event_class (free_bodies [] (fun _ => 0)) = none
      ∧ (constraint_event 1 2).calc_event_tol (fun _ => 0)
          ⟨fun _ => ZEROS_3, fun _ => ZEROS_3, fun _ => ZEROS_3⟩ = none)
    ∧ (((limit_event 1 2 3).calc_event_vel (free_bodies [] (fun _ => 0))).isSome = true
      ∧ ((limit_event 1 2 3).determine_event_class (free_bodies [] (fun _ => 0))).isSome = true
      ∧ ((limit_event 1 2 3).calc_event_tol (fun _ => 0)
          ⟨fun _ => ZEROS_3, fun _ => ZEROS_3, fun _ => ZEROS_3⟩).isSome = true) :=
  ⟨(calc_event_vel_defined (free_bodies [] (fun _ => 0)) (fun _ => 0)
      ⟨fun _ => ZEROS_3, fun _ => ZEROS_3, fun _ => ZEROS_3⟩ (constraint_event 1 2)).1
      (Or.inr rfl),
   (calc_event_vel_defined (free_bodies [] (fun _ => 0)) (fun _ => 0)
      ⟨fun _ => ZEROS_3, fun _ => ZEROS_3, fun _ => ZEROS_3⟩ (limit_event 1 2 3)).2.2.2
      ⟨1, 2, [3]⟩ rfl rfl (by decide)⟩

/-- C28. After `set_contact_parameters(p)` the four contact parameters of the
event are those of `p`, and every other field (the fields of the record
`Event`: type, tolerance, normal, point, geometries, limit and constraint
references; the times, the limit restitution and the impulses, the tangents) is
as before; the function returns for every `p`. -/
theorem set_contact_parameters_frame (e : FullEvent) (p : ContactParameters) :
    ((e.set_contact_parameters p).contact_mu_coulomb = p.mu_coulomb
      ∧ (e.set_contact_parameters p).contact_mu_viscous = p.mu_viscous
      ∧ (e.set_contact_parameters p).contact_epsilon = p.epsilon
      ∧ (e.set_contact_parameters p).contact_NK = p.NK)
    ∧ (e.set_contact_parameters p).toEvent = e.toEvent
    ∧ ((e.set_contact_parameters p).t_true = e.t_true
      ∧ (e.set_contact_parameters p).t = e.t
      ∧ (e.set_contact_parameters p).limit_epsilon = e.limit_epsilon
      ∧ (e.set_contact_parameters p).limit_impulse = e.limit_impulse
      ∧ (e.set_contact_parameters p).contact_impulse = e.contact_impulse
      ∧ (e.set_contact_parameters p).contact_tan1 = e.contact_tan1
      ∧ (e.set_contact_parameters p).contact_tan2 = e.contact_tan2
      ∧ (e.set_contact_parameters p).constraint_nimpulse = e.constraint_nimpulse
      ∧ (e.set_contact_parameters p).constraint_fimpulse = e.constraint_fimpulse) :=
  ⟨⟨rfl, rfl, rfl, rfl⟩, rfl, ⟨rfl, rfl, rfl, rfl, rfl, rfl, rfl, rfl, rfl⟩⟩

/-! ## The greedy selection of contacts -/

/-- C30 fails on the code: the limit event of the joint between the links 1
and 2 of an arm, both disabled, adds the two links as nodes of the body graph
and is placed in an island; so is the constraint event of that joint. -/
theorem determine_connected_events_disabled_joint :
    Event.node_set (arm_bodies [1, 2]) [limit_event 1 2 0] = [1, 2]
    ∧ Event.determine_connected_events (arm_bodies [1, 2]) [limit_event 1 2 0] = some [[0]]
    ∧ Event.node_set (arm_bodies [1, 2]) [constraint_event 1 2] = [1, 2]
    ∧ Event.determine_connected_events (arm_bodies [1, 2]) [constraint_event 1 2] = some [[0]]
    ∧ (arm_bodies [1, 2]).is_enabled 1 = false
    ∧ (arm_bodies [1, 2]).is_enabled 2 = false := by
  decide

/-! ## The contact Jacobian of a contact within one super body -/

/-- C32 fails on the code: for the contact between the links 1 and 2 of one
arm (super body 7, column block from index 0), where the generalized force of
body 1 is `[1]` and that of body 2 is `[-2]`, the entry of row `ci = 0` of `Jc`
in the block is `-2`, the generalized force of body 2 alone, and not the sum
`-1`: the second `set_sub_mat` overwrites what the first has written. -/
theorem compute_contact_jacobian_same_super :
    (Event.compute_contact_jacobian (arm_bodies []) still axial_dynamics (contact_event 1 2)
        (fun _ _ => 0) (fun _ _ => 0) 0 [(7, 0)]).map (fun r => r.1 0 0) = some (-2)
    ∧ (arm_bodies []).get_articulated_body 1 = some 7
    ∧ (arm_bodies []).get_articulated_body 2 = some 7
    ∧ axial_dynamics.convert_to_generalized_force 7 1 (contact_event 1 2).contact_normal
        (Vector3.cross (Vector3.sub (contact_event 1 2).contact_point (still.get_position 1))
          (contact_event 1 2).contact_normal) = [1]
    ∧ axial_dynamics.convert_to_generalized_force 7 2
        (Vector3.neg (contact_event 1 2).contact_normal)
        (Vector3.cross (Vector3.sub (contact_event 1 2).contact_point (still.get_position 2))
          (Vector3.neg (contact_event 1 2).contact_normal)) = [-2] := by
  refine ⟨?_, by decide, by decide, ?_, ?_⟩
  · norm_num [Event.compute_contact_jacobian, process_body, set_sub_mat_row, set_sub_mat_col,
      contact_event, arm_bodies, axial_dynamics, still, Vector3.neg, List.lookup]
  · norm_num [axial_dynamics, contact_event]
  · norm_num [axial_dynamics, contact_event, Vector3.neg]

/-! ## Redundant contacts -/

theorem redundant_loop_spec (lp_simplex : Nat → List Nat → Nat → Bool) :
    ∀ (fuel calls i : Nat) (nr : List Nat), nr.length ≤ fuel + i →
      ∃ out : List Nat, redundant_loop lp_simplex fuel calls i nr = some out
        ∧ List.Sublist out nr
        ∧ ∀ c : Nat, out.count c < nr.count c →
            ∃ (n : Nat) (rows : List Nat), lp_simplex n rows c = true := by
  intro fuel
  induction fuel with
  | zero =>
    intro calls i nr h
    refine ⟨nr, ?_, List.Sublist.refl nr, fun c hc => absurd hc (lt_irrefl _)⟩
    unfold redundant_loop
    rw [if_neg (by omega)]
  | succ fuel ih =>
    intro calls i nr h
    unfold redundant_loop
    cases hi : nr[i]? with
    | none => exact ⟨nr, rfl, List.Sublist.refl nr, fun c hc => absurd hc (lt_irrefl _)⟩
    | some c0 =>
      have hlt : i < nr.length := by
        by_contra hge
        rw [List.getElem?_eq_none (by omega)] at hi
        exact absurd hi (by simp)
      simp only
      by_cases hlp : lp_simplex calls (nr.eraseIdx i) c0 = true
      · rw [if_pos hlp]
        have hlen : (nr.eraseIdx i).length = nr.length - 1 := List.length_eraseIdx_of_lt hlt
        obtain ⟨out, ho, hs, hc⟩ := ih (calls + 1) i (nr.eraseIdx i) (by omega)
        refine ⟨out, ho, hs.trans (List.eraseIdx_sublist nr i), ?_⟩
        intro c hcount
        by_cases hcc : c = c0
        · exact ⟨calls, nr.eraseIdx i, by rw [hcc]; exact hlp⟩
        · apply hc c
          have he : (nr.eraseIdx i).count c = nr.count c := by
            have hmem : nr[i] = c0 := by
              rw [List.getElem?_eq_getElem hlt] at hi
              exact Option.some.inj hi
            rw [List.eraseIdx_eq_take_drop_succ, List.count_append]
            conv_rhs => rw [← List.take_append_drop i nr, List.count_append,
              List.drop_eq_getElem_cons hlt, List.count_cons, hmem]
            rw [if_neg (by simpa using fun h : c0 = c => hcc h.symm)]
            rfl
          rw [he]
          exact hcount
      · rw [if_neg hlp]
        obtain ⟨out, ho, hs, hc⟩ := ih (calls + 1) (i + 1) nr (by omega)
        exact ⟨out, ho, hs, hc⟩

/-- C33. For every index list and every behaviour of the solver (its answers
may depend on the call, the kept rows and the candidate), the loop of
`redundant_contacts` ends; the indices on return are an order-preserving
sub-list of the input, and an index has fewer occurrences on return than in
the input only if some LP solve for it succeeded: a contact for which the
solver always reports failure stays in `nr_indices`. -/
theorem redundant_contacts_keeps_unsolved (lp_simplex : Nat → List Nat → Nat → Bool)
    (nr_indices : List Nat) :
    ∃ out : List Nat, Event.redundant_contacts lp_simplex nr_indices = some out
      ∧ List.Sublist out nr_indices
      ∧ (∀ c : Nat, out.count c < nr_indices.count c →
          ∃ (n : Nat) (rows : List Nat), lp_simplex n rows c = true)
      ∧ (∀ c ∈ nr_indices, (∀ (n : Nat) (rows : List Nat), lp_simplex n rows c = false) →
          c ∈ out) := by
  obtain ⟨out, ho, hs, hc⟩ :=
    redundant_loop_spec lp_simplex nr_indices.length 0 0 nr_indices (by omega)
  refine ⟨out, ho, hs, hc, ?_⟩
  intro c hmem hfail
  by_contra hout
  have h0 : out.count c = 0 := List.count_eq_zero_of_not_mem hout
  have h1 : 0 < nr_indices.count c := List.count_pos_iff.2 hmem
  obtain ⟨n, rows, h⟩ := hc c (by omega)
  rw [hfail n rows] at h
  exact absurd h (by simp)

theorem redundant_contacts_keeps_unsolved_witness :
    ∃ out : List Nat,
      Event.redundant_contacts (fun _ _ c => c % 2 == 0) [0, 1, 2, 3, 4] = some out ∧ 3 ∈ out :=
  (redundant_contacts_keeps_unsolved (fun _ _ c => c % 2 == 0) [0, 1, 2, 3, 4]).elim
    fun out h => ⟨out, h.1, h.2.2.2 3 (by decide) (fun _ _ => rfl)⟩

/-! ## The positions kept by the removal loop -/

theorem erase_unselected_congr (sel sel' : List Nat) (group : List Event) :
    ∀ ci : Nat, (∀ p : Nat, ci ≤ p → (p ∈ sel ↔ p ∈ sel')) →
      erase_unselected sel ci group = erase_unselected sel' ci group := by
  induction group with
  | nil => intro ci _; rfl
  | cons e es ih =>
    intro ci h
    unfold erase_unselected
    have h1 := ih (ci + 1) (fun p hp => h p (by omega))
    by_cases hc : ci ∈ sel
    · rw [if_pos hc, if_pos ((h ci (le_refl _)).1 hc), h1]
    · rw [if_neg hc, if_neg (fun h' => hc ((h ci (le_refl _)).2 h')), h1]

theorem erase_unselected_positions (group : List Event) :
    ∀ (ci : Nat) (sel : List Nat), sel.Pairwise (· < ·) → (∀ p ∈ sel, ci ≤ p) →
      erase_unselected sel ci group = sel.filterMap (fun p => group[p - ci]?) := by
  induction group with
  | nil =>
    intro ci sel _ _
    unfold erase_unselected
    symm
    rw [List.filterMap_eq_nil_iff]
    intro p _
    rfl
  | cons e es ih =>
    intro ci sel hs hge
    cases sel with
    | nil =>
      unfold erase_unselected
      rw [if_neg (List.not_mem_nil ci), ih (ci + 1) [] List.Pairwise.nil (fun p hp => by simp at hp)]
      rfl
    | cons q qs =>
      have hq := hge q (List.mem_cons_self q qs)
      have hqs : ∀ p ∈ qs, q < p := (List.pairwise_cons.1 hs).1
      have hpw : qs.Pairwise (· < ·) := (List.pairwise_cons.1 hs).2
      have htail : qs.filterMap (fun p => (e :: es)[p - ci]?)
          = qs.filterMap (fun p => es[p - (ci + 1)]?) := by
        apply List.filterMap_congr
        intro p hp
        have := hqs p hp
        have h1 : p - ci = (p - (ci + 1)) + 1 := by omega
        rw [h1, List.getElem?_cons_succ]
      unfold erase_unselected
      by_cases hc : q = ci
      · subst hc
        rw [if_pos (List.mem_cons_self q qs), List.filterMap_cons]
        simp only [Nat.sub_self, List.getElem?_cons_zero]
        rw [htail, ← ih (q + 1) qs hpw (fun p hp => hqs p hp)]
        congr 1
        apply erase_unselected_congr
        intro p hp
        rw [List.mem_cons]
        constructor
        · rintro (h | h)
          · omega
          · exact h
        · intro h; exact Or.inr h
      · have hlt : ci < q := by omega
        have hnot : ci ∉ q :: qs := by
          intro h
          rcases List.mem_cons.1 h with h | h
          · omega
          · have := hqs ci h
            omega
        rw [if_neg hnot, ih (ci + 1) (q :: qs) hs (fun p hp => by
          rcases List.mem_cons.1 hp with h | h
          · omega
          · have := hqs p h
            omega)]
        rw [List.filterMap_cons, List.filterMap_cons, htail]
        have h1 : q - ci = (q - (ci + 1)) + 1 := by omega
        rw [h1, List.getElem?_cons_succ]

theorem select_step_sorted (Jc_iM_JcT : Nat → Nat → Real) (sel : List Nat) (i : Nat)
    (hs : sel.Pairwise (· < ·)) (hlt : ∀ j ∈ sel, j < i) :
    (select_step Jc_iM_JcT sel i).Pairwise (· < ·)
      ∧ (∀ j ∈ select_step Jc_iM_JcT sel i, j < i + 1)
      ∧ ∃ l : List Nat, select_step Jc_iM_JcT sel i = sel ++ l := by
  have happ : (sel ++ [i]).Pairwise (· < ·) := by
    rw [List.pairwise_append]
    refine ⟨hs, List.pairwise_singleton _ _, ?_⟩
    intro a ha b hb
    rw [List.mem_singleton] at hb
    rw [hb]
    exact hlt a ha
  have hlt1 : ∀ j ∈ sel ++ [i], j < i + 1 := by
    intro j hj
    rcases List.mem_append.1 hj with h | h
    · exact Nat.lt_succ_of_lt (hlt j h)
    · rw [List.mem_singleton] at h
      omega
  unfold select_step
  split
  · split
    · exact ⟨happ, hlt1, [i], rfl⟩
    · exact ⟨hs, fun j hj => Nat.lt_succ_of_lt (hlt j hj), [], (List.append_nil sel).symm⟩
  · exact ⟨hs, fun j hj => Nat.lt_succ_of_lt (hlt j hj), [], (List.append_nil sel).symm⟩

theorem select_loop_sorted (Jc_iM_JcT : Nat → Nat → Real) :
    ∀ (n i : Nat) (sel : List Nat), sel.Pairwise (· < ·) → (∀ j ∈ sel, j < i) →
      (select_loop Jc_iM_JcT n i sel).Pairwise (· < ·)
        ∧ (∀ j ∈ select_loop Jc_iM_JcT n i sel, j < i + n)
        ∧ ∃ l : List Nat, select_loop Jc_iM_JcT n i sel = sel ++ l := by
  intro n
  induction n with
  | zero =>
    intro i sel hs hlt
    exact ⟨hs, fun j hj => hlt j hj, [], (List.append_nil sel).symm⟩
  | succ n ih =>
    intro i sel hs hlt
    obtain ⟨h1, h2, l1, h3⟩ := select_step_sorted Jc_iM_JcT sel i hs hlt
    obtain ⟨h4, h5, l2, h6⟩ := ih (i + 1) (select_step Jc_iM_JcT sel i) h1 h2
    unfold select_loop
    refine ⟨h4, fun j hj => by have := h5 j hj; omega, l1 ++ l2, ?_⟩
    rw [h6, h3, List.append_assoc]

theorem filterMap_getElem_length (group : List Event) :
    ∀ sel : List Nat, (∀ p ∈ sel, p < group.length) →
      (sel.filterMap (fun p => group[p]?)).length = sel.length := by
  intro sel
  induction sel with
  | nil => intro _; rfl
  | cons q qs ih =>
    intro h
    have hq := h q (List.mem_cons_self q qs)
    rw [List.filterMap_cons, List.getElem?_eq_getElem hq]
    simp only [List.length_cons]
    rw [ih (fun p hp => h p (List.mem_cons_of_mem q hp))]

/-- C36. For a group with at least 2 Contact events and at least 4 events, the
events left by `determine_minimal_set` are exactly the events at the positions
of the group (every event counted, from 0) that are in the selection `sel` of
contact indices, in order; the group is left with as many events as `sel` has
members; `sel` is strictly increasing and starts with 0. -/
theorem determine_minimal_set_positions (Jc_iM_JcT : Nat → Nat → Real) (group : List Event)
    (hc : 2 ≤ Event.num_contacts group) (he : 4 ≤ group.length) :
    Event.determine_minimal_set Jc_iM_JcT group
      = (select_contacts Jc_iM_JcT (Event.num_contacts group)).filterMap (fun p => group[p]?)
    ∧ (∀ p ∈ select_contacts Jc_iM_JcT (Event.num_contacts group), p < group.length)
    ∧ (Event.determine_minimal_set Jc_iM_JcT group).length
      = (select_contacts Jc_iM_JcT (Event.num_contacts group)).length
    ∧ (select_contacts Jc_iM_JcT (Event.num_contacts group)).Pairwise (· < ·)
    ∧ (select_contacts Jc_iM_JcT (Event.num_contacts group)).head? = some 0 := by
  obtain ⟨hs, hlt, l, hl⟩ := select_loop_sorted Jc_iM_JcT (Event.num_contacts group - 1) 1 [0]
    (List.pairwise_singleton _ _) (by intro j hj; rw [List.mem_singleton] at hj; omega)
  have hnc : Event.num_contacts group ≤ group.length := by
    unfold Event.num_contacts
    exact List.length_filter_le _ _
  have hbound : ∀ p ∈ select_contacts Jc_iM_JcT (Event.num_contacts group),
      p < group.length := by
    intro p hp
    have := hlt p hp
    omega
  have hres : Event.determine_minimal_set Jc_iM_JcT group
      = (select_contacts Jc_iM_JcT (Event.num_contacts group)).filterMap
          (fun p => group[p]?) := by
    unfold Event.determine_minimal_set
    simp only [count_events_eq]
    rw [if_neg (by omega)]
    exact erase_unselected_positions group 0 _ hs (fun p _ => Nat.zero_le p)
  refine ⟨hres, hbound, ?_, hs, ?_⟩
  · rw [hres]
    exact filterMap_getElem_length group _ hbound
  · unfold select_contacts
    rw [hl]
    rfl

theorem determine_minimal_set_positions_witness :
    Event.determine_minimal_set (fun _ _ => 1)
        [limit_event 1 2 0, contact_event 2 5, contact_event 2 6, contact_event 2 7]
      = (select_contacts (fun _ _ => 1) (Event.num_contacts
          [limit_event 1 2 0, contact_event 2 5, contact_event 2 6, contact_event 2 7])).filterMap
          (fun p => [limit_event 1 2 0, contact_event 2 5, contact_event 2 6,
            contact_event 2 7][p]?)
    ∧ (select_contacts (fun _ _ => 1) (Event.num_contacts
          [limit_event 1 2 0, contact_event 2 5, contact_event 2 6,
            contact_event 2 7])).head? = some 0 :=
  ⟨(determine_minimal_set_positions (fun _ _ => 1)
      [limit_event 1 2 0, contact_event 2 5, contact_event 2 6, contact_event 2 7]
      (by decide) (by decide)).1,
   (determine_minimal_set_positions (fun _ _ => 1)
      [limit_event 1 2 0, contact_event 2 5, contact_event 2 6, contact_event 2 7]
      (by decide) (by decide)).2.2.2.2⟩

/-! ## Exchanging the two geometries of a contact -/

/-- C38. For a Contact event with its references set, exchanging
`contact_geom1` and `contact_geom2` negates `calc_event_vel`; with `tol ≥ 0`
the class Separating becomes Impacting, Impacting becomes Separating and
Resting stays; `calc_event_tol` is unchanged, for a norm that gives a vector and
its opposite the same length (as the Euclidean length does). -/
theorem exchange_geoms_negates (B : Bodies) (norm : Vector3 → Real) (K : Motion) (e : Event)
    (g1 g2 : CollisionGeometry) (sb1 sb2 : SingleBodyPtr)
    (ht : e.event_type = EventType.eContact)
    (h1 : e.contact_geom1 = some g1) (h2 : e.contact_geom2 = some g2)
    (hs1 : g1.get_single_body = some sb1) (hs2 : g2.get_single_body = some sb2)
    (htol : 0 ≤ e.tol)
    (hnorm : ∀ a b : Vector3, norm (Vector3.sub a b) = norm (Vector3.sub b a)) :
    (∃ v : Real, e.calc_event_vel B = some v ∧ e.exchange_geoms.calc_event_vel B = some (-v))
    ∧ (e.determine_event_class B = some EventClass.eSeparating ↔
        e.exchange_geoms.determine_event_class B = some EventClass.eImpacting)
    ∧ (e.determine_event_class B = some EventClass.eImpacting ↔
        e.exchange_geoms.determine_event_class B = some EventClass.eSeparating)
    ∧ (e.determine_event_class B = some EventClass.eResting ↔
        e.exchange_geoms.determine_event_class B = some EventClass.eResting)
    ∧ e.exchange_geoms.calc_event_tol norm K = e.calc_event_tol norm K
    ∧ (e.calc_event_tol norm K).isSome = true := by
  have hv := calc_event_vel_contact_eq B e g1 g2 sb1 sb2 ht h1 h2 hs1 hs2
  have hv' := calc_event_vel_contact_eq B e.exchange_geoms g2 g1 sb2 sb1 ht h2 h1 hs2 hs1
  have hp : e.exchange_geoms.contact_point = e.contact_point := rfl
  have hn : e.exchange_geoms.contact_normal = e.contact_normal := rfl
  have htl : e.exchange_geoms.tol = e.tol := rfl
  rw [hp, hn] at hv'
  generalize B.calc_point_vel sb1 e.contact_point e.contact_normal = p at hv hv'
  generalize B.calc_point_vel sb2 e.contact_point e.contact_normal = q at hv hv'
  have hc : e.determine_event_class B = some (if p - q > e.tol then EventClass.eSeparating
      else if p - q < -e.tol then EventClass.eImpacting else EventClass.eResting) := by
    unfold Event.determine_event_class
    rw [hv]
  have hc' : e.exchange_geoms.determine_event_class B
      = some (if q - p > e.tol then EventClass.eSeparating
      else if q - p < -e.tol then EventClass.eImpacting else EventClass.eResting) := by
    unfold Event.determine_event_class
    rw [hv', htl]
  have ht1 : e.calc_event_tol norm K = some (max (norm (Vector3.sub
        (Vector3.add (K.get_lvel sb1) (Vector3.cross (K.get_avel sb1)
          (Vector3.sub e.contact_point (K.get_position sb1))))
        (Vector3.add (K.get_lvel sb2) (Vector3.cross (K.get_avel sb2)
          (Vector3.sub e.contact_point (K.get_position sb2)))))) 1) := by
    unfold Event.calc_event_tol
    rw [ht]
    simp only [h1, h2, hs1, hs2]
  have ht2 : e.exchange_geoms.calc_event_tol norm K = some (max (norm (Vector3.sub
        (Vector3.add (K.get_lvel sb2) (Vector3.cross (K.get_avel sb2)
          (Vector3.sub e.contact_point (K.get_position sb2))))
        (Vector3.add (K.get_lvel sb1) (Vector3.cross (K.get_avel sb1)
          (Vector3.sub e.contact_point (K.get_position sb1)))))) 1) := by
    have h1' : e.exchange_geoms.contact_geom1 = some g2 := h2
    have h2' : e.exchange_geoms.contact_geom2 = some g1 := h1
    have ht' : e.exchange_geoms.event_type = EventType.eContact := ht
    unfold Event.calc_event_tol
    rw [ht']
    simp only [h1', h2', hs1, hs2, hp]
  refine ⟨⟨p - q, hv, by rw [hv']; congr 1; ring⟩, ?_, ?_, ?_, ?_, ?_⟩
  · rw [hc, hc']
    by_cases a1 : p - q > e.tol
    · have a2 : ¬ q - p > e.tol := by intro h; linarith
      have a3 : q - p < -e.tol := by linarith
      simp [a1, a2, a3]
    · by_cases a2 : p - q < -e.tol
      · have a3 : q - p > e.tol := by linarith
        simp [a1, a2, a3]
      · have a3 : ¬ q - p > e.tol := by intro h; apply a2; linarith
        have a4 : ¬ q - p < -e.tol := by intro h; apply a1; linarith
        simp [a1, a2, a3, a4]
  · rw [hc, hc']
    by_cases a1 : p - q > e.tol
    · have a2 : ¬ q - p > e.tol := by intro h; linarith
      have a3 : q - p < -e.tol := by linarith
      simp [a1, a2, a3]
    · by_cases a2 : p - q < -e.tol
      · have a3 : q - p > e.tol := by linarith
        simp [a1, a2, a3]
      · have a3 : ¬ q - p > e.tol := by intro h; apply a2; linarith
        have a4 : ¬ q - p < -e.tol := by intro h; apply a1; linarith
        simp [a1, a2, a3, a4]
  · rw [hc, hc']
    by_cases a1 : p - q > e.tol
    · have a2 : ¬ q - p > e.tol := by intro h; linarith
      have a3 : q - p < -e.tol := by linarith
      simp [a1, a2, a3]
    · by_cases a2 : p - q < -e.tol
      · have a3 : q - p > e.tol := by linarith
        simp [a1, a2, a3]
      · have a3 : ¬ q - p > e.tol := by intro h; apply a2; linarith
        have a4 : ¬ q - p < -e.tol := by intro h; apply a1; linarith
        simp [a1, a2, a3, a4]
  · rw [ht1, ht2, hnorm]
  · rw [ht1]
    rfl

theorem exchange_geoms_negates_witness :
    (∃ v : Real, (default_contact 1 2).calc_event_vel
          (free_bodies [] (fun b => if b = 1 then -1 else 0)) = some v
        ∧ (default_contact 1 2).exchange_geoms.calc_event_vel
          (free_bodies [] (fun b => if b = 1 then -1 else 0)) = some (-v))
    ∧ ((default_contact 1 2).determine_event_class
          (free_bodies [] (fun b => if b = 1 then -1 else 0)) = some EventClass.eImpacting ↔
        (default_contact 1 2).exchange_geoms.determine_event_class
          (free_bodies [] (fun b => if b = 1 then -1 else 0)) = some EventClass.eSeparating) :=
  ⟨(exchange_geoms_negates (free_bodies [] (fun b => if b = 1 then -1 else 0))
      (fun v => |v.x| + |v.y| + |v.z|) still (default_contact 1 2) ⟨some 1⟩ ⟨some 2⟩ 1 2
      rfl rfl rfl rfl rfl (by norm_num [default_contact, Event.new, NEAR_ZERO])
      (fun a b => by simp only [Vector3.sub]; rw [abs_sub_comm a.x, abs_sub_comm a.y,
        abs_sub_comm a.z])).1,
   (exchange_geoms_negates (free_bodies [] (fun b => if b = 1 then -1 else 0))
      (fun v => |v.x| + |v.y| + |v.z|) still (default_contact 1 2) ⟨some 1⟩ ⟨some 2⟩ 1 2
      rfl rfl rfl rfl rfl (by norm_num [default_contact, Event.new, NEAR_ZERO])
      (fun a b => by simp only [Vector3.sub]; rw [abs_sub_comm a.x, abs_sub_comm a.y,
        abs_sub_comm a.z])).2.2.1⟩

/-! ## Spatial vectors as matrices -/

/-- C39 fails on the code: for the twists `t0`, `t1` (unit linear velocities
along `x` and `y`) and the wrenches `w0`, `w1` (forces `(1, 2, 3)` and
`(4, 5, 6)`), under the layout under which `to_matrix` puts wrench `i` in
column `i` of its `6 × 2` matrix, the entry `(0, 1)` of the `2 × 2` result of
`transpose_mult` is `t1.dot(w0) = 2` and not `t0.dot(w1) = 4`: the data array is
filled twist by twist, that is row after row. -/
theorem transpose_mult_layout :
    (to_matrix [⟨⟨1, 2, 3⟩, ⟨0, 0, 0⟩⟩, ⟨⟨4, 5, 6⟩, ⟨0, 0, 0⟩⟩]).column6 0
      = [some 1, some 2, some 3, some 0, some 0, some 0]
    ∧ (to_matrix [⟨⟨1, 2, 3⟩, ⟨0, 0, 0⟩⟩, ⟨⟨4, 5, 6⟩, ⟨0, 0, 0⟩⟩]).column6 1
      = [some 4, some 5, some 6, some 0, some 0, some 0]
    ∧ (transpose_mult [⟨⟨1, 0, 0⟩, ⟨0, 0, 0⟩⟩, ⟨⟨0, 1, 0⟩, ⟨0, 0, 0⟩⟩]
        [⟨⟨1, 2, 3⟩, ⟨0, 0, 0⟩⟩, ⟨⟨4, 5, 6⟩, ⟨0, 0, 0⟩⟩]).entry 0 1 = some 2
    ∧ Twistd.dot ⟨⟨1, 0, 0⟩, ⟨0, 0, 0⟩⟩ ⟨⟨4, 5, 6⟩, ⟨0, 0, 0⟩⟩ = 4
    ∧ Twistd.dot ⟨⟨0, 1, 0⟩, ⟨0, 0, 0⟩⟩ ⟨⟨1, 2, 3⟩, ⟨0, 0, 0⟩⟩ = 2 := by
  refine ⟨?_, ?_, ?_, ?_, ?_⟩
  · simp [to_matrix, MatrixN.column6, MatrixN.entry, List.range_succ]
  · simp [to_matrix, MatrixN.column6, MatrixN.entry, List.range_succ]
  · norm_num [transpose_mult, MatrixN.entry, Twistd.dot]
  · norm_num [Twistd.dot]
  · norm_num [Twistd.dot]

/-! ## Axis-aligned bounding boxes -/

theorem Vector3.get_set (v : Vector3) (i j : Nat) (a : Real) (hi : i < 3) (hj : j < 3) :
    (v.set j a).get i = if i = j then a else v.get i := by
  have hi' : i = 0 ∨ i = 1 ∨ i = 2 := by omega
  have hj' : j = 0 ∨ j = 1 ∨ j = 2 := by omega
  rcases hi' with rfl | rfl | rfl <;> rcases hj' with rfl | rfl | rfl <;>
    simp [Vector3.get, Vector3.set]

theorem expand_axis_get (p : Vector3) (b : AABB) (i j : Nat) (hi : i < 3) (hj : j < 3) :
    (AABB.expand_axis p b j).minp.get i
        = (if i = j then min (b.minp.get i) (p.get i) else b.minp.get i)
    ∧ (AABB.expand_axis p b j).maxp.get i
        = (if i = j then max (b.maxp.get i) (p.get i) else b.maxp.get i) := by
  unfold AABB.expand_axis
  by_cases h1 : p.get j < b.minp.get j
  · simp only [if_pos h1]
    by_cases h2 : p.get j > b.maxp.get j
    · simp only [if_pos h2]
      rw [Vector3.get_set _ i j _ hi hj, Vector3.get_set _ i j _ hi hj]
      by_cases hij : i = j
      · subst hij
        simp only [if_true]
        exact ⟨(min_eq_right (le_of_lt h1)).symm, (max_eq_right (le_of_lt h2)).symm⟩
      · simp only [if_neg hij, and_self]
    · simp only [if_neg h2]
      rw [Vector3.get_set _ i j _ hi hj]
      by_cases hij : i = j
      · subst hij
        simp only [if_true]
        exact ⟨(min_eq_right (le_of_lt h1)).symm, (max_eq_left (not_lt.1 h2)).symm⟩
      · simp only [if_neg hij, and_self]
  · simp only [if_neg h1]
    by_cases h2 : p.get j > b.maxp.get j
    · simp only [if_pos h2]
      rw [Vector3.get_set _ i j _ hi hj]
      by_cases hij : i = j
      · subst hij
        simp only [if_true]
        exact ⟨(min_eq_left (not_lt.1 h1)).symm, (max_eq_right (le_of_lt h2)).symm⟩
      · simp only [if_neg hij, and_self]
    · simp only [if_neg h2]
      by_cases hij : i = j
      · subst hij
        simp only [if_true]
        exact ⟨(min_eq_left (not_lt.1 h1)).symm, (max_eq_left (not_lt.1 h2)).symm⟩
      · simp only [if_neg hij, and_self]

theorem expand_get (b : AABB) (p : Vector3) (i : Fin 3) :
    (b.expand p).minp.get i.val = min (b.minp.get i.val) (p.get i.val)
    ∧ (b.expand p).maxp.get i.val = max (b.maxp.get i.val) (p.get i.val) := by
  have hi := i.isLt
  have e2 := expand_axis_get p (AABB.expand_axis p (AABB.expand_axis p b 0) 1) i.val 2 hi
    (by decide)
  have e1 := expand_axis_get p (AABB.expand_axis p b 0) i.val 1 hi (by decide)
  have e0 := expand_axis_get p b i.val 0 hi (by decide)
  have hexp : b.expand p
      = AABB.expand_axis p (AABB.expand_axis p (AABB.expand_axis p b 0) 1) 2 := rfl
  rw [hexp, e2.1, e2.2, e1.1, e1.2, e0.1, e0.2]
  have hi' : i.val = 0 ∨ i.val = 1 ∨ i.val = 2 := by omega
  rcases hi' with h | h | h <;> rw [h] <;> simp

theorem foldl_expand_bounds (i : Fin 3) : ∀ (ps seen : List Vector3) (b : AABB),
    (∀ q ∈ seen, b.minp.get i.val ≤ q.get i.val ∧ q.get i.val ≤ b.maxp.get i.val) →
    (∃ q ∈ seen, q.get i.val = b.minp.get i.val) →
    (∃ q ∈ seen, q.get i.val = b.maxp.get i.val) →
    (∀ q ∈ seen ++ ps, (ps.foldl AABB.expand b).minp.get i.val ≤ q.get i.val
        ∧ q.get i.val ≤ (ps.foldl AABB.expand b).maxp.get i.val)
      ∧ (∃ q ∈ seen ++ ps, q.get i.val = (ps.foldl AABB.expand b).minp.get i.val)
      ∧ (∃ q ∈ seen ++ ps, q.get i.val = (ps.foldl AABB.expand b).maxp.get i.val) := by
  intro ps
  induction ps with
  | nil =>
    intro seen b h1 h2 h3
    simp only [List.append_nil, List.foldl_nil]
    exact ⟨h1, h2, h3⟩
  | cons p ps ih =>
    intro seen b h1 h2 h3
    obtain ⟨e1, e2⟩ := expand_get b p i
    have hseen : seen ++ p :: ps = (seen ++ [p]) ++ ps := by simp
    rw [hseen, List.foldl_cons]
    apply ih (seen ++ [p]) (b.expand p)
    · intro q hq
      rw [e1, e2]
      rcases List.mem_append.1 hq with hq | hq
      · exact ⟨le_trans (min_le_left _ _) (h1 q hq).1, le_trans (h1 q hq).2 (le_max_left _ _)⟩
      · rw [List.mem_singleton] at hq
        rw [hq]
        exact ⟨min_le_right _ _, le_max_right _ _⟩
    · rw [e1]
      rcases min_choice (b.minp.get i.val) (p.get i.val) with h | h
      · obtain ⟨q, hq, hqe⟩ := h2
        exact ⟨q, List.mem_append_left _ hq, by rw [h, hqe]⟩
      · exact ⟨p, List.mem_append_right _ (List.mem_singleton.2 rfl), h.symm⟩
    · rw [e2]
      rcases max_choice (b.maxp.get i.val) (p.get i.val) with h | h
      · obtain ⟨q, hq, hqe⟩ := h3
        exact ⟨q, List.mem_append_left _ hq, by rw [h, hqe]⟩
      · exact ⟨p, List.mem_append_right _ (List.mem_singleton.2 rfl), h.symm⟩

/-- C40. For a non-empty range of points, `AABB::AABB(begin, end)` returns a
box such that on each of the three axes `minp` is at most and `maxp` at least
the coordinate of every point, `minp` and `maxp` are coordinates of points of
the range (so they are the minimum and the maximum), and `minp` is at most
`maxp`. -/
theorem aabb_of_points_tight (p : Vector3) (ps : List Vector3) :
    ∃ b : AABB, AABB.of_points (p :: ps) = some b
      ∧ ∀ i : Fin 3,
        (∀ q ∈ p :: ps, b.minp.get i.val ≤ q.get i.val ∧ q.get i.val ≤ b.maxp.get i.val)
        ∧ (∃ q ∈ p :: ps, q.get i.val = b.minp.get i.val)
        ∧ (∃ q ∈ p :: ps, q.get i.val = b.maxp.get i.val)
        ∧ b.minp.get i.val ≤ b.maxp.get i.val := by
  refine ⟨ps.foldl AABB.expand { minp := p, maxp := p }, rfl, ?_⟩
  intro i
  obtain ⟨h1, h2, h3⟩ := foldl_expand_bounds i ps [p] { minp := p, maxp := p }
    (by
      intro q hq
      rw [List.mem_singleton] at hq
      rw [hq]
      exact ⟨le_refl _, le_refl _⟩)
    ⟨p, List.mem_singleton.2 rfl, rfl⟩ ⟨p, List.mem_singleton.2 rfl, rfl⟩
  refine ⟨h1, h2, h3, ?_⟩
  have := h1 p (List.mem_cons_self p ps)
  exact le_trans this.1 this.2

/-! ## Links of one articulated body, empty islands and the end of the loops -/

/-- Links of one articulated body, with regular joints: for an event list in
which both links of the joint of every Limit or Constraint event are enabled
(and equal or links of the articulated body that the inboard link reports), two
events that touch enabled links `l1` and `l2` of one articulated body (`l1`
reporting it as its articulated body, and it listing both links) are in the
same island, whether or not a contact event joins `l1` and `l2`. -/
theorem determine_connected_events_links (B : Bodies) (events : List Event)
    (groups : List (List Nat)) (h : Event.determine_connected_events B events = some groups)
    (hj : ∀ e ∈ events, Event.joint_linked B e = true)
    (i1 i2 : Nat) (e1 e2 : Event) (a1 b1 a2 b2 l1 l2 : SingleBodyPtr) (ab : ArticulatedBodyPtr)
    (he1 : events[i1]? = some e1) (he2 : events[i2]? = some e2)
    (hb1 : e1.get_bodies = some (a1, b1)) (hb2 : e2.get_bodies = some (a2, b2))
    (h1 : l1 ∈ [a1, b1]) (h2 : l2 ∈ [a2, b2])
    (hen1 : B.is_enabled l1 = true) (hen2 : B.is_enabled l2 = true)
    (hab : B.get_articulated_body l1 = some ab)
    (hl1 : l1 ∈ B.get_links ab) (hl2 : l2 ∈ B.get_links ab) :
    ∃ g ∈ groups, i1 ∈ g ∧ i2 ∈ g := by
  obtain ⟨isl, rs, _, hg, hcopy, _, hrun⟩ := determine_connected_events_run B events groups h
  have hptr := copy_events_nodup events 0 rs hcopy
  obtain ⟨r1, hr1, hp1, _, hs11, hs12⟩ :=
    copy_events_find events rs hcopy i1 e1 a1 b1 he1 (get_bodies_ne_none e1 _ hb1) hb1
  obtain ⟨r2, hr2, hp2, _, hs21, hs22⟩ :=
    copy_events_find events rs hcopy i2 e2 a2 b2 he2 (get_bodies_ne_none e2 _ hb2) hb2
  have ht1 : r1.touches l1 = true := (touches_list r1 l1).2 (by rw [hs11, hs12]; exact h1)
  have ht2 : r2.touches l2 = true := (touches_list r2 l2).2 (by rw [hs21, hs22]; exact h2)
  have hn1 := adds_node_of_touches B events rs hcopy r1 hr1 l1 ht1 hen1
  have hn2 := adds_node_of_touches B events rs hcopy r2 hr2 l2 ht2 hen2
  obtain ⟨k1, I1, hk1, hin1, _, _⟩ :=
    run_placed hrun r1 hr1 ((touches_any_iff r1 _).2 ⟨l1, hn1, ht1⟩)
  obtain ⟨k2, I2, hk2, hin2, _, _⟩ :=
    run_placed hrun r2 hr2 ((touches_any_iff r2 _).2 ⟨l2, hn2, ht2⟩)
  have hp1' := run_linked_popped hrun hptr k1 I1 hk1 r1 hr1 hin1
    (graph_linked B events rs hcopy hj r1 hr1) l1 hn1 ht1
  have hp2' := run_linked_popped hrun hptr k2 I2 hk2 r2 hr2 hin2
    (graph_linked B events rs hcopy hj r2 hr2) l2 hn2 ht2
  have hl2I1 : l2 ∈ I1.popped := by
    by_cases hne : l1 = l2
    · rw [← hne]; exact hp1'
    · exact run_closed hrun k1 I1 hk1 l1 l2
        (build_graph_link_edge B rs l1 ab (l1, l2) hn1 hab
          (link_edges_complete _ _ l1 l2 hl1 hl2 hne hn1 hn2)) hp1'
  have hk : k1 = k2 := run_disjoint hrun k1 k2 I1 I2 l2 hk1 hk2 hl2I1 hp2'
  subst hk
  rw [hk1] at hk2
  have hI : I1 = I2 := Option.some.inj hk2
  subst hI
  refine ⟨I1.group, ?_, ?_, ?_⟩
  · rw [hg]
    exact List.mem_map.2 ⟨I1, List.getElem?_mem hk1, rfl⟩
  · rw [← hp1]; exact hin1
  · rw [← hp2]; exact hin2

theorem determine_connected_events_links_witness :
    Event.determine_connected_events (arm_bodies []) [contact_event 1 5, contact_event 2 6]
      = some [[0, 1]]
    ∧ ∃ g ∈ [[0, 1]], 0 ∈ g ∧ 1 ∈ g :=
  ⟨by decide, determine_connected_events_links (arm_bodies []) [contact_event 1 5, contact_event 2 6]
    [[0, 1]] (by decide) (by decide) 0 1 (contact_event 1 5) (contact_event 2 6) 1 5 2 6 1 2 7
    rfl rfl rfl rfl (by decide) (by decide) rfl rfl rfl (by decide) (by decide)⟩

/-- No empty island, with regular joints: for an event list in which both
links of the joint of every Limit or Constraint event are enabled (and equal or
links of the articulated body that the inboard link reports, hence joined in
the body graph), every island returned by `determine_connected_events` contains
at least one event. -/
theorem determine_connected_events_nonempty (B : Bodies) (events : List Event)
    (groups : List (List Nat)) (h : Event.determine_connected_events B events = some groups)
    (hj : ∀ e ∈ events, Event.joint_linked B e = true) :
    ∀ g ∈ groups, g ≠ [] := by
  obtain ⟨isl, rs, _, hg, hcopy, _, hrun⟩ := determine_connected_events_run B events groups h
  have hptr := copy_events_nodup events 0 rs hcopy
  intro g hgm
  rw [hg] at hgm
  obtain ⟨k, I, hk, hIg⟩ := groups_mem isl g hgm
  obtain ⟨start, hstart, _⟩ := run_reach hrun k I hk
  have hS := run_popped_sub hrun k I hk start hstart
  obtain ⟨r, hr, hadd⟩ := (build_graph_nodes_mem B rs start).1 hS
  have ht := adds_node_touches B r start hadd
  obtain ⟨k', I', hk', hin, _, _⟩ :=
    run_placed hrun r hr ((touches_any_iff r _).2 ⟨start, hS, ht⟩)
  have hp := run_linked_popped hrun hptr k' I' hk' r hr hin
    (graph_linked B events rs hcopy hj r hr) start hS ht
  have hkk : k = k' := run_disjoint hrun k k' I I' start hk hk' hstart hp
  subst hkk
  rw [hk] at hk'
  have hI : I = I' := Option.some.inj hk'
  subst hI
  rw [← hIg]
  exact List.ne_nil_of_mem hin

theorem determine_connected_events_nonempty_witness :
    Event.determine_connected_events (arm_bodies [])
        [contact_event 1 5, limit_event 1 2 0, contact_event 8 9] = some [[0, 1], [2]]
    ∧ ∀ g ∈ [[0, 1], [2]], g ≠ [] :=
  ⟨by decide, determine_connected_events_nonempty (arm_bodies [])
    [contact_event 1 5, limit_event 1 2 0, contact_event 8 9] [[0, 1], [2]]
    (by decide) (by decide)⟩

theorem process_queue_stable (edges : List (SingleBodyPtr × SingleBodyPtr)) (fuel : Nat) :
    ∀ s : Traversal, (process_queue edges fuel s).node_q = [] →
      ∀ k : Nat, process_queue edges (fuel + k) s = process_queue edges fuel s := by
  induction fuel with
  | zero =>
    intro s hq k
    have hs : s.node_q = [] := hq
    cases k with
    | zero => rfl
    | succ k =>
      show process_queue edges (0 + (k + 1)) s = s
      rw [Nat.zero_add]
      unfold process_queue
      rw [hs]
  | succ fuel ih =>
    intro s hq k
    have hk : fuel + 1 + k = (fuel + k) + 1 := by omega
    rw [hk]
    unfold process_queue
    unfold process_queue at hq
    cases hs : s.node_q with
    | nil => rfl
    | cons node rest =>
      rw [hs] at hq
      exact ih _ hq k

theorem build_islands_stable (edges : List (SingleBodyPtr × SingleBodyPtr))
    (hsymm : ∀ a b, (a, b) ∈ edges → (b, a) ∈ edges) (fuel : Nat) :
    ∀ (S : List SingleBodyPtr) (ec : List EventRef), S.length < fuel → S.Nodup →
      (∀ a b, (a, b) ∈ edges → a ∈ S → b ∈ S) →
      ∀ k : Nat, build_islands edges (fuel + k) S ec = build_islands edges fuel S ec := by
  induction fuel with
  | zero => intro S ec h; exact absurd h (Nat.not_lt_zero _)
  | succ fuel ih =>
    intro S ec hlen hS hclosed k
    have hk : fuel + 1 + k = (fuel + k) + 1 := by omega
    rw [hk]
    cases S with
    | nil => rfl
    | cons node nodes =>
      obtain ⟨hq, hinv⟩ := first_island edges node nodes ec hS hclosed
      unfold build_islands
      simp only
      congr 1
      refine ih _ _ ?_ hinv.nodup (inv_nodes_closed hinv hq hsymm hclosed) k
      have hsub : ∀ x, x ∈ (process_queue edges (queue_fuel edges.length (node :: nodes) [node])
          { nodes := node :: nodes, node_q := [node], events_copy := ec,
            popped := [], group := [] }).nodes → x ∈ nodes := by
        intro x hx
        obtain ⟨hxS, hxp⟩ := (hinv.nodes_iff x).1 hx
        rcases List.mem_cons.1 hxS with hx1 | hx1
        · rw [hx1] at hxp
          exact absurd (inv_start_popped hinv hq) hxp
        · exact hx1
      have := (List.subperm_of_subset hinv.nodup hsub).length_le
      simp only [List.length_cons] at hlen
      omega

/-- C34. For every event list whose references are set the call returns: the
queue loop, run for the passes that `queue_fuel` grants, always ends with an
empty queue (more passes change nothing), whatever the queue holds and whatever
edges (self-loops included) the multimap holds; the outer loop, run for one
pass more than there are nodes, ends with every node taken off a queue (more
passes change nothing), and every one of its passes takes at least one node
off the queue. -/
theorem determine_connected_events_terminates (B : Bodies) (events : List Event)
    (h : ∀ e ∈ events, e.event_type ≠ EventType.eNone → e.get_bodies ≠ none) :
    ∃ (rs : List EventRef) (islands : List Island),
      copy_events 0 events = some rs
      ∧ Event.determine_connected_events B events = some (islands.map Island.group)
      ∧ Run (build_graph B rs).edges (build_graph B rs).nodes rs islands
      ∧ (∀ k : Nat, build_islands (build_graph B rs).edges
          ((build_graph B rs).nodes.length + 1 + k) (build_graph B rs).nodes rs = islands)
      ∧ (∀ I ∈ islands, I.popped ≠ [])
      ∧ (∀ x : SingleBodyPtr, x ∈ (build_graph B rs).nodes ↔ ∃ I ∈ islands, x ∈ I.popped)
      ∧ ∀ (edges : List (SingleBodyPtr × SingleBodyPtr)) (s : Traversal) (k : Nat),
          (process_queue edges (queue_fuel edges.length s.nodes s.node_q) s).node_q = []
          ∧ process_queue edges (queue_fuel edges.length s.nodes s.node_q + k) s
            = process_queue edges (queue_fuel edges.length s.nodes s.node_q) s := by
  obtain ⟨rs, hcopy⟩ := copy_events_some events 0 h
  have hrun := build_graph_run B rs
  refine ⟨rs, build_islands (build_graph B rs).edges ((build_graph B rs).nodes.length + 1)
    (build_graph B rs).nodes rs, hcopy, ?_, hrun, ?_, ?_, ?_, ?_⟩
  · unfold Event.determine_connected_events Event.connected_islands
    rw [hcopy]
    rfl
  · intro k
    exact build_islands_stable _ (build_graph_symm B rs) _ _ rs (Nat.lt_succ_self _)
      (build_graph_nodup B rs) (fun a b hab ha => build_graph_closed B rs a b hab ha) k
  · intro I hI
    obtain ⟨k, hk⟩ := List.getElem?_of_mem hI
    obtain ⟨start, hstart, _⟩ := run_reach hrun k I hk
    exact List.ne_nil_of_mem hstart
  · intro x
    constructor
    · intro hx
      obtain ⟨k, I, hk, hxI⟩ := run_cover hrun x hx
      exact ⟨I, List.getElem?_mem hk, hxI⟩
    · rintro ⟨I, hI, hxI⟩
      obtain ⟨k, hk⟩ := List.getElem?_of_mem hI
      exact run_popped_sub hrun k I hk x hxI
  · intro edges s k
    have hd := process_queue_drains edges (queue_fuel edges.length s.nodes s.node_q) s
      (le_refl _)
    exact ⟨hd, process_queue_stable edges _ s hd k⟩

theorem determine_connected_events_terminates_witness :
    Event.determine_connected_events (free_bodies [] (fun _ => 0))
        [contact_event 1 1, contact_event 1 2, contact_event 1 3, contact_event 2 3]
      = some [[0, 1, 2, 3]]
    ∧ ∃ (rs : List EventRef) (islands : List Island),
      copy_events 0 [contact_event 1 1, contact_event 1 2, contact_event 1 3, contact_event 2 3]
        = some rs
      ∧ Event.determine_connected_events (free_bodies [] (fun _ => 0))
          [contact_event 1 1, contact_event 1 2, contact_event 1 3, contact_event 2 3]
        = some (islands.map Island.group)
      ∧ ∀ I ∈ islands, I.popped ≠ [] :=
  ⟨by decide,
   (determine_connected_events_terminates (free_bodies [] (fun _ => 0))
      [contact_event 1 1, contact_event 1 2, contact_event 1 3, contact_event 2 3]
      (by decide)).elim fun rs hrs => hrs.elim fun islands hi =>
        ⟨rs, islands, hi.1, hi.2.1, hi.2.2.2.2.1⟩⟩

/-! ## Disabled links made nodes by a joint -/

/-- C3 fails on the code: the contacts of the boxes 2 and 3 with the disabled
body 1 are both placed in island 0, although no contact between enabled bodies
and no articulated body joins any two bodies of the list (no two bodies are
adjacent at all): the limit event on a joint of body 1 makes the disabled body
a node, and the island started at it takes every event that refers to it. The
same happens when body 1 is the disabled base of an arm and the limit event is
on the joint of the arm. -/
theorem determine_connected_events_joins_unconnected :
    Event.determine_connected_events (free_bodies [1] (fun _ => 0))
        [contact_event 2 1, contact_event 1 3, limit_event 1 4 0] = some [[0, 1, 2], [], [], []]
    ∧ (contact_event 2 1).get_bodies = some (2, 1)
    ∧ (contact_event 1 3).get_bodies = some (1, 3)
    ∧ (free_bodies [1] (fun _ => 0)).is_enabled 1 = false
    ∧ (∀ x y : SingleBodyPtr, ¬ Event.adjacent (free_bodies [1] (fun _ => 0))
        [contact_event 2 1, contact_event 1 3, limit_event 1 4 0] x y)
    ∧ Event.determine_connected_events (arm_bodies [1])
        [contact_event 5 1, contact_event 1 6, limit_event 1 2 0] = some [[0, 1, 2], [], []] := by
  refine ⟨by decide, rfl, rfl, rfl, ?_, by decide⟩
  intro x y h
  rcases h with ⟨e, he, ht, hb, hx, hy⟩ | ⟨ab, h1, _⟩
  · simp only [List.mem_cons, List.mem_singleton, List.not_mem_nil, or_false] at he
    rcases he with rfl | rfl | rfl
    · rcases hb with hb | hb
      · have h2 : (2, 1) = (x, y) := Option.some.inj hb
        rw [Prod.mk.injEq] at h2
        rw [← h2.2] at hy
        exact absurd hy (by decide)
      · have h2 : (2, 1) = (y, x) := Option.some.inj hb
        rw [Prod.mk.injEq] at h2
        rw [← h2.2] at hx
        exact absurd hx (by decide)
    · rcases hb with hb | hb
      · have h2 : (1, 3) = (x, y) := Option.some.inj hb
        rw [Prod.mk.injEq] at h2
        rw [← h2.1] at hx
        exact absurd hx (by decide)
      · have h2 : (1, 3) = (y, x) := Option.some.inj hb
        rw [Prod.mk.injEq] at h2
        rw [← h2.1] at hy
        exact absurd hy (by decide)
    · exact absurd ht (by decide)
  · exact absurd h1 (List.not_mem_nil x)

/-- C7 fails on the code: the box 5 is in contact with the disabled base 1 of
an arm and the base is in contact with the box 6; the boxes are enabled, free,
and part of no other event; the limit event on the joint of the arm makes the
disabled base a node, and both contacts are placed in island 0 instead of two
different islands. -/
theorem determine_connected_events_disabled_joins :
    Event.determine_connected_events (arm_bodies [1])
        [contact_event 5 1, contact_event 1 6, limit_event 1 2 0] = some [[0, 1, 2], [], []]
    ∧ (contact_event 5 1).get_bodies = some (5, 1)
    ∧ (contact_event 1 6).get_bodies = some (1, 6)
    ∧ (limit_event 1 2 0).get_bodies = some (1, 2)
    ∧ (arm_bodies [1]).is_enabled 5 = true
    ∧ (arm_bodies [1]).is_enabled 6 = true
    ∧ (arm_bodies [1]).is_enabled 1 = false
    ∧ (arm_bodies [1]).get_articulated_body 5 = none
    ∧ (arm_bodies [1]).get_articulated_body 6 = none
    ∧ (arm_bodies [1]).get_links 7 = [1, 2]
    ∧ ¬ Event.connected (arm_bodies [1])
        [contact_event 5 1, contact_event 1 6, limit_event 1 2 0] 5 6 := by
  refine ⟨by decide, rfl, rfl, rfl, rfl, rfl, rfl, rfl, rfl, rfl, ?_⟩
  have hstay : ∀ z, Event.connected (arm_bodies [1])
      [contact_event 5 1, contact_event 1 6, limit_event 1 2 0] 5 z → z = 5 := by
    intro z hz
    induction hz with
    | refl => rfl
    | tail _ hstep ih =>
      rw [ih] at hstep
      rcases hstep with ⟨e, he, ht, hb, hx, hy⟩ | ⟨ab, h1, _⟩
      · simp only [List.mem_cons, List.mem_singleton, List.not_mem_nil, or_false] at he
        rcases he with rfl | rfl | rfl
        · rcases hb with hb | hb
          · have h2 := Option.some.inj hb
            rw [Prod.mk.injEq] at h2
            rw [← h2.2] at hy
            exact absurd hy (by decide)
          · have h2 := Option.some.inj hb
            rw [Prod.mk.injEq] at h2
            exact absurd h2.2 (by decide)
        · rcases hb with hb | hb
          · have h2 := Option.some.inj hb
            rw [Prod.mk.injEq] at h2
            exact absurd h2.1 (by decide)
          · have h2 := Option.some.inj hb
            rw [Prod.mk.injEq] at h2
            exact absurd h2.2 (by decide)
        · exact absurd ht (by decide)
      · by_cases h7 : ab = 7
        · subst h7
          exact absurd h1 (by decide)
        · have hl : (arm_bodies [1]).get_links ab = [] := if_neg h7
          rw [hl] at h1
          exact absurd h1 (List.not_mem_nil _)
  intro h
  exact absurd (hstay 6 h) (by decide)

/-- C31 fails on the code: the links 3 and 4 of one arm are enabled; link 3 is
in contact with the disabled base 1 of another arm, link 4 with the box 9. The
limit event on the joint of the other arm makes its disabled base a node; the
island started at that node takes the contact of link 3, and the contact of
link 4 is placed in the next island. -/
theorem determine_connected_events_splits_arm :
    Event.determine_connected_events (two_arms [1])
        [contact_event 3 1, limit_event 1 2 0, contact_event 4 9] = some [[0, 1], [2]]
    ∧ (contact_event 3 1).get_bodies = some (3, 1)
    ∧ (contact_event 4 9).get_bodies = some (4, 9)
    ∧ (limit_event 1 2 0).get_bodies = some (1, 2)
    ∧ (two_arms [1]).is_enabled 3 = true ∧ (two_arms [1]).is_enabled 4 = true
    ∧ (two_arms [1]).is_enabled 1 = false
    ∧ (two_arms [1]).get_articulated_body 3 = some 8
    ∧ (two_arms [1]).get_articulated_body 4 = some 8
    ∧ (two_arms [1]).get_links 8 = [3, 4]
    ∧ (two_arms [1]).get_articulated_body 1 = some 7
    ∧ (two_arms [1]).get_links 7 = [1, 2]
    ∧ Event.node_set (two_arms [1])
        [contact_event 3 1, limit_event 1 2 0, contact_event 4 9] = [1, 2, 3, 4, 9] := by
  decide

/-- C35 fails on the code: the disabled base 1 of an arm is in contact with the
box 5, and a limit event is on the joint of the arm. The limit event makes the
disabled base a node; the island started at it takes both events, and the
island started at the box 5 is empty. -/
theorem determine_connected_events_leaves_empty_island :
    Event.determine_connected_events (arm_bodies [1]) [contact_event 1 5, limit_event 1 2 0]
      = some [[0, 1], []]
    ∧ Event.node_set (arm_bodies [1]) [contact_event 1 5, limit_event 1 2 0] = [1, 2, 5]
    ∧ (limit_event 1 2 0).get_bodies = some (1, 2)
    ∧ (arm_bodies [1]).is_enabled 1 = false
    ∧ (arm_bodies [1]).get_articulated_body 1 = some 7
    ∧ (arm_bodies [1]).get_articulated_body 2 = some 7
    ∧ (arm_bodies [1]).get_links 7 = [1, 2] := by
  decide

end Moby
